import Mathlib

/-! quickblob: a shallow embedding of the blob extraction engine

The C sources `src/quickblob.c` (pool, row adapter, segment scanner, row-order list,
sibling chains, frame driver), the alignment computation of `src/detect_blob.c` and one
iteration of the control loop of `src/camcar.c` are embedded as Lean functions.

* C `int` values are `Int`.  Where the code multiplies and accumulates coordinates and pixel
  counts (`blob_update`) every `int` result is reduced to 32 bits (`wrap32`); elsewhere `int`
  values are only copied, compared or stepped by one and are left as exact integers.
* C `double` values are the rational numbers they denote.  Every `double` operation is the exact
  operation followed by the rounding `to_double` to binary64 (nearest, ties to even); infinities
  and NaN are not modelled.
* A `struct blob*` is an `Option Nat`: `none` is `NULL`, `some i` is the address of record `i`
  (`&head[i]` for the pool array).  The store is a total function `Nat → blob`.
* A result of type `Option _` is `none` when the C code would dereference `NULL`, read outside
  the row buffer, or when the fuel given to a `while` loop is exhausted.
-/

namespace QuickBlob

/-! ## Data model -/

/-- The record `struct blob`. -/
structure blob where
  size : Int
  color : Int
  x1 : Int
  x2 : Int
  y : Int
  prev : Option Nat
  next : Option Nat
  sib_p : Option Nat
  sib_n : Option Nat
  center_x : ℚ
  center_y : ℚ
  bb_x1 : Int
  bb_y1 : Int
  bb_x2 : Int
  bb_y2 : Int
deriving DecidableEq

/-- The store of blob records, addressed by record number. -/
abbrev Mem := Nat → blob

/-- The record `struct stream_state`: the flag `wrap` is a C `int` used as a truth value,
the row buffer holds `unsigned char` values. -/
structure stream_state where
  w : Int
  h : Int
  x : Int
  y : Int
  wrap : Bool
  row : List Nat
deriving DecidableEq

/-- The record `struct blob_list`: `head` is the record array (`head i` is `head[i]`),
`empties` the array of free record pointers. -/
structure blob_list where
  head : Mem
  length : Nat
  empties : Nat → Option Nat
  empty_i : Nat

/-! ## Field assignments through a pointer -/

/-- The assignment `a->prev = v`. -/
def set_prev (m : Mem) (a : Nat) (v : Option Nat) : Mem :=
  Function.update m a { m a with prev := v }

/-- The assignment `a->next = v`. -/
def set_next (m : Mem) (a : Nat) (v : Option Nat) : Mem :=
  Function.update m a { m a with next := v }

/-- The assignment `a->sib_p = v`. -/
def set_sib_p (m : Mem) (a : Nat) (v : Option Nat) : Mem :=
  Function.update m a { m a with sib_p := v }

/-- The assignment `a->sib_n = v`. -/
def set_sib_n (m : Mem) (a : Nat) (v : Option Nat) : Mem :=
  Function.update m a { m a with sib_n := v }

/-! ## Pool -/

/-- The function `blank`: every field is overwritten. -/
def blank (b : blob) : blob :=
  { b with
    size := 0, color := -1, x1 := -1, x2 := -1, y := -1,
    prev := none, next := none, sib_p := none, sib_n := none,
    center_x := 0, center_y := 0,
    bb_x1 := -1, bb_y1 := -1, bb_x2 := -1, bb_y2 := -1 }

/-- One iteration of the `for` loop of `init_blobs`, for the index `i`. -/
def init_blobs_step (blist : blob_list) (i : Nat) : blob_list :=
  let blist := { blist with head := Function.update blist.head i (blank (blist.head i)) }
  if i > 0 then
    { blist with
      empties := Function.update blist.empties blist.empty_i (some i),
      empty_i := blist.empty_i + 1 }
  else blist

/-- The function `init_blobs` (its C return value is the constant 0):
`empty_i = 0`, then the loop over `i = 0 .. length - 1`. -/
def init_blobs (blist : blob_list) : blob_list :=
  (List.range blist.length).foldl init_blobs_step { blist with empty_i := 0 }

/-! ## Row-order list and sibling chain surgery -/

/-- The function `blob_unlink`. -/
def blob_unlink (m : Mem) (b2 : Nat) : Mem :=
  let b1 := (m b2).prev
  let b3 := (m b2).next
  let m := match b1 with
    | some p => set_next m p b3
    | none => m
  let m := match b3 with
    | some n => set_prev m n b1
    | none => m
  let m := set_next (set_prev m b2 none) b2 none
  let s1 := (m b2).sib_p
  let s3 := (m b2).sib_n
  let m := match s1 with
    | some p => set_sib_n m p s3
    | none => m
  let m := match s3 with
    | some n => set_sib_p m n s1
    | none => m
  set_sib_n (set_sib_p m b2 none) b2 none

/-- The first half of `blob_unlink` (lines 84 to 88): removal from the row-order list. -/
def unlink_row (m : Mem) (b2 : Nat) : Mem :=
  let b1 := (m b2).prev
  let b3 := (m b2).next
  let m := match b1 with
    | some p => set_next m p b3
    | none => m
  let m := match b3 with
    | some n => set_prev m n b1
    | none => m
  set_next (set_prev m b2 none) b2 none

/-- The second half of `blob_unlink` (lines 90 to 94): removal from the sibling chain. -/
def unlink_sib (m : Mem) (b2 : Nat) : Mem :=
  let s1 := (m b2).sib_p
  let s3 := (m b2).sib_n
  let m := match s1 with
    | some p => set_sib_n m p s3
    | none => m
  let m := match s3 with
    | some n => set_sib_p m n s1
    | none => m
  set_sib_n (set_sib_p m b2 none) b2 none

/-- The store after the two assignments `b1->next = b2; b2->prev = b1` of `blob_insert`
(lines 104 and 105, and again lines 112 and 113). -/
def link_after (m : Mem) (b1 b2 : Nat) : Mem :=
  set_prev (set_next m b1 (some b2)) b2 (some b1)

/-- The store after the four assignments of lines 104 to 107 of `blob_insert`. -/
def link_between (m : Mem) (b1 b2 b3 : Nat) : Mem :=
  set_prev (set_next (link_after m b1 b2) b2 (some b3)) b3 (some b2)

/-- The `while (b1->next)` loop of `blob_insert` together with the append after it;
one unit of fuel per evaluation of the loop condition. -/
def blob_insert_loop : Nat → Mem → Nat → Nat → Option Mem
  | 0, _, _, _ => none
  | fuel + 1, m, b1, b2 =>
    match (m b1).next with
    | none =>
      let m := set_next m b1 (some b2)
      some (set_prev m b2 (some b1))
    | some b3 =>
      if (m b1).x1 ≤ (m b2).x1 ∧ (m b2).x1 ≤ (m b3).x1 then
        let m := set_next m b1 (some b2)
        let m := set_prev m b2 (some b1)
        let m := set_next m b2 (some b3)
        some (set_prev m b3 (some b2))
      else blob_insert_loop fuel m b3 b2

/-- The function `blob_insert`: `b1 = bl_start->prev` fails on a null `bl_start`, and the
first `b1->next` fails on a null `b1`. -/
def blob_insert (fuel : Nat) (m : Mem) (bl_start : Option Nat) (b2 : Nat) : Option Mem :=
  match bl_start with
  | none => none
  | some s =>
    match (m s).prev with
    | none => none
    | some b1 => blob_insert_loop fuel m b1 b2

/-- The loop `while (b->sib_p) b = b->sib_p;` of `sib_link`. -/
def sib_head : Nat → Mem → Nat → Option Nat
  | 0, _, _ => none
  | fuel + 1, m, b =>
    match (m b).sib_p with
    | none => some b
    | some p => sib_head fuel m p

/-- The loop `while (b1 && b2)` of `sib_link`; one unit of fuel per executed body. -/
def sib_merge : Nat → Mem → Option Nat → Option Nat → Option Mem
  | _, m, none, _ => some m
  | _, m, some _, none => some m
  | 0, _, some _, some _ => none
  | fuel + 1, m, some b1, some b2 =>
    if (m b2).x1 < (m b1).x1 then sib_merge fuel m (some b2) (some b1)
    else
      match (m b1).sib_n with
      | some n =>
        if (m n).x1 < (m b2).x1 then sib_merge fuel m (some n) (some b2)
        else
          let m := set_sib_n m b1 (some b2)
          let m := set_sib_p m b2 (some b1)
          sib_merge fuel m (some b2) (some n)
      | none =>
        let m := set_sib_n m b1 (some b2)
        let m := set_sib_p m b2 (some b1)
        sib_merge fuel m (some b2) none

/-- The store after the two assignments `b1->sib_n = b2; b2->sib_p = b1` of the loop of
`sib_link` (lines 183 and 184). -/
def splice (m : Mem) (b1 b2 : Nat) : Mem :=
  set_sib_p (set_sib_n m b1 (some b2)) b2 (some b1)

/-- The function `sib_link`; the same fuel bounds each of its three loops. -/
def sib_link (fuel : Nat) (m : Mem) (b1 b2 : Nat) : Option Mem :=
  match sib_head fuel m b1, sib_head fuel m b2 with
  | some r1, some r2 => if r1 = r2 then some m else sib_merge fuel m (some r1) (some r2)
  | _, _ => none

/-! ## Segment scanner -/

/-- The read `stream->row[x]`, defined inside the buffer only. -/
def row_at (row : List Nat) (x : Int) : Option Int :=
  if 0 ≤ x then (row.get? x.toNat).map Int.ofNat else none

/-- The loop `while (stream->x < stream->w && b->color == stream->row[stream->x]) stream->x++;`
of `scan_segment`, returning the final `x`. -/
def scan_loop (row : List Nat) (w color : Int) : Nat → Int → Option Int
  | 0, x => if x < w then none else some x
  | fuel + 1, x =>
    if x < w then
      match row_at row x with
      | none => none
      | some c => if color = c then scan_loop row w color fuel (x + 1) else some x
    else some x

/-- The function `scan_segment`: the C return value, the stream and the record afterwards.
The loop gets `w - x` units of fuel, which is the number of columns left. -/
def scan_segment (stream : stream_state) (b : blob) : Option (Int × stream_state × blob) :=
  if stream.wrap then some (1, stream, b)
  else
    match row_at stream.row stream.x with
    | none => none
    | some c =>
      let b := { b with x1 := stream.x, color := c }
      match scan_loop stream.row stream.w b.color (stream.w - stream.x).toNat stream.x with
      | none => none
      | some x => some (0, { stream with x := x }, { b with x2 := x - 1 })

/-! ## Machine arithmetic -/

/-- The value of a C `int` result on the target: the exact result reduced to 32 bits, two's
complement (the C standard leaves signed overflow undefined; the machine wraps). -/
def wrap32 (z : Int) : Int :=
  (z + 2147483648) % 4294967296 - 2147483648

/-- The integer nearest to `x`; of two integers at the same distance the even one. -/
def round_even (x : ℚ) : Int :=
  if x - (⌊x⌋ : ℚ) < 1 / 2 then ⌊x⌋
  else if 1 / 2 < x - (⌊x⌋ : ℚ) then ⌊x⌋ + 1
  else if ⌊x⌋ % 2 = 0 then ⌊x⌋ else ⌊x⌋ + 1

/-- The exponent of the last binary place of a `double` near `q`: 53 significant bits, and
never below the exponent `-1074` of the subnormal numbers. -/
def ulp_exp (q : ℚ) : Int :=
  max (Int.log 2 |q| - 52) (-1074)

/-- The value of a C `double` result: the exact result `q` rounded to binary64, to the nearest
multiple of `2 ^ ulp_exp q`, ties to even.  Every operation is rounded on its own (no fused
multiply-add).  Results of magnitude `2 ^ 1024` and more (infinity on the machine) and
divisions by zero are not modelled. -/
def to_double (q : ℚ) : ℚ :=
  (round_even (q / 2 ^ ulp_exp q) : ℚ) * 2 ^ ulp_exp q

/-- The finite values of a `double`: `m * 2 ^ e` with `|m| < 2 ^ 53` and `-1074 ≤ e ≤ 971`. -/
def IsDouble (q : ℚ) : Prop :=
  ∃ m e : Int, |m| < 2 ^ 53 ∧ -1074 ≤ e ∧ e ≤ 971 ∧ q = (m : ℚ) * 2 ^ e

/-! ## Running statistics -/

/-- The function `bbox_update`. -/
def bbox_update (b : blob) (x1 x2 y1 y2 : Int) : blob :=
  let b := if b.bb_x1 < 0 ∨ x1 < b.bb_x1 then { b with bb_x1 := x1 } else b
  let b := if x2 > b.bb_x2 then { b with bb_x2 := x2 } else b
  let b := if b.bb_y1 < 0 ∨ y1 < b.bb_y1 then { b with bb_y1 := y1 } else b
  if y2 > b.bb_y2 then { b with bb_y2 := y2 } else b

/-- The function `blob_update`.  The variables `s2`, `x1`, `x2`, `y` and `b->size` are `int`:
`1 + x2 - x1`, `(x1 + x2) * s2 / 2` (a truncating division), `y * s2` and `b->size + s2` are
computed in 32 bits.  The centroid is a `double`: the product with `b->size`, the sum and the
quotient are each rounded (an `int` operand is converted exactly). -/
def blob_update (b : blob) (x1 x2 y : Int) : blob :=
  let s2 := wrap32 (wrap32 (1 + x2) - x1)
  let b := { b with
    center_x := to_double (to_double (to_double (b.center_x * (b.size : ℚ))
        + (((wrap32 (wrap32 (x1 + x2) * s2)).tdiv 2 : Int) : ℚ))
      / ((wrap32 (b.size + s2) : Int) : ℚ)) }
  let b := { b with
    center_y := to_double (to_double (to_double (b.center_y * (b.size : ℚ))
        + ((wrap32 (y * s2) : Int) : ℚ))
      / ((wrap32 (b.size + s2) : Int) : ℚ)) }
  let b := { b with size := wrap32 (b.size + s2) }
  bbox_update b x1 x2 y y

/-! ## Frame driver: start of a row -/

/-- Lines 208 and 210 of `extract_image`: `init_blobs(&blist)` at the frame boundary, then
the scan start `blob_prev = blist.head->next` of the first row (`next_row` and its hook have
no access to the pool). -/
def extract_image_row_start (blist : blob_list) : blob_list × Option Nat :=
  let blist := init_blobs blist
  (blist, (blist.head 0).next)

/-! ## Row adapter and frame driver -/

/-- The supplier hooks called by `quickblob.c`; they are external to it.  `U` is the type of
the user structure that every hook receives and may change, next to the stream; the first
component of a result is the C return value. -/
structure hooks (U : Type) where
  init_pixel_stream_hook : U → stream_state → Int × U × stream_state
  close_pixel_stream_hook : U → stream_state → Int × U × stream_state
  next_row_hook : U → stream_state → Int × U × stream_state
  next_frame_hook : U → stream_state → Int × U × stream_state

/-- The functions `empty_blob`, `blob_reap`, `sib_find` and `flush_old_blobs` that
`extract_image` calls; their bodies are not part of the sources, so they are parameters.
A result `none` stands for a call that does not return normally. -/
structure helpers (U : Type) where
  empty_blob : blob_list → Option (blob_list × Option Nat)
  blob_reap : blob_list → Option Nat → Option blob_list
  sib_find : Mem → Option Nat → Option Nat → Option Mem
  flush_old_blobs : U → blob_list → Int → Option (U × blob_list)

/-- The stream after `memset(stream, 0, sizeof(struct stream_state))`. -/
def zero_stream : stream_state :=
  { w := 0, h := 0, x := 0, y := 0, wrap := false, row := [] }

/-- The function `init_pixel_stream`; `malloc` is taken to succeed, and the fresh row buffer
of `w` bytes is shown filled with zeros. -/
def init_pixel_stream {U : Type} (K : hooks U) (u : U) : Int × U × stream_state :=
  match K.init_pixel_stream_hook u zero_stream with
  | (r, u, stream) =>
    if r ≠ 0 then (1, u, stream)
    else
      (0, u, { stream with
        row := List.replicate stream.w.toNat 0, x := 0, y := -1, wrap := false })

/-- The function `next_row`, for a given supplier hook. -/
def next_row {U : Type} (next_row_hook : U → stream_state → Int × U × stream_state)
    (u : U) (stream : stream_state) : Int × U × stream_state :=
  if stream.y ≥ stream.h then (1, u, stream)
  else next_row_hook u { stream with wrap := false, x := 0, y := stream.y + 1 }

/-- The function `next_frame`, for a given supplier hook. -/
def next_frame {U : Type} (next_frame_hook : U → stream_state → Int × U × stream_state)
    (u : U) (stream : stream_state) : Int × U × stream_state :=
  next_frame_hook u { stream with wrap := false, x := 0, y := -1 }

/-- The loop `while (!stream.wrap)` of `extract_image` (lines 211 to 221), entered with the
scan start `blob_prev`; one unit of fuel per executed body. -/
def row_loop {U : Type} (H : helpers U) :
    Nat → stream_state → blob_list → Option Nat → Option (stream_state × blob_list)
  | 0, stream, blist, _ => if stream.wrap then some (stream, blist) else none
  | fuel + 1, stream, blist, blob_prev =>
    if stream.wrap then some (stream, blist)
    else
      match H.empty_blob blist with
      | none => none
      | some (_, none) => none
      | some (blist, some blob_now) =>
        match scan_segment stream (blist.head blob_now) with
        | none => none
        | some (r, stream, b) =>
          let blist := { blist with head := Function.update blist.head blob_now b }
          if r ≠ 0 then
            match H.blob_reap blist (some blob_now) with
            | none => none
            | some blist => row_loop H fuel stream blist blob_prev
          else
            let b := blist.head blob_now
            let blist := { blist with
              head := Function.update blist.head blob_now (blob_update b b.x1 b.x2 stream.y) }
            match H.sib_find blist.head (blist.head 0).next (some blob_now) with
            | none => none
            | some m =>
              match blob_insert fuel m blob_prev blob_now with
              | none => none
              | some m => row_loop H fuel stream { blist with head := m } (some blob_now)

/-- The loop `while (!next_row(user_struct, &stream))` of `extract_image` (lines 209 to
223); one unit of fuel per call of `next_row`. -/
def rows_loop {U : Type} (H : helpers U) (K : hooks U) :
    Nat → U → stream_state → blob_list → Option (U × stream_state × blob_list)
  | 0, _, _, _ => none
  | fuel + 1, u, stream, blist =>
    match next_row K.next_row_hook u stream with
    | (r, u, stream) =>
      if r ≠ 0 then some (u, stream, blist)
      else
        match row_loop H fuel stream blist (blist.head 0).next with
        | none => none
        | some (stream, blist) =>
          match H.flush_old_blobs u blist stream.y with
          | none => none
          | some (u, blist) => rows_loop H K fuel u stream blist

/-- The loop `while (!next_frame(user_struct, &stream))` of `extract_image` (lines 207 to
224); one unit of fuel per call of `next_frame`. -/
def frames_loop {U : Type} (H : helpers U) (K : hooks U) :
    Nat → U → stream_state → blob_list → Option (U × stream_state × blob_list)
  | 0, _, _, _ => none
  | fuel + 1, u, stream, blist =>
    match next_frame K.next_frame_hook u stream with
    | (r, u, stream) =>
      if r ≠ 0 then some (u, stream, blist)
      else
        match rows_loop H K fuel u stream (init_blobs blist) with
        | none => none
        | some (u, stream, blist) => frames_loop H K fuel u stream blist

/-- The function `extract_image`: the C return value and the user structure afterwards, or
`none` when the run does not end normally.  `raw` is the content of the two freshly allocated
arrays of the pool (`malloc` is taken to succeed); the same fuel bounds every loop. -/
def extract_image {U : Type} (H : helpers U) (K : hooks U) (fuel : Nat) (raw : blob_list)
    (u : U) : Option (Int × U) :=
  match init_pixel_stream K u with
  | (r, u, stream) =>
    if r ≠ 0 then some (1, u)
    else
      match frames_loop H K fuel u stream { raw with length := (stream.w + 5).toNat } with
      | none => none
      | some (u, stream, _) =>
        match K.close_pixel_stream_hook u stream with
        | (_, u, _) => some (0, u)

/-- The iteration of `scan_segment` over one row for as long as `x < w`, each call writing
into the record left by the call before; the records of the runs, in order.  One unit of fuel
per call. -/
def scan_runs : Nat → stream_state → blob → Option (List blob)
  | 0, stream, _ => if stream.x < stream.w then none else some []
  | fuel + 1, stream, b =>
    if stream.x < stream.w then
      match scan_segment stream b with
      | none => none
      | some (r, stream, b) =>
        if r ≠ 0 then some []
        else (scan_runs fuel stream b).map (fun runs => b :: runs)
    else some []

/-- The run `s` starts right behind the run `r` and has another color. -/
def NextRun (r s : blob) : Prop :=
  s.x1 = r.x2 + 1 ∧ r.color ≠ s.color

/-- The run `r` is not empty and every pixel of it in the row has the color of `r`. -/
def RunOf (row : List Nat) (r : blob) : Prop :=
  r.x1 ≤ r.x2 ∧ ∀ i, r.x1 ≤ i → i ≤ r.x2 → row_at row i = some r.color

/-- The rows `y0, y0 + 1, ..., y0 + n - 1`. -/
def rows_from (y0 : Int) (n : Nat) : List Int :=
  (List.range n).map (fun (k : Nat) => y0 + (k : Int))

/-- The calls `blob_update(b, x0, x1, y)` for the rows `y` of a list, in order. -/
def update_rows (b : blob) (x0 x1 : Int) (ys : List Int) : blob :=
  ys.foldl (fun b y => blob_update b x0 x1 y) b

/-! ## Blob search wrapper (`detect_blob.c`) -/

/-- The record `TJImage`. -/
structure TJImage where
  w : Int
  h : Int
  numChannels : Int
  data : List Nat

/-- The record `TBlobSearch` (without the image pointer); `halign` and `valign` are `none`
as long as nothing has been assigned to them. -/
structure TBlobSearch where
  blob : blob
  halign : Option ℚ
  valign : Option ℚ
  size : Int

/-- The function `imageSearchBlob` after its call of `extract_image`: `blob_max` is the value
of `dblob.blob_max` left by the extraction.  The quotient, the product with `2.0` and the sum
with `-1.0` are `double` operations, each rounded; the `int` width and height are converted
exactly. -/
def imageSearchBlob (pimg : TJImage) (blob_max : blob) : TBlobSearch :=
  let blob_res : TBlobSearch :=
    { blob := blob_max, halign := none, valign := none, size := blob_max.size }
  if blob_max.size > 0 then
    { blob_res with
      halign := some (to_double (-1 + to_double (2 * to_double (blob_max.center_x / (pimg.w : ℚ))))),
      valign := some (to_double (-1 + to_double (2 * to_double (blob_max.center_y / (pimg.h : ℚ))))) }
  else blob_res

/-! ## Control loop (`camcar.c`) -/

/-- The calls of the robot library made by the control loop. -/
inductive action where
  | DriveForward (speed : Int)
  | DriveReverse (speed : Int)
  | SpinLeft (speed : Int)
  | SpinRight (speed : Int)
  | delay (ms : Int)
deriving DecidableEq

/-- The constant `DIST_MIN`. -/
def DIST_MIN : Int := 60

/-- The constant `DIST_MAX`. -/
def DIST_MAX : Int := 100

/-- The states `distok`, `tooclose`, `toofar` of the distance automaton. -/
inductive distanceState where
  | distok
  | tooclose
  | toofar
deriving DecidableEq

/-- One iteration of the `while` loop of `camcar`, from the values read in it (the two IR
sensors, the blob of the camera thread, the local and the shared blob number, the ultrasonic
distance) to the calls of the robot library in order and the local blob number afterwards.
Display calls are left out. -/
def camcar_step (irLeft irRight blob_size : Int) (halign : ℚ) (blobnr ptdat_blobnr : Int)
    (distance : Int) : List action × Int :=
  let obstacle_L := irLeft ≠ 0
  let obstacle_R := irRight ≠ 0
  if obstacle_L ∨ obstacle_R then ([action.DriveForward 0], blobnr)
  else
    if ¬ (blob_size > 20) then
      if blobnr < ptdat_blobnr then
        ([action.SpinLeft 50, action.delay 200, action.DriveForward 0], ptdat_blobnr)
      else ([], blobnr)
    else
      if ¬ (halign ≥ -(1 / 4) ∧ halign ≤ 1 / 4) then
        if blobnr < ptdat_blobnr then
          if halign < 0 then
            ([action.SpinRight 40, action.delay 150, action.DriveForward 0], ptdat_blobnr)
          else
            ([action.SpinLeft 40, action.delay 150, action.DriveForward 0], ptdat_blobnr)
        else ([], blobnr)
      else
        let state :=
          if distance < DIST_MIN then distanceState.tooclose
          else if distance > DIST_MAX then distanceState.toofar
          else distanceState.distok
        match state with
        | distanceState.toofar => ([action.DriveForward 40], blobnr)
        | distanceState.tooclose => ([action.DriveReverse 40], blobnr)
        | distanceState.distok => ([action.DriveForward 0], blobnr)

/-! ## Well-formed lists -/

/-- Two records are neighbours with respect to a successor map `nx` and a predecessor map
`pv`. -/
def Linked (nx pv : Nat → Option Nat) (a b : Nat) : Prop :=
  nx a = some b ∧ pv b = some a

/-- A whole doubly-linked list with respect to a successor map `nx` and a predecessor map `pv`;
`IsRowList` and `IsSibChain` are the instances for the two pairs of link fields. -/
def IsDList (nx pv : Nat → Option Nat) (l : List Nat) : Prop :=
  l.Nodup ∧ l.Chain' (Linked nx pv) ∧
    (∀ a ∈ l.head?, pv a = none) ∧ (∀ a ∈ l.getLast?, nx a = none)

/-- Records `a` and `b` are neighbours in the row-order list: `a->next = b`, `b->prev = a`. -/
def RowLinked (m : Mem) (a b : Nat) : Prop :=
  (m a).next = some b ∧ (m b).prev = some a

/-- Records `a` and `b` are neighbours in a sibling chain: `a->sib_n = b`, `b->sib_p = a`. -/
def SibLinked (m : Mem) (a b : Nat) : Prop :=
  (m a).sib_n = some b ∧ (m b).sib_p = some a

/-- The list `l` is a whole row-order list of `m`, first record first: no record occurs twice,
neighbours point at each other, the first has no `prev` and the last no `next`. -/
def IsRowList (m : Mem) (l : List Nat) : Prop :=
  l.Nodup ∧ l.Chain' (RowLinked m) ∧
    (∀ a ∈ l.head?, (m a).prev = none) ∧ (∀ a ∈ l.getLast?, (m a).next = none)

/-- The list `l` is a whole sibling chain of `m`, head first: no record occurs twice,
neighbours point at each other, the head has no `sib_p` and the last no `sib_n`. -/
def IsSibChain (m : Mem) (l : List Nat) : Prop :=
  l.Nodup ∧ l.Chain' (SibLinked m) ∧
    (∀ a ∈ l.head?, (m a).sib_p = none) ∧ (∀ a ∈ l.getLast?, (m a).sib_n = none)

/-- Record `a` is not to the right of record `b`: `a->x1 <= b->x1`. -/
def LeX1 (m : Mem) (a b : Nat) : Prop :=
  (m a).x1 ≤ (m b).x1

/-- The records of `l` are in non-decreasing order of `x1`. -/
def SortedX1 (m : Mem) (l : List Nat) : Prop :=
  l.Pairwise (LeX1 m)

/-- The records `a` of `m` and `b` of `n` agree on every field that is not a link. -/
def SameData (a b : blob) : Prop :=
  a.size = b.size ∧ a.color = b.color ∧ a.x1 = b.x1 ∧ a.x2 = b.x2 ∧ a.y = b.y ∧
    a.center_x = b.center_x ∧ a.center_y = b.center_y ∧
    a.bb_x1 = b.bb_x1 ∧ a.bb_y1 = b.bb_y1 ∧ a.bb_x2 = b.bb_x2 ∧ a.bb_y2 = b.bb_y2

/-! ## Successive calls of the row adapter -/

/-- A supplier hook that also keeps a record of its calls: the user structure is paired with
the list of the row indices `y` of the streams the hook was invoked with, the latest last. -/
def logged {U : Type} (hook : U → stream_state → Int × U × stream_state) :
    U × List Int → stream_state → Int × (U × List Int) × stream_state :=
  fun ul stream =>
    match hook ul.1 stream with
    | (r, u, stream2) => (r, (u, ul.2 ++ [stream.y]), stream2)

/-- The first `n` of a sequence of calls of `next_row`: their return values in order, and the
user structure and the stream after them. -/
def next_rows {U : Type} (next_row_hook : U → stream_state → Int × U × stream_state) :
    Nat → U → stream_state → List Int × U × stream_state
  | 0, u, stream => ([], u, stream)
  | n + 1, u, stream =>
    match next_row next_row_hook u stream with
    | (r, u, stream) =>
      match next_rows next_row_hook n u stream with
      | (rs, u, stream) => (r :: rs, u, stream)

/-! ## Concrete inputs -/

/-- A record with arbitrary old contents. -/
def junk : blob :=
  { size := 3, color := 7, x1 := 4, x2 := 6, y := 2,
    prev := some 1, next := some 2, sib_p := some 3, sib_n := some 4,
    center_x := 5, center_y := 2,
    bb_x1 := 4, bb_y1 := 2, bb_x2 := 6, bb_y2 := 2 }

/-- A record with the given `x1` and links, otherwise blank. -/
def node (x1 : Int) (prev next sib_p sib_n : Option Nat) : blob :=
  { blank junk with x1 := x1, prev := prev, next := next, sib_p := sib_p, sib_n := sib_n }

/-- A store with the row-order list `0, 1, 2` (record 0 is the sentinel, `x1 = -1`), the
sibling chains `1, 3` and `2, 4`, and the unlinked record 5. -/
def mem5 : Mem := fun i =>
  match i with
  | 0 => node (-1) none (some 1) none none
  | 1 => node 2 (some 0) (some 2) none (some 3)
  | 2 => node 5 (some 1) none none (some 4)
  | 3 => node 4 none none (some 1) none
  | 4 => node 7 none none (some 2) none
  | _ => node 3 none none none none

/-- A pool for a one-pixel-wide frame (`length = w + 5 = 6`) with old contents. -/
def pool6 : blob_list :=
  { head := fun _ => junk, length := 6, empties := fun _ => none, empty_i := 4 }

/-- A stream at the start of a one-pixel row. -/
def stream1 : stream_state :=
  { w := 1, h := 1, x := 0, y := 0, wrap := false, row := [7] }

/-- The user structure of a still image: the symbolic colors of its pixels row by row, the
number of frames handed out, and the blobs reported so far. -/
structure still_user where
  rows : List (List Nat)
  frame : Nat
  reported : List blob

/-- Modelled from the spec: the supplier hooks for a single still image, whose bodies are not
part of the sources.  The stream gets the width of the first row and the number of rows;
exactly one frame is handed out; a row is filled with the colors of image row `y`. -/
def still_hooks : hooks still_user :=
  { init_pixel_stream_hook := fun u stream =>
      (0, u, { stream with w := ((u.rows.headD []).length : Int), h := (u.rows.length : Int) }),
    close_pixel_stream_hook := fun u stream => (0, u, stream),
    next_row_hook := fun u stream => (0, u, { stream with row := u.rows.getD stream.y.toNat [] }),
    next_frame_hook := fun u stream =>
      if u.frame = 0 then (0, { u with frame := 1 }, stream) else (1, u, stream) }

/-- The 5x5 frame of the end-to-end scenario: color A is 0, red is 1, and the red square
covers rows 1 to 2 and columns 1 to 2. -/
def image5 : still_user :=
  { rows := [[0, 0, 0, 0, 0], [0, 1, 1, 0, 0], [0, 1, 1, 0, 0], [0, 0, 0, 0, 0],
      [0, 0, 0, 0, 0]],
    frame := 0, reported := [] }

/-- A stream of width 0 right after `next_row`. -/
def stream0 (h y : Int) : stream_state :=
  { w := 0, h := h, x := 0, y := y, wrap := false, row := [] }

/-- A 200x200 image, the size of the camera pictures. -/
def image200 : TJImage :=
  { w := 200, h := 200, numChannels := 3, data := [] }

/-- An image three pixels wide. -/
def image3 : TJImage :=
  { w := 3, h := 3, numChannels := 3, data := [] }

/-- A found blob of four pixels with the given centre. -/
def found (cx cy : ℚ) : blob :=
  { blank junk with size := 4, center_x := cx, center_y := cy }

/-- The three-pixel row `7 7 9`. -/
def stream3 : stream_state :=
  { w := 3, h := 1, x := 0, y := 0, wrap := false, row := [7, 7, 9] }

/-! ## Segment scanner: proofs -/

/-- The scanning loop, started inside the row with enough fuel, stops at the first column
`x2` that is the row end or holds another color; all columns passed hold the color `c`. -/
theorem scan_loop_spec (row : List Nat) (w c : Int) (hlen : (row.length : Int) = w) :
    ∀ (fuel : Nat) (x : Int), 0 ≤ x → x ≤ w → (w - x).toNat ≤ fuel →
      ∃ x2, scan_loop row w c fuel x = some x2 ∧ x ≤ x2 ∧ x2 ≤ w ∧
        (∀ i, x ≤ i → i < x2 → row_at row i = some c) ∧
        (x2 = w ∨ row_at row x2 ≠ some c) := by
  intro fuel
  induction fuel with
  | zero =>
    intro x _ hxw hf
    have : x = w := by omega
    subst this
    exact ⟨x, by simp [scan_loop], le_refl _, le_refl _, by intro i h1 h2; omega, Or.inl rfl⟩
  | succ k ih =>
    intro x hx0 hxw hf
    by_cases hlt : x < w
    · have hin : x.toNat < row.length := by omega
      have hrow : row_at row x = some (Int.ofNat (row.get ⟨x.toNat, hin⟩)) := by
        simp [row_at, hx0, List.getElem?_eq_getElem hin]
      by_cases hc : c = Int.ofNat (row.get ⟨x.toNat, hin⟩)
      · obtain ⟨x2, h1, h2, h3, h4, h5⟩ := ih (x + 1) (by omega) (by omega) (by omega)
        refine ⟨x2, ?_, by omega, h3, ?_, h5⟩
        · rw [scan_loop, if_pos hlt, hrow]
          simp only [if_pos hc]
          exact h1
        · intro i hi1 hi2
          by_cases hix : i = x
          · subst hix; rw [hrow, hc]
          · exact h4 i (by omega) hi2
      · refine ⟨x, ?_, le_refl _, hxw, by intro i h1 h2; omega, Or.inr ?_⟩
        · rw [scan_loop, if_pos hlt, hrow]
          simp only [if_neg hc]
        · rw [hrow]; intro h; exact hc (Option.some.inj h).symm
    · have : x = w := by omega
      subst this
      exact ⟨x, by simp [scan_loop], le_refl _, le_refl _, by intro i h1 h2; omega, Or.inl rfl⟩

/-- The function `scan_segment` never writes the flag `wrap`: whatever it returns, the flag
is the one it was called with. -/
theorem scan_segment_wrap_unchanged (stream : stream_state) (b : blob)
    (r : Int) (s : stream_state) (b2 : blob)
    (h : scan_segment stream b = some (r, s, b2)) : s.wrap = stream.wrap := by
  unfold scan_segment at h
  split at h
  · simp only [Option.some.injEq, Prod.mk.injEq] at h
    rw [← h.2.1]
  · split at h
    · exact absurd h (by simp)
    · dsimp only at h
      split at h
      · exact absurd h (by simp)
      · simp only [Option.some.injEq, Prod.mk.injEq] at h
        rw [← h.2.1]

/-- C3, evaluated on the code: on the one-pixel row `[7]` with `x = 0` and `wrap = false`,
`scan_segment` succeeds and moves the cursor to `x = 1 = w`, so the run ended at column
`w - 1`, and yet the flag `wrap` is still false. -/
theorem scan_segment_wrap_stays_false :
    ∃ s b, scan_segment stream1 junk = some (0, s, b) ∧ s.x = s.w ∧ s.wrap = false :=
  ⟨{ stream1 with x := 1 }, { junk with x1 := 0, color := 7, x2 := 0 },
    by decide, by decide, by decide⟩

/-- C4: called with `wrap = false`, `0 ≤ x < w` and a row buffer of length `w`,
`scan_segment` returns success (0) with `b.x1` the old `x`, `b.color = row[old x]`,
`b.x2 = new x - 1` and `x1 ≤ x2`; every `row[i]` with `x1 ≤ i ≤ x2` is that color; the new `x`
is `w` or `row[new x]` is another color.  The stream changes in the field `x` only, the record
in the fields `x1`, `color`, `x2` only. -/
theorem scan_segment_maximal_run (stream : stream_state) (b : blob)
    (hwrap : stream.wrap = false) (hx0 : 0 ≤ stream.x) (hxw : stream.x < stream.w)
    (hlen : (stream.row.length : Int) = stream.w) :
    ∃ (x2 c : Int),
      scan_segment stream b
        = some (0, { stream with x := x2 },
            { b with x1 := stream.x, color := c, x2 := x2 - 1 }) ∧
      row_at stream.row stream.x = some c ∧
      stream.x ≤ x2 - 1 ∧ x2 ≤ stream.w ∧
      (∀ i, stream.x ≤ i → i ≤ x2 - 1 → row_at stream.row i = some c) ∧
      (x2 = stream.w ∨ row_at stream.row x2 ≠ some c) := by
  have hin : stream.x.toNat < stream.row.length := by omega
  have hrow : row_at stream.row stream.x
      = some (Int.ofNat (stream.row.get ⟨stream.x.toNat, hin⟩)) := by
    simp [row_at, hx0, List.getElem?_eq_getElem hin]
  generalize Int.ofNat (stream.row.get ⟨stream.x.toNat, hin⟩) = c at hrow
  obtain ⟨k, hk⟩ : ∃ k, (stream.w - stream.x).toNat = k + 1 :=
    ⟨(stream.w - stream.x).toNat - 1, by omega⟩
  obtain ⟨x2, h1, h2, h3, h4, h5⟩ :=
    scan_loop_spec stream.row stream.w c hlen k (stream.x + 1) (by omega) (by omega) (by omega)
  refine ⟨x2, c, ?_, hrow, by omega, h3, ?_, h5⟩
  · simp only [scan_segment, hwrap, hrow, hk, scan_loop, if_pos hxw, h1]
    simp
  · intro i hi1 hi2
    by_cases hix : i = stream.x
    · rw [hix, hrow]
    · exact h4 i (by omega) (by omega)

/-- C4 at the one-pixel row `[7]`. -/
theorem scan_segment_maximal_run_witness :
    ∃ (x2 c : Int),
      scan_segment stream1 junk
        = some (0, { stream1 with x := x2 },
            { junk with x1 := stream1.x, color := c, x2 := x2 - 1 }) ∧
      row_at stream1.row stream1.x = some c ∧
      stream1.x ≤ x2 - 1 ∧ x2 ≤ stream1.w ∧
      (∀ i, stream1.x ≤ i → i ≤ x2 - 1 → row_at stream1.row i = some c) ∧
      (x2 = stream1.w ∨ row_at stream1.row x2 ≠ some c) :=
  scan_segment_maximal_run stream1 junk rfl (by decide) (by decide) (by decide)

/-! ## Machine arithmetic: proofs -/

/-- The nearest integer is at most `1/2` away. -/
theorem round_even_near (x : ℚ) : |((round_even x : Int) : ℚ) - x| ≤ 1 / 2 := by
  have h1 := Int.floor_le x
  have h2 := Int.lt_floor_add_one x
  unfold round_even
  rw [abs_le]
  split_ifs <;> push_cast <;> constructor <;> linarith

theorem round_even_intCast (n : Int) : round_even (n : ℚ) = n := by
  unfold round_even
  simp

theorem floor_le_round_even (x : ℚ) : ⌊x⌋ ≤ round_even x := by
  unfold round_even
  split_ifs <;> omega

theorem round_even_le_floor_succ (x : ℚ) : round_even x ≤ ⌊x⌋ + 1 := by
  unfold round_even
  split_ifs <;> omega

/-- Rounding to the nearest integer is monotone. -/
theorem round_even_mono {x y : ℚ} (h : x ≤ y) : round_even x ≤ round_even y := by
  have hf : ⌊x⌋ ≤ ⌊y⌋ := Int.floor_mono h
  rcases hf.lt_or_eq with hlt | heq
  · have h1 := round_even_le_floor_succ x
    have h2 := floor_le_round_even y
    omega
  · unfold round_even
    rw [← heq]
    split_ifs <;> first | omega | (exfalso; linarith)

theorem two_zpow_pos (e : Int) : (0 : ℚ) < 2 ^ e := zpow_pos (by norm_num) e

/-- A value is below `2 ^ 53` units of its last place. -/
theorem abs_lt_ulp (q : ℚ) : |q| < 2 ^ (ulp_exp q + 53) := by
  have h := Int.lt_zpow_succ_log_self (by norm_num : 1 < 2) |q|
  have h2 : Int.log 2 |q| + 1 ≤ ulp_exp q + 53 := by
    have := le_max_left (Int.log 2 |q| - 52) (-1074)
    unfold ulp_exp
    omega
  have h3 : ((2 : ℕ) : ℚ) ^ (Int.log 2 |q| + 1) ≤ 2 ^ (ulp_exp q + 53) := by
    rw [Nat.cast_ofNat]
    exact zpow_le_zpow_right₀ (by norm_num) h2
  exact lt_of_lt_of_le h h3

theorem ulp_exp_ge (q : ℚ) : -1074 ≤ ulp_exp q := le_max_right _ _

/-- A value that is not subnormal is at least `2 ^ 52` units of its last place. -/
theorem ulp_le_abs {q : ℚ} (hq : q ≠ 0) (he : -1074 < ulp_exp q) : 2 ^ (ulp_exp q + 52) ≤ |q| := by
  have hpos : 0 < |q| := abs_pos.mpr hq
  have h := Int.zpow_log_le_self (by norm_num : 1 < 2) hpos
  have h2 : ulp_exp q = Int.log 2 |q| - 52 := by
    unfold ulp_exp at he ⊢
    rcases max_cases (Int.log 2 |q| - 52) (-1074) with ⟨h1, _⟩ | ⟨h1, _⟩
    · exact h1
    · rw [h1] at he; omega
  have h3 : ulp_exp q + 52 = Int.log 2 |q| := by omega
  rw [h3]
  rw [Nat.cast_ofNat] at h
  exact h

theorem ulp_exp_mono {q1 q2 : ℚ} (h1 : q1 ≠ 0) (h : |q1| ≤ |q2|) : ulp_exp q1 ≤ ulp_exp q2 := by
  unfold ulp_exp
  have := @Int.log_mono_right ℚ _ _ 2 _ _ (abs_pos.mpr h1) h
  exact max_le_max (by omega) le_rfl

/-- A value `m * 2 ^ E` with `|m| < 2 ^ 53` and `E ≥ -1074` is a double: rounding leaves it
unchanged. -/
theorem to_double_exact (m E : Int) (hm : |m| < 2 ^ 53) (hE : -1074 ≤ E) :
    to_double ((m : ℚ) * 2 ^ E) = (m : ℚ) * 2 ^ E := by
  by_cases hm0 : m = 0
  · subst hm0
    unfold to_double
    simp [round_even_intCast]
    left
    have := round_even_intCast 0
    simpa using this
  have h2 : (2 : ℚ) ≠ 0 := by norm_num
  have hq : (m : ℚ) * 2 ^ E ≠ 0 := mul_ne_zero (by exact_mod_cast hm0) (zpow_ne_zero _ h2)
  have hle : ulp_exp ((m : ℚ) * 2 ^ E) ≤ E := by
    by_contra hcon
    push_neg at hcon
    have he : -1074 < ulp_exp ((m : ℚ) * 2 ^ E) := by omega
    have h1 := ulp_le_abs hq he
    rw [abs_mul, abs_of_pos (two_zpow_pos E)] at h1
    have h3 : |(m : ℚ)| < 2 ^ (53 : Int) := by
      rw [show ((2 : ℚ) ^ (53 : Int)) = ((2 ^ 53 : Int) : ℚ) by norm_num, ← Int.cast_abs]
      exact_mod_cast hm
    have h4 : |(m : ℚ)| * 2 ^ E < 2 ^ (53 : Int) * 2 ^ E := mul_lt_mul_of_pos_right h3 (two_zpow_pos E)
    rw [← zpow_add₀ h2] at h4
    have h5 := lt_of_le_of_lt h1 h4
    have h6 := (zpow_lt_zpow_iff_right₀ (by norm_num : (1 : ℚ) < 2)).mp h5
    omega
  obtain ⟨k, hk⟩ := Int.le.dest hle
  unfold to_double
  generalize ulp_exp ((m : ℚ) * 2 ^ E) = e at hk ⊢
  subst hk
  have h7 : (m : ℚ) * 2 ^ (e + (k : Int)) / 2 ^ e = ((m * 2 ^ k : Int) : ℚ) := by
    rw [zpow_add₀ h2, zpow_natCast]
    push_cast
    field_simp
    ring
  rw [h7, round_even_intCast, zpow_add₀ h2, zpow_natCast]
  push_cast
  ring

theorem to_double_int (k : Int) (hk : |k| < 2 ^ 53) : to_double (k : ℚ) = k := by
  have := to_double_exact k 0 hk (by norm_num)
  simpa using this

theorem to_double_half (k : Int) (hk : |k| < 2 ^ 53) : to_double ((k : ℚ) / 2) = (k : ℚ) / 2 := by
  have := to_double_exact k (-1) hk (by norm_num)
  have h : (k : ℚ) * 2 ^ (-1 : Int) = (k : ℚ) / 2 := by
    rw [zpow_neg_one]; ring
  rwa [h] at this

theorem to_double_nonneg {q : ℚ} (h : 0 ≤ q) : 0 ≤ to_double q := by
  unfold to_double
  have h1 : (0 : ℚ) ≤ q / 2 ^ ulp_exp q := div_nonneg h (two_zpow_pos _).le
  have h2 := round_even_mono h1
  have h3 : round_even (0 : ℚ) = 0 := by simpa using round_even_intCast 0
  rw [h3] at h2
  exact mul_nonneg (by exact_mod_cast h2) (two_zpow_pos _).le

theorem to_double_nonpos {q : ℚ} (h : q ≤ 0) : to_double q ≤ 0 := by
  unfold to_double
  have h1 : q / 2 ^ ulp_exp q ≤ 0 := div_nonpos_of_nonpos_of_nonneg h (two_zpow_pos _).le
  have h2 := round_even_mono h1
  have h3 : round_even (0 : ℚ) = 0 := by simpa using round_even_intCast 0
  rw [h3] at h2
  exact mul_nonpos_of_nonpos_of_nonneg (by exact_mod_cast h2) (two_zpow_pos _).le

/-- The rounding error is at most half a unit in the last place. -/
theorem to_double_near (q : ℚ) : |to_double q - q| ≤ 2 ^ ulp_exp q / 2 := by
  have h := round_even_near (q / 2 ^ ulp_exp q)
  have hp := two_zpow_pos (ulp_exp q)
  unfold to_double
  have h1 : (round_even (q / 2 ^ ulp_exp q) : ℚ) * 2 ^ ulp_exp q - q
      = ((round_even (q / 2 ^ ulp_exp q) : ℚ) - q / 2 ^ ulp_exp q) * 2 ^ ulp_exp q := by
    field_simp
  rw [h1, abs_mul, abs_of_pos hp]
  calc |(round_even (q / 2 ^ ulp_exp q) : ℚ) - q / 2 ^ ulp_exp q| * 2 ^ ulp_exp q
      ≤ 1 / 2 * 2 ^ ulp_exp q := mul_le_mul_of_nonneg_right h hp.le
    _ = 2 ^ ulp_exp q / 2 := by ring

theorem two_zpow_add (e : Int) (n : Nat) : (2 : ℚ) ^ (e + (n : Int)) = ((2 ^ n : Int) : ℚ) * 2 ^ e := by
  rw [zpow_add₀ (by norm_num : (2 : ℚ) ≠ 0), zpow_natCast]
  push_cast
  ring

theorem two_zpow_52 (e : Int) : (2 : ℚ) ^ (e + 52) = 4503599627370496 * 2 ^ e := by
  have := two_zpow_add e 52
  push_cast at this
  rw [this]

theorem two_zpow_53 (e : Int) : (2 : ℚ) ^ (e + 53) = 9007199254740992 * 2 ^ e := by
  have := two_zpow_add e 53
  push_cast at this
  rw [this]

theorem to_double_le_of (q : ℚ) (N : Int) (h : q ≤ (N : ℚ) * 2 ^ ulp_exp q) :
    to_double q ≤ (N : ℚ) * 2 ^ ulp_exp q := by
  have hp := two_zpow_pos (ulp_exp q)
  have h1 : q / 2 ^ ulp_exp q ≤ (N : ℚ) := by
    rw [div_le_iff₀ hp]; exact h
  have h2 := round_even_mono h1
  rw [round_even_intCast] at h2
  unfold to_double
  exact mul_le_mul_of_nonneg_right (by exact_mod_cast h2) hp.le

theorem to_double_ge_of (q : ℚ) (N : Int) (h : (N : ℚ) * 2 ^ ulp_exp q ≤ q) :
    (N : ℚ) * 2 ^ ulp_exp q ≤ to_double q := by
  have hp := two_zpow_pos (ulp_exp q)
  have h1 : (N : ℚ) ≤ q / 2 ^ ulp_exp q := by
    rw [le_div_iff₀ hp]; exact h
  have h2 := round_even_mono h1
  rw [round_even_intCast] at h2
  unfold to_double
  exact mul_le_mul_of_nonneg_right (by exact_mod_cast h2) hp.le

theorem to_double_same_exp {q1 q2 : ℚ} (h : q1 ≤ q2) (he : ulp_exp q1 = ulp_exp q2) :
    to_double q1 ≤ to_double q2 := by
  unfold to_double
  rw [he]
  have hp := two_zpow_pos (ulp_exp q2)
  have h1 : q1 / 2 ^ ulp_exp q2 ≤ q2 / 2 ^ ulp_exp q2 := div_le_div_of_nonneg_right h hp.le
  have h2 := round_even_mono h1
  exact mul_le_mul_of_nonneg_right (by exact_mod_cast h2) hp.le

/-- Rounding to double is monotone. -/
theorem to_double_mono {q1 q2 : ℚ} (h : q1 ≤ q2) : to_double q1 ≤ to_double q2 := by
  rcases le_or_lt q1 0 with h1 | h1
  · rcases le_or_lt 0 q2 with h2 | h2
    · exact le_trans (to_double_nonpos h1) (to_double_nonneg h2)
    · have hq1 : q1 < 0 := lt_of_le_of_lt h h2
      have habs : |q2| ≤ |q1| := by
        rw [abs_of_neg h2, abs_of_neg hq1]; linarith
      have he := ulp_exp_mono (ne_of_lt h2) habs
      rcases he.lt_or_eq with hlt | heq
      · have hge : -1074 < ulp_exp q1 := lt_of_le_of_lt (ulp_exp_ge q2) hlt
        have ha := ulp_le_abs (ne_of_lt hq1) hge
        rw [abs_of_neg hq1] at ha
        have hb := abs_lt_ulp q2
        rw [abs_of_neg h2] at hb
        have e52 := two_zpow_52 (ulp_exp q1)
        have e53 := two_zpow_53 (ulp_exp q2)
        have u1 := to_double_le_of q1 (-(2 ^ 52 : Int)) (by push_cast; linarith)
        have u2 := to_double_ge_of q2 (-(2 ^ 53 : Int)) (by push_cast; linarith)
        have hpow : (2 : ℚ) ^ (ulp_exp q2 + 53) ≤ 2 ^ (ulp_exp q1 + 52) :=
          zpow_le_zpow_right₀ (by norm_num) (by omega)
        push_cast at u1 u2
        linarith
      · exact to_double_same_exp h heq.symm
  · have hq2 : 0 < q2 := lt_of_lt_of_le h1 h
    have habs : |q1| ≤ |q2| := by
      rw [abs_of_pos h1, abs_of_pos hq2]; exact h
    have he := ulp_exp_mono (ne_of_gt h1) habs
    rcases he.lt_or_eq with hlt | heq
    · have hge : -1074 < ulp_exp q2 := lt_of_le_of_lt (ulp_exp_ge q1) hlt
      have ha := ulp_le_abs (ne_of_gt hq2) hge
      rw [abs_of_pos hq2] at ha
      have hb := abs_lt_ulp q1
      rw [abs_of_pos h1] at hb
      have e52 := two_zpow_52 (ulp_exp q2)
      have e53 := two_zpow_53 (ulp_exp q1)
      have u1 := to_double_le_of q1 (2 ^ 53 : Int) (by push_cast; linarith)
      have u2 := to_double_ge_of q2 (2 ^ 52 : Int) (by push_cast; linarith)
      have hpow : (2 : ℚ) ^ (ulp_exp q1 + 53) ≤ 2 ^ (ulp_exp q2 + 52) :=
        zpow_le_zpow_right₀ (by norm_num) (by omega)
      push_cast at u1 u2
      linarith
    · exact to_double_same_exp h heq

theorem to_double_form (q : ℚ) :
    ∃ m : Int, |m| ≤ 2 ^ 53 ∧ to_double q = (m : ℚ) * 2 ^ ulp_exp q := by
  refine ⟨round_even (q / 2 ^ ulp_exp q), ?_, rfl⟩
  have hp := two_zpow_pos (ulp_exp q)
  have hb := abs_lt_ulp q
  rw [two_zpow_53, abs_lt] at hb
  have h1 : q / 2 ^ ulp_exp q ≤ ((2 ^ 53 : Int) : ℚ) := by
    rw [div_le_iff₀ hp]; push_cast; linarith
  have h2 : ((-(2 ^ 53) : Int) : ℚ) ≤ q / 2 ^ ulp_exp q := by
    rw [le_div_iff₀ hp]; push_cast; linarith
  have h3 := round_even_mono h1
  have h4 := round_even_mono h2
  rw [round_even_intCast] at h3 h4
  rw [abs_le]
  constructor <;> omega

/-- Every rounded value has the form `m * 2 ^ e` with `|m| < 2 ^ 53` and `e ≥ -1074`. -/
theorem to_double_dyadic (q : ℚ) :
    ∃ m e : Int, |m| < 2 ^ 53 ∧ -1074 ≤ e ∧ to_double q = (m : ℚ) * 2 ^ e := by
  obtain ⟨m, hm, hq⟩ := to_double_form q
  by_cases h : |m| < 2 ^ 53
  · exact ⟨m, ulp_exp q, h, ulp_exp_ge q, hq⟩
  · have hm2 : |m| = 2 ^ 53 := by omega
    refine ⟨m / 2, ulp_exp q + 1, ?_, ?_, ?_⟩
    · rcases abs_cases m with ⟨h1, _⟩ | ⟨h1, _⟩ <;> rw [abs_lt] <;> constructor <;> omega
    · have := ulp_exp_ge q; omega
    · rw [hq, zpow_add₀ (by norm_num : (2 : ℚ) ≠ 0), zpow_one]
      have h3 : m = 2 * (m / 2) := by
        rcases abs_cases m with ⟨h1, _⟩ | ⟨h1, _⟩ <;> omega
      have h4 : (m : ℚ) = 2 * ((m / 2 : Int) : ℚ) := by exact_mod_cast h3
      rw [h4]
      ring

/-- Only values of magnitude at most `2 ^ -1075` round to zero. -/
theorem to_double_eq_zero {q : ℚ} (h : to_double q = 0) : |q| ≤ 2 ^ (-1075 : Int) := by
  by_cases hq : q = 0
  · subst hq; simp; positivity
  have hn := to_double_near q
  rw [h, zero_sub, abs_neg] at hn
  have he : ulp_exp q = -1074 := by
    by_contra hne
    have hge : -1074 < ulp_exp q := lt_of_le_of_ne (ulp_exp_ge q) (Ne.symm hne)
    have ha := ulp_le_abs hq hge
    have e52 := two_zpow_52 (ulp_exp q)
    have hp := two_zpow_pos (ulp_exp q)
    rw [e52] at ha
    nlinarith
  rw [he] at hn
  have : (2 : ℚ) ^ (-1074 : Int) / 2 = 2 ^ (-1075 : Int) := by
    rw [show (-1074 : Int) = -1075 + 1 by norm_num, zpow_add₀ (by norm_num : (2 : ℚ) ≠ 0), zpow_one]
    ring
  rwa [this] at hn

theorem round_even_eq (x : ℚ) (n : Int) (h : |x - (n : ℚ)| < 1 / 2) : round_even x = n := by
  have h1 := round_even_near x
  rw [abs_le] at h1
  rw [abs_lt] at h
  have h2 : ((round_even x : Int) : ℚ) < (n : ℚ) + 1 := by linarith
  have h3 : (n : ℚ) - 1 < ((round_even x : Int) : ℚ) := by linarith
  have h4 : round_even x < n + 1 := by exact_mod_cast h2
  have h5 : n - 1 < round_even x := by exact_mod_cast h3
  omega

theorem ulp_exp_eq (q : ℚ) (L : Int) (h1 : 2 ^ L ≤ |q|) (h2 : |q| < 2 ^ (L + 1))
    (hL : -1022 ≤ L) : ulp_exp q = L - 52 := by
  have hpos : 0 < |q| := lt_of_lt_of_le (two_zpow_pos L) h1
  have hb : 1 < 2 := by norm_num
  have a1 : L ≤ Int.log 2 |q| := by
    apply (Int.zpow_le_iff_le_log hb hpos).mp
    rw [Nat.cast_ofNat]; exact h1
  have a2 : Int.log 2 |q| < L + 1 := by
    apply (Int.lt_zpow_iff_log_lt hb hpos).mp
    rw [Nat.cast_ofNat]; exact h2
  unfold ulp_exp
  have : Int.log 2 |q| = L := by omega
  rw [this]
  exact max_eq_left (by omega)

/-- The value of `to_double q` from the binade of `q` and the nearest multiple of the unit in
the last place. -/
theorem to_double_eval (q : ℚ) (L n : Int) (h1 : 2 ^ L ≤ q) (h2 : q < 2 ^ (L + 1))
    (hL : -1022 ≤ L) (hn : |q / 2 ^ (L - 52) - (n : ℚ)| < 1 / 2) :
    to_double q = (n : ℚ) * 2 ^ (L - 52) := by
  have hpos : 0 < q := lt_of_lt_of_le (two_zpow_pos L) h1
  unfold to_double
  rw [ulp_exp_eq q L (by rw [abs_of_pos hpos]; exact h1) (by rw [abs_of_pos hpos]; exact h2) hL,
    round_even_eq _ n hn]

theorem to_double_third : to_double (1 / 3) = 6004799503160661 / 18014398509481984 := by
  rw [to_double_eval (1 / 3) (-2) 6004799503160661 (by norm_num) (by norm_num) (by norm_num)
    (by norm_num [abs_lt])]
  norm_num

/-- A value inside the range of `int` is not changed by the reduction to 32 bits. -/
theorem wrap32_id {z : Int} (h1 : -2147483648 ≤ z) (h2 : z < 2147483648) : wrap32 z = z := by
  unfold wrap32
  omega

theorem to_double_zero : to_double 0 = 0 := by
  have := to_double_int 0 (by norm_num)
  simpa using this

theorem to_double_one : to_double 1 = 1 := by
  have := to_double_int 1 (by norm_num)
  simpa using this

theorem to_double_neg_one : to_double (-1) = -1 := by
  have := to_double_int (-1) (by norm_num)
  simpa using this

theorem to_double_one_half : to_double (1 / 2) = 1 / 2 := by
  have := to_double_half 1 (by norm_num)
  simpa using this

/-- Doubling a double is exact. -/
theorem to_double_two_mul (q : ℚ) : to_double (2 * to_double q) = 2 * to_double q := by
  obtain ⟨m, e, hm, he, hq⟩ := to_double_dyadic q
  have h : 2 * to_double q = (m : ℚ) * 2 ^ (e + 1) := by
    rw [hq, zpow_add₀ (by norm_num : (2 : ℚ) ≠ 0), zpow_one]; ring
  rw [h]
  exact to_double_exact m (e + 1) hm (by omega)

theorem ulp_exp_le (q : ℚ) (L : Int) (hq : q ≠ 0) (h : |q| < 2 ^ (L + 1)) (hL : -1022 ≤ L) :
    ulp_exp q ≤ L - 52 := by
  have hpos : 0 < |q| := abs_pos.mpr hq
  have a2 : Int.log 2 |q| < L + 1 := by
    apply (Int.lt_zpow_iff_log_lt (by norm_num : 1 < 2) hpos).mp
    rw [Nat.cast_ofNat]; exact h
  unfold ulp_exp
  exact max_le (by omega) (by omega)

/-- The rounding error of a value below `2 ^ (L + 1)` is at most `2 ^ (L - 53)`. -/
theorem to_double_near_of_lt (q : ℚ) (L : Int) (h : |q| < 2 ^ (L + 1)) (hL : -1022 ≤ L) :
    |to_double q - q| ≤ 2 ^ (L - 53) := by
  by_cases hq : q = 0
  · subst hq
    rw [to_double_zero]
    simp
    exact (two_zpow_pos _).le
  have h1 := to_double_near q
  have h2 := ulp_exp_le q L hq h hL
  have h3 : (2 : ℚ) ^ ulp_exp q ≤ 2 ^ (L - 52) := zpow_le_zpow_right₀ (by norm_num) h2
  have h4 : (2 : ℚ) ^ (L - 52) = 2 * 2 ^ (L - 53) := by
    rw [show L - 52 = 1 + (L - 53) by ring, zpow_add₀ (by norm_num : (2 : ℚ) ≠ 0), zpow_one]
  linarith

/-! ## Running statistics: proofs -/

/-- The four conditional assignments of `bbox_update`, field by field. -/
theorem bbox_update_eq (b : blob) (x1 x2 y1 y2 : Int) :
    bbox_update b x1 x2 y1 y2
      = { b with
          bb_x1 := if b.bb_x1 < 0 ∨ x1 < b.bb_x1 then x1 else b.bb_x1,
          bb_x2 := if x2 > b.bb_x2 then x2 else b.bb_x2,
          bb_y1 := if b.bb_y1 < 0 ∨ y1 < b.bb_y1 then y1 else b.bb_y1,
          bb_y2 := if y2 > b.bb_y2 then y2 else b.bb_y2 } := by
  unfold bbox_update
  by_cases h1 : b.bb_x1 < 0 ∨ x1 < b.bb_x1 <;> by_cases h2 : x2 > b.bb_x2 <;>
    by_cases h3 : b.bb_y1 < 0 ∨ y1 < b.bb_y1 <;> by_cases h4 : y2 > b.bb_y2 <;>
    simp only [h1, h2, h3, h4, if_true, if_false]

/-- C6: for `0 ≤ x1 ≤ x2` and `0 ≤ y1 ≤ y2`, `bbox_update` on a record whose bounding box is
unset (all four fields `-1`) yields the box `(x1, y1, x2, y2)`, and on a record whose bounding
box is set (all four fields `≥ 0`) yields
`(min bb_x1 x1, min bb_y1 y1, max bb_x2 x2, max bb_y2 y2)`; the result is the old record with
these four fields replaced, so no other field changes. -/
theorem bbox_update_min_max (b : blob) (x1 x2 y1 y2 : Int)
    (hx1 : 0 ≤ x1) (hx : x1 ≤ x2) (hy1 : 0 ≤ y1) (hy : y1 ≤ y2) :
    (b.bb_x1 = -1 ∧ b.bb_y1 = -1 ∧ b.bb_x2 = -1 ∧ b.bb_y2 = -1 →
      bbox_update b x1 x2 y1 y2
        = { b with bb_x1 := x1, bb_y1 := y1, bb_x2 := x2, bb_y2 := y2 }) ∧
    (0 ≤ b.bb_x1 ∧ 0 ≤ b.bb_y1 ∧ 0 ≤ b.bb_x2 ∧ 0 ≤ b.bb_y2 →
      bbox_update b x1 x2 y1 y2
        = { b with bb_x1 := min b.bb_x1 x1, bb_y1 := min b.bb_y1 y1,
                   bb_x2 := max b.bb_x2 x2, bb_y2 := max b.bb_y2 y2 }) := by
  rw [bbox_update_eq]
  constructor
  · rintro ⟨h1, h2, h3, h4⟩
    have e1 : x2 > b.bb_x2 := by omega
    have e2 : y2 > b.bb_y2 := by omega
    have e3 : b.bb_x1 < 0 := by omega
    have e4 : b.bb_y1 < 0 := by omega
    simp only [e1, e2, e3, e4, true_or, if_true]
  · rintro ⟨h1, h2, h3, h4⟩
    have f1 : (if b.bb_x1 < 0 ∨ x1 < b.bb_x1 then x1 else b.bb_x1) = min b.bb_x1 x1 := by
      split_ifs <;> omega
    have f2 : (if x2 > b.bb_x2 then x2 else b.bb_x2) = max b.bb_x2 x2 := by
      split_ifs <;> omega
    have f3 : (if b.bb_y1 < 0 ∨ y1 < b.bb_y1 then y1 else b.bb_y1) = min b.bb_y1 y1 := by
      split_ifs <;> omega
    have f4 : (if y2 > b.bb_y2 then y2 else b.bb_y2) = max b.bb_y2 y2 := by
      split_ifs <;> omega
    rw [f1, f2, f3, f4]

/-- C6 at the box `(4, 2, 6, 2)` of the record `junk` and the run `1..2` of row 3. -/
theorem bbox_update_min_max_witness :
    (junk.bb_x1 = -1 ∧ junk.bb_y1 = -1 ∧ junk.bb_x2 = -1 ∧ junk.bb_y2 = -1 →
      bbox_update junk 1 2 3 3
        = { junk with bb_x1 := 1, bb_y1 := 3, bb_x2 := 2, bb_y2 := 3 }) ∧
    (0 ≤ junk.bb_x1 ∧ 0 ≤ junk.bb_y1 ∧ 0 ≤ junk.bb_x2 ∧ 0 ≤ junk.bb_y2 →
      bbox_update junk 1 2 3 3
        = { junk with bb_x1 := min junk.bb_x1 1, bb_y1 := min junk.bb_y1 3,
                      bb_x2 := max junk.bb_x2 2, bb_y2 := max junk.bb_y2 3 }) :=
  bbox_update_min_max junk 1 2 3 3 (by decide) (by decide) (by decide) (by decide)

/-- The product `(x1 + x2) * (1 + x2 - x1)` is even. -/
theorem two_dvd_span (x1 x2 : Int) : 2 ∣ (x1 + x2) * (1 + x2 - x1) := by
  rcases Int.emod_two_eq_zero_or_one (x1 + x2) with h | h
  · exact Dvd.dvd.mul_right (Int.dvd_of_emod_eq_zero h) _
  · exact Dvd.dvd.mul_left (Int.dvd_of_emod_eq_zero (by omega)) _

/-- The fields written by `blob_update`, as the C expressions. -/
theorem blob_update_fields (b : blob) (x1 x2 y : Int) :
    (blob_update b x1 x2 y).size = wrap32 (b.size + wrap32 (wrap32 (1 + x2) - x1)) ∧
    (blob_update b x1 x2 y).center_x
      = to_double (to_double (to_double (b.center_x * (b.size : ℚ))
          + (((wrap32 (wrap32 (x1 + x2) * wrap32 (wrap32 (1 + x2) - x1))).tdiv 2 : Int) : ℚ))
        / ((wrap32 (b.size + wrap32 (wrap32 (1 + x2) - x1)) : Int) : ℚ)) ∧
    (blob_update b x1 x2 y).center_y
      = to_double (to_double (to_double (b.center_y * (b.size : ℚ))
          + ((wrap32 (y * wrap32 (wrap32 (1 + x2) - x1)) : Int) : ℚ))
        / ((wrap32 (b.size + wrap32 (wrap32 (1 + x2) - x1)) : Int) : ℚ)) := by
  refine ⟨?_, ?_, ?_⟩ <;> simp only [blob_update, bbox_update_eq]

/-- A run whose column sum fits an `int` has its ends and its length in range. -/
theorem span_in_range (x1 x2 : Int) (hx1 : 0 ≤ x1) (hx : x1 ≤ x2)
    (hb : (x1 + x2) * (x2 - x1 + 1) < 2 ^ 31) :
    wrap32 (wrap32 (1 + x2) - x1) = x2 - x1 + 1 ∧
    wrap32 (wrap32 (x1 + x2) * (x2 - x1 + 1)) = (x1 + x2) * (x2 - x1 + 1) := by
  norm_num at hb
  have h2 : 2 * x2 ≤ (x1 + x2) * (x2 - x1 + 1) ∨ x2 = 0 := by
    by_cases h0 : x2 = 0
    · exact Or.inr h0
    · left
      nlinarith [mul_nonneg (sub_nonneg.mpr hx) (show (0 : Int) ≤ x1 + x2 - 1 by omega)]
  have h3 : x2 < 1073741824 := by
    rcases h2 with h | h <;> omega
  have h4 : 0 ≤ (x1 + x2) * (x2 - x1 + 1) := mul_nonneg (by omega) (by omega)
  have a1 : wrap32 (1 + x2) = 1 + x2 := wrap32_id (by omega) (by omega)
  have a2 : wrap32 (x1 + x2) = x1 + x2 := wrap32_id (by omega) (by omega)
  constructor
  · rw [a1, wrap32_id (by omega) (by omega)]
    ring
  · rw [a2, wrap32_id (by omega) (by omega)]

/-- The record after `blob_update` when no `int` expression of the update leaves 32 bits. -/
theorem blob_update_in_range (b : blob) (x1 x2 y : Int)
    (hs : 0 ≤ b.size) (hx1 : 0 ≤ x1) (hx : x1 ≤ x2) (hy : 0 ≤ y)
    (hb1 : (x1 + x2) * (x2 - x1 + 1) < 2 ^ 31) (hb2 : y * (x2 - x1 + 1) < 2 ^ 31)
    (hb3 : b.size + (x2 - x1 + 1) < 2 ^ 31) :
    (blob_update b x1 x2 y).size = b.size + (x2 - x1 + 1) ∧
    (blob_update b x1 x2 y).center_x
      = to_double (to_double (to_double (b.center_x * (b.size : ℚ))
          + ((x1 : ℚ) + x2) * ((x2 : ℚ) - x1 + 1) / 2)
        / ((b.size : ℚ) + ((x2 : ℚ) - x1 + 1))) ∧
    (blob_update b x1 x2 y).center_y
      = to_double (to_double (to_double (b.center_y * (b.size : ℚ))
          + (y : ℚ) * ((x2 : ℚ) - x1 + 1))
        / ((b.size : ℚ) + ((x2 : ℚ) - x1 + 1))) := by
  obtain ⟨f1, f2, f3⟩ := blob_update_fields b x1 x2 y
  obtain ⟨s1, s2⟩ := span_in_range x1 x2 hx1 hx hb1
  have hy2 : 0 ≤ y * (x2 - x1 + 1) := mul_nonneg hy (by omega)
  norm_num at hb2 hb3
  have e1 : wrap32 (b.size + (x2 - x1 + 1)) = b.size + (x2 - x1 + 1) :=
    wrap32_id (by omega) (by omega)
  have e2 : wrap32 (y * (x2 - x1 + 1)) = y * (x2 - x1 + 1) := wrap32_id (by omega) (by omega)
  have h3 : (2 : Int) * ((x1 + x2) * (1 + x2 - x1)).tdiv 2 = (x1 + x2) * (1 + x2 - x1) :=
    Int.mul_tdiv_cancel' (two_dvd_span _ _)
  have h4 : ((((x1 + x2) * (x2 - x1 + 1)).tdiv 2 : Int) : ℚ)
      = ((x1 : ℚ) + x2) * ((x2 : ℚ) - x1 + 1) / 2 := by
    have e : (x1 + x2) * (x2 - x1 + 1) = (x1 + x2) * (1 + x2 - x1) := by ring
    rw [e]
    have h5 : (2 : ℚ) * ((((x1 + x2) * (1 + x2 - x1)).tdiv 2 : Int) : ℚ)
        = (((x1 + x2) * (1 + x2 - x1) : Int) : ℚ) := by exact_mod_cast h3
    push_cast at h5
    linarith
  refine ⟨?_, ?_, ?_⟩
  · rw [f1, s1, e1]
  · rw [f2, s1, s2, e1, h4]
    push_cast
    rfl
  · rw [f3, s1, e1, e2]
    push_cast
    rfl

theorem blob_update_bbox (b : blob) (x1 x2 y : Int) :
    (blob_update b x1 x2 y).bb_x1 = (if b.bb_x1 < 0 ∨ x1 < b.bb_x1 then x1 else b.bb_x1) ∧
    (blob_update b x1 x2 y).bb_x2 = (if x2 > b.bb_x2 then x2 else b.bb_x2) ∧
    (blob_update b x1 x2 y).bb_y1 = (if b.bb_y1 < 0 ∨ y < b.bb_y1 then y else b.bb_y1) ∧
    (blob_update b x1 x2 y).bb_y2 = (if y > b.bb_y2 then y else b.bb_y2) := by
  simp [blob_update, bbox_update_eq]

theorem blob_update_overflow_value :
    (blob_update (blank junk) 0 65535 0).center_x = -1 / 2 := by
  obtain ⟨_, f2, _⟩ := blob_update_fields (blank junk) 0 65535 0
  rw [f2]
  have w1 : wrap32 (wrap32 (1 + 65535) - 0) = 65536 := by decide
  have w2 : wrap32 (wrap32 (0 + 65535) * 65536) = -65536 := by decide
  have w3 : wrap32 ((blank junk).size + 65536) = 65536 := by decide
  rw [w1, w2, w3]
  have c0 : (blank junk).center_x * ((blank junk).size : ℚ) = 0 := by simp [blank]
  rw [c0, to_double_zero]
  have d1 : (-65536 : Int).tdiv 2 = -32768 := by decide
  have t1 : (0 : ℚ) + (((-65536 : Int).tdiv 2 : Int) : ℚ) = ((-32768 : Int) : ℚ) := by
    rw [d1, zero_add]
  rw [t1, to_double_int (-32768) (by norm_num)]
  have t2 : (((-32768 : Int) : ℚ)) / ((65536 : Int) : ℚ) = ((-1 : Int) : ℚ) / 2 := by norm_num
  rw [t2, to_double_half (-1) (by norm_num)]
  norm_num

/-- The state of the pool after the first `n` iterations of the loop of `init_blobs`. -/
theorem init_blobs_loop_eq (blist : blob_list) (n : Nat) :
    (List.range n).foldl init_blobs_step { blist with empty_i := 0 }
      = { head := fun i => if i < n then blank (blist.head i) else blist.head i,
          length := blist.length,
          empties := fun j => if j + 1 < n then some (j + 1) else blist.empties j,
          empty_i := n - 1 } := by
  induction n with
  | zero => simp
  | succ k ih =>
    rw [List.range_succ, List.foldl_concat, ih]
    unfold init_blobs_step
    by_cases hk : k > 0
    · simp only [hk, if_true, blob_list.mk.injEq, true_and]
      refine ⟨?_, ?_, by omega⟩
      · funext i
        by_cases hik : i = k
        · subst hik; simp
        · rw [Function.update_noteq hik]
          have : (i < k) ↔ (i < k + 1) := by omega
          simp only [this]
      · funext j
        by_cases hjk : j = k - 1
        · subst hjk
          have : k - 1 + 1 < k + 1 := by omega
          simp only [Function.update_same, this, if_true]
          congr 1; omega
        · rw [Function.update_noteq hjk]
          have : (j + 1 < k) ↔ (j + 1 < k + 1) := by omega
          simp only [this]
    · have hk0 : k = 0 := by omega
      subst hk0
      simp only [gt_iff_lt, lt_self_iff_false, if_false, blob_list.mk.injEq, true_and]
      refine ⟨?_, ?_, by simp⟩
      · funext i
        by_cases hik : i = 0
        · subst hik; simp
        · rw [Function.update_noteq hik]
          have : ¬ i < 0 + 1 := by omega
          simp [this]
      · funext j
        simp

/-- The function `init_blobs` in closed form. -/
theorem init_blobs_eq (blist : blob_list) :
    init_blobs blist
      = { head := fun i => if i < blist.length then blank (blist.head i) else blist.head i,
          length := blist.length,
          empties := fun j => if j + 1 < blist.length then some (j + 1) else blist.empties j,
          empty_i := blist.length - 1 } :=
  init_blobs_loop_eq blist blist.length

/-- C9: for a pool with `length ≥ 1` and any prior contents, after `init_blobs` each of the
`length` records is blank (size 0, color -1, `x1 = x2 = y = -1`, bounding box all -1,
centroid 0, the four links null), `empty_i = length - 1`, the free stack entries
`0 .. length - 2` are the records `1 .. length - 1`, pairwise distinct and never record 0, so
that the free slots plus the sentinel are `length`; and `init_blobs` applied twice is
`init_blobs` applied once. -/
theorem init_blobs_resets_pool (blist : blob_list) (hlen : 1 ≤ blist.length) :
    (init_blobs blist).length = blist.length ∧
    (∀ i, i < blist.length → (init_blobs blist).head i =
      { size := 0, color := -1, x1 := -1, x2 := -1, y := -1,
        prev := none, next := none, sib_p := none, sib_n := none,
        center_x := 0, center_y := 0,
        bb_x1 := -1, bb_y1 := -1, bb_x2 := -1, bb_y2 := -1 }) ∧
    (init_blobs blist).empty_i = blist.length - 1 ∧
    (∀ j, j < blist.length - 1 → (init_blobs blist).empties j = some (j + 1)) ∧
    (∀ j k, j < blist.length - 1 → k < blist.length - 1 →
      (init_blobs blist).empties j = (init_blobs blist).empties k → j = k) ∧
    (∀ j, j < blist.length - 1 → (init_blobs blist).empties j ≠ some 0) ∧
    (init_blobs blist).empty_i + 1 = blist.length ∧
    init_blobs (init_blobs blist) = init_blobs blist := by
  have hE : ∀ j, j < blist.length - 1 → (init_blobs blist).empties j = some (j + 1) := by
    intro j hj
    have : j + 1 < blist.length := by omega
    simp [init_blobs_eq, this]
  refine ⟨by rw [init_blobs_eq], ?_, by rw [init_blobs_eq], hE, ?_, ?_, ?_, ?_⟩
  · intro i hi
    simp [init_blobs_eq, hi, blank]
  · intro j k hj hk h
    rw [hE j hj, hE k hk] at h
    simpa using h
  · intro j hj
    rw [hE j hj]
    simp
  · rw [init_blobs_eq]; simp only; omega
  · rw [init_blobs_eq (init_blobs blist)]
    rw [init_blobs_eq blist]
    simp only [blob_list.mk.injEq, and_true, true_and]
    constructor
    · funext i
      by_cases hi : i < blist.length
      · simp [hi, blank]
      · simp [hi]
    · funext j
      by_cases hj : j + 1 < blist.length
      · simp [hj]
      · simp [hj]

/-- C9 at the pool `pool6` (six records with old contents). -/
theorem init_blobs_resets_pool_witness :
    (init_blobs pool6).length = pool6.length ∧
    (∀ i, i < pool6.length → (init_blobs pool6).head i =
      { size := 0, color := -1, x1 := -1, x2 := -1, y := -1,
        prev := none, next := none, sib_p := none, sib_n := none,
        center_x := 0, center_y := 0,
        bb_x1 := -1, bb_y1 := -1, bb_x2 := -1, bb_y2 := -1 }) ∧
    (init_blobs pool6).empty_i = pool6.length - 1 ∧
    (∀ j, j < pool6.length - 1 → (init_blobs pool6).empties j = some (j + 1)) ∧
    (∀ j k, j < pool6.length - 1 → k < pool6.length - 1 →
      (init_blobs pool6).empties j = (init_blobs pool6).empties k → j = k) ∧
    (∀ j, j < pool6.length - 1 → (init_blobs pool6).empties j ≠ some 0) ∧
    (init_blobs pool6).empty_i + 1 = pool6.length ∧
    init_blobs (init_blobs pool6) = init_blobs pool6 :=
  init_blobs_resets_pool pool6 (by decide)

/-! ## Frame driver: proofs -/

/-- C8, evaluated on the code: right after the pool reset of a frame (pool of a one-pixel-wide
frame, `length = 6`) the scan start `blob_prev = blist.head->next` is `NULL`, not the list
head `&head[0]`; the sentinel has no `prev` either; so `blob_insert(blob_prev, b2)` fails on a
null pointer for every record `b2` and every store, and so would `blob_insert(&head[0], b2)`
in the store left by the reset. -/
theorem extract_image_first_insert_null :
    (extract_image_row_start pool6).2 = none ∧
    (extract_image_row_start pool6).2 ≠ some 0 ∧
    ((extract_image_row_start pool6).1.head 0).prev = none ∧
    (∀ (fuel : Nat) (m : Mem) (b2 : Nat),
      blob_insert fuel m (extract_image_row_start pool6).2 b2 = none) ∧
    (∀ (fuel : Nat) (b2 : Nat),
      blob_insert fuel (extract_image_row_start pool6).1.head (some 0) b2 = none) := by
  have h1 : (extract_image_row_start pool6).2 = none := by
    simp [extract_image_row_start, init_blobs_eq, pool6, blank]
  have h2 : ((extract_image_row_start pool6).1.head 0).prev = none := by
    simp [extract_image_row_start, init_blobs_eq, pool6, blank]
  refine ⟨h1, by rw [h1]; simp, h2, ?_, ?_⟩
  · intro fuel m b2
    rw [h1]; rfl
  · intro fuel b2
    simp only [blob_insert, h2]

/-! ## Field assignments: proofs -/

theorem set_prev_apply (m : Mem) (a : Nat) (v : Option Nat) (b : Nat) :
    set_prev m a v b = if b = a then { m a with prev := v } else m b := by
  unfold set_prev; by_cases h : b = a
  · subst h; simp
  · simp [Function.update_noteq h, h]

theorem set_next_apply (m : Mem) (a : Nat) (v : Option Nat) (b : Nat) :
    set_next m a v b = if b = a then { m a with next := v } else m b := by
  unfold set_next; by_cases h : b = a
  · subst h; simp
  · simp [Function.update_noteq h, h]

theorem set_sib_p_apply (m : Mem) (a : Nat) (v : Option Nat) (b : Nat) :
    set_sib_p m a v b = if b = a then { m a with sib_p := v } else m b := by
  unfold set_sib_p; by_cases h : b = a
  · subst h; simp
  · simp [Function.update_noteq h, h]

theorem set_sib_n_apply (m : Mem) (a : Nat) (v : Option Nat) (b : Nat) :
    set_sib_n m a v b = if b = a then { m a with sib_n := v } else m b := by
  unfold set_sib_n; by_cases h : b = a
  · subst h; simp
  · simp [Function.update_noteq h, h]

theorem SameData.refl (a : blob) : SameData a a :=
  ⟨rfl, rfl, rfl, rfl, rfl, rfl, rfl, rfl, rfl, rfl, rfl⟩

theorem SameData.trans {a b c : blob} (h1 : SameData a b) (h2 : SameData b c) : SameData a c := by
  obtain ⟨a1, a2, a3, a4, a5, a6, a7, a8, a9, a10, a11⟩ := h1
  obtain ⟨b1, b2, b3, b4, b5, b6, b7, b8, b9, b10, b11⟩ := h2
  exact ⟨a1.trans b1, a2.trans b2, a3.trans b3, a4.trans b4, a5.trans b5, a6.trans b6,
    a7.trans b7, a8.trans b8, a9.trans b9, a10.trans b10, a11.trans b11⟩

theorem set_prev_data (m : Mem) (a : Nat) (v : Option Nat) (b : Nat) :
    SameData (set_prev m a v b) (m b) := by
  rw [set_prev_apply]; split_ifs with h
  · subst h; exact ⟨rfl, rfl, rfl, rfl, rfl, rfl, rfl, rfl, rfl, rfl, rfl⟩
  · exact SameData.refl _

theorem set_next_data (m : Mem) (a : Nat) (v : Option Nat) (b : Nat) :
    SameData (set_next m a v b) (m b) := by
  rw [set_next_apply]; split_ifs with h
  · subst h; exact ⟨rfl, rfl, rfl, rfl, rfl, rfl, rfl, rfl, rfl, rfl, rfl⟩
  · exact SameData.refl _

theorem set_sib_p_data (m : Mem) (a : Nat) (v : Option Nat) (b : Nat) :
    SameData (set_sib_p m a v b) (m b) := by
  rw [set_sib_p_apply]; split_ifs with h
  · subst h; exact ⟨rfl, rfl, rfl, rfl, rfl, rfl, rfl, rfl, rfl, rfl, rfl⟩
  · exact SameData.refl _

theorem set_sib_n_data (m : Mem) (a : Nat) (v : Option Nat) (b : Nat) :
    SameData (set_sib_n m a v b) (m b) := by
  rw [set_sib_n_apply]; split_ifs with h
  · subst h; exact ⟨rfl, rfl, rfl, rfl, rfl, rfl, rfl, rfl, rfl, rfl, rfl⟩
  · exact SameData.refl _

@[simp] theorem set_prev_prev (m : Mem) (a : Nat) (v : Option Nat) (b : Nat) :
    (set_prev m a v b).prev = if b = a then v else (m b).prev := by
  rw [set_prev_apply]; split_ifs <;> rfl

@[simp] theorem set_prev_next (m : Mem) (a : Nat) (v : Option Nat) (b : Nat) :
    (set_prev m a v b).next = (m b).next := by
  rw [set_prev_apply]; split_ifs with h
  · subst h; rfl
  · rfl

@[simp] theorem set_prev_sib_p (m : Mem) (a : Nat) (v : Option Nat) (b : Nat) :
    (set_prev m a v b).sib_p = (m b).sib_p := by
  rw [set_prev_apply]; split_ifs with h
  · subst h; rfl
  · rfl

@[simp] theorem set_prev_sib_n (m : Mem) (a : Nat) (v : Option Nat) (b : Nat) :
    (set_prev m a v b).sib_n = (m b).sib_n := by
  rw [set_prev_apply]; split_ifs with h
  · subst h; rfl
  · rfl

@[simp] theorem set_prev_x1 (m : Mem) (a : Nat) (v : Option Nat) (b : Nat) :
    (set_prev m a v b).x1 = (m b).x1 := (set_prev_data m a v b).2.2.1

@[simp] theorem set_next_next (m : Mem) (a : Nat) (v : Option Nat) (b : Nat) :
    (set_next m a v b).next = if b = a then v else (m b).next := by
  rw [set_next_apply]; split_ifs <;> rfl

@[simp] theorem set_next_prev (m : Mem) (a : Nat) (v : Option Nat) (b : Nat) :
    (set_next m a v b).prev = (m b).prev := by
  rw [set_next_apply]; split_ifs with h
  · subst h; rfl
  · rfl

@[simp] theorem set_next_sib_p (m : Mem) (a : Nat) (v : Option Nat) (b : Nat) :
    (set_next m a v b).sib_p = (m b).sib_p := by
  rw [set_next_apply]; split_ifs with h
  · subst h; rfl
  · rfl

@[simp] theorem set_next_sib_n (m : Mem) (a : Nat) (v : Option Nat) (b : Nat) :
    (set_next m a v b).sib_n = (m b).sib_n := by
  rw [set_next_apply]; split_ifs with h
  · subst h; rfl
  · rfl

@[simp] theorem set_next_x1 (m : Mem) (a : Nat) (v : Option Nat) (b : Nat) :
    (set_next m a v b).x1 = (m b).x1 := (set_next_data m a v b).2.2.1

@[simp] theorem set_sib_p_sib_p (m : Mem) (a : Nat) (v : Option Nat) (b : Nat) :
    (set_sib_p m a v b).sib_p = if b = a then v else (m b).sib_p := by
  rw [set_sib_p_apply]; split_ifs <;> rfl

@[simp] theorem set_sib_p_sib_n (m : Mem) (a : Nat) (v : Option Nat) (b : Nat) :
    (set_sib_p m a v b).sib_n = (m b).sib_n := by
  rw [set_sib_p_apply]; split_ifs with h
  · subst h; rfl
  · rfl

@[simp] theorem set_sib_p_prev (m : Mem) (a : Nat) (v : Option Nat) (b : Nat) :
    (set_sib_p m a v b).prev = (m b).prev := by
  rw [set_sib_p_apply]; split_ifs with h
  · subst h; rfl
  · rfl

@[simp] theorem set_sib_p_next (m : Mem) (a : Nat) (v : Option Nat) (b : Nat) :
    (set_sib_p m a v b).next = (m b).next := by
  rw [set_sib_p_apply]; split_ifs with h
  · subst h; rfl
  · rfl

@[simp] theorem set_sib_p_x1 (m : Mem) (a : Nat) (v : Option Nat) (b : Nat) :
    (set_sib_p m a v b).x1 = (m b).x1 := (set_sib_p_data m a v b).2.2.1

@[simp] theorem set_sib_n_sib_n (m : Mem) (a : Nat) (v : Option Nat) (b : Nat) :
    (set_sib_n m a v b).sib_n = if b = a then v else (m b).sib_n := by
  rw [set_sib_n_apply]; split_ifs <;> rfl

@[simp] theorem set_sib_n_sib_p (m : Mem) (a : Nat) (v : Option Nat) (b : Nat) :
    (set_sib_n m a v b).sib_p = (m b).sib_p := by
  rw [set_sib_n_apply]; split_ifs with h
  · subst h; rfl
  · rfl

@[simp] theorem set_sib_n_prev (m : Mem) (a : Nat) (v : Option Nat) (b : Nat) :
    (set_sib_n m a v b).prev = (m b).prev := by
  rw [set_sib_n_apply]; split_ifs with h
  · subst h; rfl
  · rfl

@[simp] theorem set_sib_n_next (m : Mem) (a : Nat) (v : Option Nat) (b : Nat) :
    (set_sib_n m a v b).next = (m b).next := by
  rw [set_sib_n_apply]; split_ifs with h
  · subst h; rfl
  · rfl

@[simp] theorem set_sib_n_x1 (m : Mem) (a : Nat) (v : Option Nat) (b : Nat) :
    (set_sib_n m a v b).x1 = (m b).x1 := (set_sib_n_data m a v b).2.2.1

/-! ## The function `blob_unlink`, link by link -/

theorem blob_unlink_eq (m : Mem) (b2 : Nat) :
    blob_unlink m b2 = unlink_sib (unlink_row m b2) b2 := rfl

theorem unlink_row_next (m : Mem) (b2 a : Nat) :
    (unlink_row m b2 a).next
      = if a = b2 then none else if (m b2).prev = some a then (m b2).next else (m a).next := by
  unfold unlink_row
  rcases hp : (m b2).prev with _ | p <;> rcases hn : (m b2).next with _ | n <;>
    simp only [set_next_next, set_prev_next] <;> split_ifs <;> simp_all

theorem unlink_row_prev (m : Mem) (b2 a : Nat) :
    (unlink_row m b2 a).prev
      = if a = b2 then none else if (m b2).next = some a then (m b2).prev else (m a).prev := by
  unfold unlink_row
  rcases hp : (m b2).prev with _ | p <;> rcases hn : (m b2).next with _ | n <;>
    simp only [set_next_prev, set_prev_prev] <;> split_ifs <;> simp_all

theorem unlink_row_sib_p (m : Mem) (b2 a : Nat) :
    (unlink_row m b2 a).sib_p = (m a).sib_p := by
  unfold unlink_row
  rcases (m b2).prev with _ | p <;> rcases (m b2).next with _ | n <;>
    simp only [set_next_sib_p, set_prev_sib_p]

theorem unlink_row_sib_n (m : Mem) (b2 a : Nat) :
    (unlink_row m b2 a).sib_n = (m a).sib_n := by
  unfold unlink_row
  rcases (m b2).prev with _ | p <;> rcases (m b2).next with _ | n <;>
    simp only [set_next_sib_n, set_prev_sib_n]

theorem unlink_row_data (m : Mem) (b2 a : Nat) : SameData (unlink_row m b2 a) (m a) := by
  unfold unlink_row
  rcases (m b2).prev with _ | p <;> rcases (m b2).next with _ | n <;> dsimp only
  · exact (set_next_data _ _ _ _).trans (set_prev_data _ _ _ _)
  · exact (set_next_data _ _ _ _).trans ((set_prev_data _ _ _ _).trans (set_prev_data _ _ _ _))
  · exact (set_next_data _ _ _ _).trans ((set_prev_data _ _ _ _).trans (set_next_data _ _ _ _))
  · exact (set_next_data _ _ _ _).trans ((set_prev_data _ _ _ _).trans
      ((set_prev_data _ _ _ _).trans (set_next_data _ _ _ _)))

theorem unlink_sib_sib_n (m : Mem) (b2 a : Nat) :
    (unlink_sib m b2 a).sib_n
      = if a = b2 then none else if (m b2).sib_p = some a then (m b2).sib_n else (m a).sib_n := by
  unfold unlink_sib
  rcases hp : (m b2).sib_p with _ | p <;> rcases hn : (m b2).sib_n with _ | n <;>
    simp only [set_sib_n_sib_n, set_sib_p_sib_n] <;> split_ifs <;> simp_all

theorem unlink_sib_sib_p (m : Mem) (b2 a : Nat) :
    (unlink_sib m b2 a).sib_p
      = if a = b2 then none else if (m b2).sib_n = some a then (m b2).sib_p else (m a).sib_p := by
  unfold unlink_sib
  rcases hp : (m b2).sib_p with _ | p <;> rcases hn : (m b2).sib_n with _ | n <;>
    simp only [set_sib_n_sib_p, set_sib_p_sib_p] <;> split_ifs <;> simp_all

theorem unlink_sib_prev (m : Mem) (b2 a : Nat) :
    (unlink_sib m b2 a).prev = (m a).prev := by
  unfold unlink_sib
  rcases (m b2).sib_p with _ | p <;> rcases (m b2).sib_n with _ | n <;>
    simp only [set_sib_n_prev, set_sib_p_prev]

theorem unlink_sib_next (m : Mem) (b2 a : Nat) :
    (unlink_sib m b2 a).next = (m a).next := by
  unfold unlink_sib
  rcases (m b2).sib_p with _ | p <;> rcases (m b2).sib_n with _ | n <;>
    simp only [set_sib_n_next, set_sib_p_next]

theorem unlink_sib_data (m : Mem) (b2 a : Nat) : SameData (unlink_sib m b2 a) (m a) := by
  unfold unlink_sib
  rcases (m b2).sib_p with _ | p <;> rcases (m b2).sib_n with _ | n <;> dsimp only
  · exact (set_sib_n_data _ _ _ _).trans (set_sib_p_data _ _ _ _)
  · exact (set_sib_n_data _ _ _ _).trans ((set_sib_p_data _ _ _ _).trans (set_sib_p_data _ _ _ _))
  · exact (set_sib_n_data _ _ _ _).trans ((set_sib_p_data _ _ _ _).trans (set_sib_n_data _ _ _ _))
  · exact (set_sib_n_data _ _ _ _).trans ((set_sib_p_data _ _ _ _).trans
      ((set_sib_p_data _ _ _ _).trans (set_sib_n_data _ _ _ _)))

theorem blob_unlink_next (m : Mem) (b2 a : Nat) :
    (blob_unlink m b2 a).next
      = if a = b2 then none else if (m b2).prev = some a then (m b2).next else (m a).next := by
  rw [blob_unlink_eq, unlink_sib_next, unlink_row_next]

theorem blob_unlink_prev (m : Mem) (b2 a : Nat) :
    (blob_unlink m b2 a).prev
      = if a = b2 then none else if (m b2).next = some a then (m b2).prev else (m a).prev := by
  rw [blob_unlink_eq, unlink_sib_prev, unlink_row_prev]

theorem blob_unlink_sib_n (m : Mem) (b2 a : Nat) :
    (blob_unlink m b2 a).sib_n
      = if a = b2 then none else if (m b2).sib_p = some a then (m b2).sib_n else (m a).sib_n := by
  rw [blob_unlink_eq, unlink_sib_sib_n, unlink_row_sib_p, unlink_row_sib_n, unlink_row_sib_n]

theorem blob_unlink_sib_p (m : Mem) (b2 a : Nat) :
    (blob_unlink m b2 a).sib_p
      = if a = b2 then none else if (m b2).sib_n = some a then (m b2).sib_p else (m a).sib_p := by
  rw [blob_unlink_eq, unlink_sib_sib_p, unlink_row_sib_p, unlink_row_sib_n, unlink_row_sib_p]

theorem blob_unlink_data (m : Mem) (b2 a : Nat) : SameData (blob_unlink m b2 a) (m a) := by
  rw [blob_unlink_eq]
  exact (unlink_sib_data _ _ _).trans (unlink_row_data _ _ _)

/-! ## Doubly-linked lists: general facts -/

theorem isRowList_iff (m : Mem) (l : List Nat) :
    IsRowList m l ↔ IsDList (fun a => (m a).next) (fun a => (m a).prev) l := Iff.rfl

theorem isSibChain_iff (m : Mem) (l : List Nat) :
    IsSibChain m l ↔ IsDList (fun a => (m a).sib_n) (fun a => (m a).sib_p) l := Iff.rfl

/-- Links survive a change of the maps that keeps the successor of every record but the last
and the predecessor of every record but the first. -/
theorem chain_frame {nx pv nx2 pv2 : Nat → Option Nat} :
    ∀ (l : List Nat), l.Chain' (Linked nx pv) →
      (∀ a ∈ l.dropLast, nx2 a = nx a) → (∀ a ∈ l.tail, pv2 a = pv a) →
      l.Chain' (Linked nx2 pv2)
  | [], _, _, _ => List.chain'_nil
  | [_], _, _, _ => List.chain'_singleton _
  | a :: b :: t, h, h1, h2 => by
    rw [List.chain'_cons] at h ⊢
    refine ⟨⟨?_, ?_⟩, chain_frame (b :: t) h.2 ?_ ?_⟩
    · rw [h1 a (by simp)]; exact h.1.1
    · rw [h2 b (by simp)]; exact h.1.2
    · intro x hx; exact h1 x (by simp only [List.dropLast_cons₂]; exact List.mem_cons_of_mem _ hx)
    · intro x hx; exact h2 x (by simp only [List.tail_cons] at hx ⊢; exact List.mem_cons_of_mem _ hx)

theorem getLast?_ne_of_mem_dropLast {l : List Nat} (hl : l.Nodup) {a : Nat}
    (ha : a ∈ l.dropLast) : l.getLast? ≠ some a := by
  rcases List.eq_nil_or_concat' l with rfl | ⟨s, p, rfl⟩
  · simp at ha
  · rw [List.dropLast_concat] at ha
    rw [List.getLast?_concat]
    intro h
    have hp : p = a := Option.some.inj h
    subst hp
    have := List.nodup_append.1 hl
    exact this.2.2 ha (by simp)

theorem head?_ne_of_mem_tail {l : List Nat} (hl : l.Nodup) {a : Nat}
    (ha : a ∈ l.tail) : l.head? ≠ some a := by
  cases l with
  | nil => simp
  | cons c t =>
    simp only [List.tail_cons] at ha
    simp only [List.head?_cons, ne_eq, Option.some.injEq]
    intro h; subst h
    exact (List.nodup_cons.1 hl).1 ha

/-- In a doubly-linked list `s ++ b :: t` the successor of `b` is the first of `t`. -/
theorem dlist_next_eq {nx pv : Nat → Option Nat} {s t : List Nat} {b : Nat}
    (h : IsDList nx pv (s ++ b :: t)) : nx b = t.head? := by
  obtain ⟨_, hc, _, hlast⟩ := h
  cases t with
  | nil => exact hlast b (by simp)
  | cons n t =>
    have := (List.chain'_split.1 hc).2
    exact (List.Chain'.rel_head this).1

/-- In a doubly-linked list `s ++ b :: t` the predecessor of `b` is the last of `s`. -/
theorem dlist_prev_eq {nx pv : Nat → Option Nat} {s t : List Nat} {b : Nat}
    (h : IsDList nx pv (s ++ b :: t)) : pv b = s.getLast? := by
  obtain ⟨_, hc, hhead, _⟩ := h
  rcases List.eq_nil_or_concat' s with rfl | ⟨s, p, rfl⟩
  · exact hhead b (by simp)
  · have h1 := (List.chain'_split.1 hc).1
    rw [List.append_assoc] at h1
    have h2 := (List.chain'_split.1 h1).2
    rw [List.getLast?_concat]
    exact (List.Chain'.rel_head h2).2

/-- Removing the record `b` from a doubly-linked list by the four pointer assignments of an
unlink leaves the doubly-linked list of the other records, in their old order. -/
theorem dlist_erase {nx pv nx2 pv2 : Nat → Option Nat} {l : List Nat} {b : Nat}
    (h : IsDList nx pv l) (hb : b ∈ l)
    (hnx : ∀ a, nx2 a = if a = b then none else if pv b = some a then nx b else nx a)
    (hpv : ∀ a, pv2 a = if a = b then none else if nx b = some a then pv b else pv a) :
    IsDList nx2 pv2 (l.erase b) := by
  obtain ⟨s, t, rfl⟩ := List.append_of_mem hb
  have hnb := dlist_next_eq h
  have hpb := dlist_prev_eq h
  obtain ⟨hnd, hc, hhead, hlast⟩ := h
  have hnd2 := List.nodup_append.1 hnd
  have hbs : b ∉ s := fun hx => hnd2.2.2 hx (by simp)
  have hbt : b ∉ t := (List.nodup_cons.1 hnd2.2.1).1
  have htn : t.Nodup := (List.nodup_cons.1 hnd2.2.1).2
  have hdisj : ∀ a, a ∈ s → a ∈ t → False := fun a h1 h2 =>
    hnd2.2.2 h1 (List.mem_cons_of_mem _ h2)
  have he : (s ++ b :: t).erase b = s ++ t := by
    rw [List.erase_append_right _ hbs, List.erase_cons_head]
  rw [he]
  have hnx2 : ∀ a, a ≠ b → nx2 a = if s.getLast? = some a then t.head? else nx a := by
    intro a ha; rw [hnx a, if_neg ha, hpb, hnb]
  have hpv2 : ∀ a, a ≠ b → pv2 a = if t.head? = some a then s.getLast? else pv a := by
    intro a ha; rw [hpv a, if_neg ha, hpb, hnb]
  have hne_s : ∀ a, a ∈ s → a ≠ b := fun a ha h => hbs (h ▸ ha)
  have hne_t : ∀ a, a ∈ t → a ≠ b := fun a ha h => hbt (h ▸ ha)
  have hcs : s.Chain' (Linked nx pv) := (List.chain'_append.1 hc).1
  have hct : t.Chain' (Linked nx pv) := ((List.chain'_append.1 hc).2.1).tail
  refine ⟨?_, ?_, ?_, ?_⟩
  · exact List.nodup_append.2 ⟨hnd2.1, htn, fun a h1 h2 => hdisj a h1 h2⟩
  · refine List.chain'_append.2 ⟨chain_frame s hcs ?_ ?_, chain_frame t hct ?_ ?_, ?_⟩
    · intro a ha
      rw [hnx2 a (hne_s a (List.mem_of_mem_dropLast ha)),
        if_neg (getLast?_ne_of_mem_dropLast hnd2.1 ha)]
    · intro a ha
      rw [hpv2 a (hne_s a (List.mem_of_mem_tail ha)), if_neg]
      intro hh
      exact hdisj a (List.mem_of_mem_tail ha) (List.mem_of_mem_head? hh)
    · intro a ha
      rw [hnx2 a (hne_t a (List.mem_of_mem_dropLast ha)), if_neg]
      intro hh
      exact hdisj a (List.mem_of_mem_getLast? hh) (List.mem_of_mem_dropLast ha)
    · intro a ha
      rw [hpv2 a (hne_t a (List.mem_of_mem_tail ha)), if_neg (head?_ne_of_mem_tail htn ha)]
    · intro x hx y hy
      have hx2 : s.getLast? = some x := hx
      have hy2 : t.head? = some y := hy
      refine ⟨?_, ?_⟩
      · rw [hnx2 x (hne_s x (List.mem_of_mem_getLast? hx)), if_pos hx2, hy2]
      · rw [hpv2 y (hne_t y (List.mem_of_mem_head? hy)), if_pos hy2, hx2]
  · intro a ha
    cases s with
    | nil =>
      simp only [List.nil_append] at ha
      have ha2 : t.head? = some a := ha
      rw [hpv2 a (hne_t a (List.mem_of_mem_head? ha)), if_pos ha2]
      rfl
    | cons c s =>
      simp only [List.cons_append, List.head?_cons, Option.mem_def, Option.some.injEq] at ha
      subst ha
      rw [hpv2 c (hne_s c (by simp)), if_neg]
      · exact hhead c (by simp)
      · intro hh
        exact hdisj c (by simp) (List.mem_of_mem_head? hh)
  · intro a ha
    cases t with
    | nil =>
      simp only [List.append_nil] at ha
      have ha2 : s.getLast? = some a := ha
      rw [hnx2 a (hne_s a (List.mem_of_mem_getLast? ha)), if_pos ha2]
      rfl
    | cons c t =>
      rw [List.getLast?_append_cons] at ha
      have hat : a ∈ c :: t := List.mem_of_mem_getLast? ha
      rw [hnx2 a (hne_t a hat), if_neg]
      · apply hlast a
        rw [List.getLast?_append_cons, List.getLast?_cons_cons]; exact ha
      · intro hh
        exact hdisj a (List.mem_of_mem_getLast? hh) hat

/-! ## The function `blob_unlink`: proof -/

/-- C10: for a record `b2` that is a member of a row-order list `row` and of a sibling chain
`sib`, both consistently doubly-linked, after `blob_unlink(b2)` the four links of `b2` are
null, the former row-order neighbours of `b2` point at each other and so do its former sibling
neighbours, the two lists are the old lists without `b2` in the old order, no record changes
in a field that is not a link, and a link of a record other than `b2` changes only where it
pointed at `b2`. -/
theorem blob_unlink_removes (m : Mem) (row sib : List Nat) (b2 : Nat)
    (hrow : IsRowList m row) (hsib : IsSibChain m sib) (h1 : b2 ∈ row) (h2 : b2 ∈ sib) :
    ((blob_unlink m b2 b2).prev = none ∧ (blob_unlink m b2 b2).next = none ∧
      (blob_unlink m b2 b2).sib_p = none ∧ (blob_unlink m b2 b2).sib_n = none) ∧
    (∀ p, (m b2).prev = some p → (blob_unlink m b2 p).next = (m b2).next) ∧
    (∀ n, (m b2).next = some n → (blob_unlink m b2 n).prev = (m b2).prev) ∧
    (∀ p, (m b2).sib_p = some p → (blob_unlink m b2 p).sib_n = (m b2).sib_n) ∧
    (∀ n, (m b2).sib_n = some n → (blob_unlink m b2 n).sib_p = (m b2).sib_p) ∧
    IsRowList (blob_unlink m b2) (row.erase b2) ∧
    IsSibChain (blob_unlink m b2) (sib.erase b2) ∧
    (∀ a, SameData (blob_unlink m b2 a) (m a)) ∧
    (∀ a, a ≠ b2 →
      ((m b2).prev ≠ some a → (blob_unlink m b2 a).next = (m a).next) ∧
      ((m b2).next ≠ some a → (blob_unlink m b2 a).prev = (m a).prev) ∧
      ((m b2).sib_p ≠ some a → (blob_unlink m b2 a).sib_n = (m a).sib_n) ∧
      ((m b2).sib_n ≠ some a → (blob_unlink m b2 a).sib_p = (m a).sib_p)) := by
  -- the neighbours of `b2` are other records
  have hnb : ∀ {nx pv : Nat → Option Nat} {l : List Nat}, IsDList nx pv l → b2 ∈ l →
      nx b2 ≠ some b2 ∧ pv b2 ≠ some b2 := by
    intro nx pv l h hb
    obtain ⟨s, t, rfl⟩ := List.append_of_mem hb
    have e1 := dlist_next_eq h
    have e2 := dlist_prev_eq h
    have hnd := List.nodup_append.1 h.1
    constructor
    · rw [e1]; intro hh
      exact (List.nodup_cons.1 hnd.2.1).1 (List.mem_of_mem_head? hh)
    · rw [e2]; intro hh
      exact hnd.2.2 (List.mem_of_mem_getLast? hh) (by simp)
  have hr := hnb ((isRowList_iff m row).1 hrow) h1
  have hs := hnb ((isSibChain_iff m sib).1 hsib) h2
  refine ⟨⟨?_, ?_, ?_, ?_⟩, ?_, ?_, ?_, ?_, ?_, ?_, blob_unlink_data m b2, ?_⟩
  · rw [blob_unlink_prev, if_pos rfl]
  · rw [blob_unlink_next, if_pos rfl]
  · rw [blob_unlink_sib_p, if_pos rfl]
  · rw [blob_unlink_sib_n, if_pos rfl]
  · intro p hp
    have : p ≠ b2 := fun h => hr.2 (h ▸ hp)
    rw [blob_unlink_next, if_neg this, if_pos hp]
  · intro n hn
    have : n ≠ b2 := fun h => hr.1 (h ▸ hn)
    rw [blob_unlink_prev, if_neg this, if_pos hn]
  · intro p hp
    have : p ≠ b2 := fun h => hs.2 (h ▸ hp)
    rw [blob_unlink_sib_n, if_neg this, if_pos hp]
  · intro n hn
    have : n ≠ b2 := fun h => hs.1 (h ▸ hn)
    rw [blob_unlink_sib_p, if_neg this, if_pos hn]
  · exact (isRowList_iff _ _).2 (dlist_erase ((isRowList_iff m row).1 hrow) h1
      (fun a => blob_unlink_next m b2 a) (fun a => blob_unlink_prev m b2 a))
  · exact (isSibChain_iff _ _).2 (dlist_erase ((isSibChain_iff m sib).1 hsib) h2
      (fun a => blob_unlink_sib_n m b2 a) (fun a => blob_unlink_sib_p m b2 a))
  · intro a ha
    refine ⟨?_, ?_, ?_, ?_⟩
    · intro h; rw [blob_unlink_next, if_neg ha, if_neg h]
    · intro h; rw [blob_unlink_prev, if_neg ha, if_neg h]
    · intro h; rw [blob_unlink_sib_n, if_neg ha, if_neg h]
    · intro h; rw [blob_unlink_sib_p, if_neg ha, if_neg h]

theorem mem5_row : IsRowList mem5 [0, 1, 2] := by
  refine ⟨by decide, ?_, ?_, ?_⟩
  · simp [RowLinked, mem5, node]
  · simp [mem5, node]
  · simp [mem5, node]

theorem mem5_sib13 : IsSibChain mem5 [1, 3] := by
  refine ⟨by decide, ?_, ?_, ?_⟩
  · simp [SibLinked, mem5, node]
  · simp [mem5, node]
  · simp [mem5, node]

theorem mem5_sib24 : IsSibChain mem5 [2, 4] := by
  refine ⟨by decide, ?_, ?_, ?_⟩
  · simp [SibLinked, mem5, node]
  · simp [mem5, node]
  · simp [mem5, node]

/-- C10 at the store `mem5`, record 1 (row-order list `0, 1, 2`, sibling chain `1, 3`). -/
theorem blob_unlink_removes_witness :
    ((blob_unlink mem5 1 1).prev = none ∧ (blob_unlink mem5 1 1).next = none ∧
      (blob_unlink mem5 1 1).sib_p = none ∧ (blob_unlink mem5 1 1).sib_n = none) ∧
    (∀ p, (mem5 1).prev = some p → (blob_unlink mem5 1 p).next = (mem5 1).next) ∧
    (∀ n, (mem5 1).next = some n → (blob_unlink mem5 1 n).prev = (mem5 1).prev) ∧
    (∀ p, (mem5 1).sib_p = some p → (blob_unlink mem5 1 p).sib_n = (mem5 1).sib_n) ∧
    (∀ n, (mem5 1).sib_n = some n → (blob_unlink mem5 1 n).sib_p = (mem5 1).sib_p) ∧
    IsRowList (blob_unlink mem5 1) ([0, 1, 2].erase 1) ∧
    IsSibChain (blob_unlink mem5 1) ([1, 3].erase 1) ∧
    (∀ a, SameData (blob_unlink mem5 1 a) (mem5 a)) ∧
    (∀ a, a ≠ 1 →
      ((mem5 1).prev ≠ some a → (blob_unlink mem5 1 a).next = (mem5 a).next) ∧
      ((mem5 1).next ≠ some a → (blob_unlink mem5 1 a).prev = (mem5 a).prev) ∧
      ((mem5 1).sib_p ≠ some a → (blob_unlink mem5 1 a).sib_n = (mem5 a).sib_n) ∧
      ((mem5 1).sib_n ≠ some a → (blob_unlink mem5 1 a).sib_p = (mem5 a).sib_p)) :=
  blob_unlink_removes mem5 [0, 1, 2] [1, 3] 1 mem5_row mem5_sib13 (by decide) (by decide)

/-! ## Sibling chains: the walk to the head -/

/-- From any member of a sibling chain, the walk along `sib_p` ends at the first record of the
chain, given one unit of fuel per record passed. -/
theorem sib_head_spec (m : Mem) :
    ∀ (fuel : Nat) (s : List Nat) (b : Nat) (t : List Nat),
      IsSibChain m (s ++ b :: t) → s.length < fuel →
      (sib_head fuel m b : Option Nat) = (s ++ b :: t).head?
  | 0, _, _, _, _, hf => absurd hf (Nat.not_lt_zero _)
  | fuel + 1, s, b, t, h, hf => by
    have hp : (m b).sib_p = s.getLast? := dlist_prev_eq ((isSibChain_iff m _).1 h)
    rcases List.eq_nil_or_concat' s with rfl | ⟨s2, p, rfl⟩
    · simp only [List.getLast?_nil] at hp
      simp [sib_head, hp]
    · rw [List.getLast?_concat] at hp
      have hl : s2.length < fuel := by
        simp only [List.length_append, List.length_singleton] at hf; omega
      have h2 : IsSibChain m (s2 ++ p :: b :: t) := by
        simpa [List.append_assoc] using h
      have := sib_head_spec m fuel s2 p (b :: t) h2 hl
      simp only [sib_head, hp, this, List.append_assoc, List.singleton_append]

/-- The walk from a member `b` of the chain `l`, in terms of the chain. -/
theorem sib_head_of_mem (m : Mem) (l : List Nat) (b : Nat) (h : IsSibChain m l) (hb : b ∈ l)
    (fuel : Nat) (hf : l.length ≤ fuel) : (sib_head fuel m b : Option Nat) = l.head? := by
  obtain ⟨s, t, rfl⟩ := List.append_of_mem hb
  refine sib_head_spec m fuel s b t h ?_
  simp only [List.length_append, List.length_cons] at hf
  omega

/-- C2: for a well-formed sibling chain `l` and two of its members `b1`, `b2` (which may be
the same record), `sib_link(b1, b2)` returns with the store unchanged, so no `sib_p` or `sib_n`
link changes and the chain keeps its length, order and members; fuel `length l` is enough for
the two walks to the head. -/
theorem sib_link_same_chain (m : Mem) (l : List Nat) (b1 b2 : Nat)
    (h : IsSibChain m l) (h1 : b1 ∈ l) (h2 : b2 ∈ l) (fuel : Nat) (hf : l.length ≤ fuel) :
    sib_link fuel m b1 b2 = some m := by
  have e1 := sib_head_of_mem m l b1 h h1 fuel hf
  have e2 := sib_head_of_mem m l b2 h h2 fuel hf
  cases l with
  | nil => simp at h1
  | cons c t =>
    simp only [List.head?_cons] at e1 e2
    simp [sib_link, e1, e2]

/-- C2 at the store `mem5`: the members 3 and 1 of the chain `1, 3`. -/
theorem sib_link_same_chain_witness :
    sib_link 2 mem5 3 1 = some mem5 :=
  sib_link_same_chain mem5 [1, 3] 3 1 mem5_sib13 (by decide) (by decide) 2 (by decide)

/-! ## Sibling chains: the merge loop -/

theorem sib_chain_frame {m m2 : Mem} (l : List Nat) (h : l.Chain' (SibLinked m))
    (h1 : ∀ a ∈ l.dropLast, (m2 a).sib_n = (m a).sib_n)
    (h2 : ∀ a ∈ l.tail, (m2 a).sib_p = (m a).sib_p) : l.Chain' (SibLinked m2) :=
  @chain_frame (fun a => (m a).sib_n) (fun a => (m a).sib_p)
    (fun a => (m2 a).sib_n) (fun a => (m2 a).sib_p) l h h1 h2

theorem leX1_frame {m m2 : Mem} (hx : ∀ a, (m2 a).x1 = (m a).x1) (l : List Nat) :
    l.Chain' (LeX1 m2) ↔ l.Chain' (LeX1 m) := by
  have : LeX1 m2 = LeX1 m := by
    funext a b; simp only [LeX1, hx]
  rw [this]

theorem splice_sib_n (m : Mem) (b1 b2 a : Nat) :
    (splice m b1 b2 a).sib_n = if a = b1 then some b2 else (m a).sib_n := by
  simp [splice]

theorem splice_sib_p (m : Mem) (b1 b2 a : Nat) :
    (splice m b1 b2 a).sib_p = if a = b2 then some b1 else (m a).sib_p := by
  simp [splice]

theorem splice_x1 (m : Mem) (b1 b2 a : Nat) : (splice m b1 b2 a).x1 = (m a).x1 := by
  simp [splice]

theorem splice_prev (m : Mem) (b1 b2 a : Nat) : (splice m b1 b2 a).prev = (m a).prev := by
  simp [splice]

theorem splice_next (m : Mem) (b1 b2 a : Nat) : (splice m b1 b2 a).next = (m a).next := by
  simp [splice]

theorem splice_data (m : Mem) (b1 b2 a : Nat) : SameData (splice m b1 b2 a) (m a) :=
  (set_sib_p_data _ _ _ _).trans (set_sib_n_data _ _ _ _)

theorem splice_other (m : Mem) (b1 b2 a : Nat) (h1 : a ≠ b1) (h2 : a ≠ b2) :
    splice m b1 b2 a = m a := by
  simp [splice, set_sib_p_apply, set_sib_n_apply, h1, h2]

/-- The links of the two lists after a splice: the merged part `P ++ [b1]` continues with
`b2 :: R2`, and the rest `R1` of the first list keeps its links. -/
theorem splice_chains (m : Mem) (P : List Nat) (b1 : Nat) (R1 : List Nat) (b2 : Nat)
    (R2 : List Nat)
    (hnd : (P ++ b1 :: (R1 ++ b2 :: R2)).Nodup)
    (hc1 : (P ++ b1 :: R1).Chain' (SibLinked m))
    (hh1 : ∀ a ∈ (P ++ [b1]).head?, (m a).sib_p = none)
    (hl1 : ∀ a ∈ (b1 :: R1).getLast?, (m a).sib_n = none)
    (hc2 : (b2 :: R2).Chain' (SibLinked m))
    (hl2 : ∀ a ∈ (b2 :: R2).getLast?, (m a).sib_n = none) :
    (P ++ b1 :: b2 :: R2).Chain' (SibLinked (splice m b1 b2)) ∧
    (∀ a ∈ (P ++ [b1]).head?, (splice m b1 b2 a).sib_p = none) ∧
    (∀ a ∈ (b2 :: R2).getLast?, (splice m b1 b2 a).sib_n = none) ∧
    R1.Chain' (SibLinked (splice m b1 b2)) ∧
    (∀ a ∈ R1.getLast?, (splice m b1 b2 a).sib_n = none) := by
  have hnd1 := List.nodup_append.1 hnd
  have hnd2 := List.nodup_cons.1 hnd1.2.1
  have hnd3 := List.nodup_append.1 hnd2.2
  have hnd4 := List.nodup_cons.1 hnd3.2.1
  have hb1P : ∀ a, a ∈ P → a ≠ b1 := fun a ha h => hnd1.2.2 ha (by simp [h])
  have hb2P : ∀ a, a ∈ P → a ≠ b2 := fun a ha h => hnd1.2.2 ha (by simp [h])
  have hb1b2 : b1 ≠ b2 := fun h => hnd2.1 (by simp [h])
  have hb1R1 : ∀ a, a ∈ R1 → a ≠ b1 := fun a ha h => hnd2.1 (by simp [← h, ha])
  have hb1R2 : ∀ a, a ∈ R2 → a ≠ b1 := fun a ha h => hnd2.1 (by simp [← h, ha])
  have hb2R1 : ∀ a, a ∈ R1 → a ≠ b2 := fun a ha h => hnd3.2.2 ha (by simp [h])
  have hb2R2 : ∀ a, a ∈ R2 → a ≠ b2 := fun a ha h => hnd4.1 (h ▸ ha)
  have hsplit := List.chain'_split.1 hc1
  refine ⟨?_, ?_, ?_, ?_, ?_⟩
  · refine List.chain'_split.2 ⟨sib_chain_frame _ hsplit.1 ?_ ?_, ?_⟩
    · intro a ha
      rw [List.dropLast_concat] at ha
      rw [splice_sib_n, if_neg (hb1P a ha)]
    · intro a ha
      have ha2 : a ∈ P ++ [b1] := List.mem_of_mem_tail ha
      have : a ≠ b2 := by
        rcases List.mem_append.1 ha2 with h | h
        · exact hb2P a h
        · simp only [List.mem_singleton] at h; rw [h]; exact hb1b2
      rw [splice_sib_p, if_neg this]
    · rw [List.chain'_cons]
      refine ⟨⟨?_, ?_⟩, sib_chain_frame _ hc2 ?_ ?_⟩
      · rw [splice_sib_n, if_pos rfl]
      · rw [splice_sib_p, if_pos rfl]
      · intro a ha
        have ha2 : a ∈ b2 :: R2 := List.mem_of_mem_dropLast ha
        have : a ≠ b1 := by
          rcases List.mem_cons.1 ha2 with h | h
          · rw [h]; exact hb1b2.symm
          · exact hb1R2 a h
        rw [splice_sib_n, if_neg this]
      · intro a ha
        simp only [List.tail_cons] at ha
        rw [splice_sib_p, if_neg (hb2R2 a ha)]
  · intro a ha
    have ha2 : a ∈ P ++ [b1] := List.mem_of_mem_head? ha
    have : a ≠ b2 := by
      rcases List.mem_append.1 ha2 with h | h
      · exact hb2P a h
      · simp only [List.mem_singleton] at h; rw [h]; exact hb1b2
    rw [splice_sib_p, if_neg this]
    exact hh1 a ha
  · intro a ha
    have ha2 : a ∈ b2 :: R2 := List.mem_of_mem_getLast? ha
    have : a ≠ b1 := by
      rcases List.mem_cons.1 ha2 with h | h
      · rw [h]; exact hb1b2.symm
      · exact hb1R2 a h
    rw [splice_sib_n, if_neg this]
    exact hl2 a ha
  · refine sib_chain_frame _ hsplit.2.tail ?_ ?_
    · intro a ha
      rw [splice_sib_n, if_neg (hb1R1 a (List.mem_of_mem_dropLast ha))]
    · intro a ha
      simp only [List.tail_cons] at ha
      rw [splice_sib_p, if_neg (hb2R1 a (List.mem_of_mem_tail ha))]
  · intro a ha
    have ha2 : a ∈ R1 := List.mem_of_mem_getLast? ha
    rw [splice_sib_n, if_neg (hb1R1 a ha2)]
    apply hl1 a
    cases R1 with
    | nil => simp at ha2
    | cons n t => rw [List.getLast?_cons_cons]; exact ha

/-- The merge loop of `sib_link`, entered with `b1` inside the merged chain `P ++ b1 :: R1`
and `b2` at the front of the detached rest `b2 :: R2`, both sorted and `b1` not to the right
of `b2`: it returns a store in which all these records form one sorted sibling chain, and in
which only `sib_p` and `sib_n` of these records may differ. -/
theorem sib_merge_spec :
    ∀ (fuel : Nat) (m : Mem) (P : List Nat) (b1 : Nat) (R1 : List Nat) (b2 : Nat)
      (R2 : List Nat),
      R1.length + R2.length + 1 ≤ fuel →
      (P ++ b1 :: (R1 ++ b2 :: R2)).Nodup →
      (P ++ b1 :: R1).Chain' (SibLinked m) →
      (∀ a ∈ (P ++ [b1]).head?, (m a).sib_p = none) →
      (∀ a ∈ (b1 :: R1).getLast?, (m a).sib_n = none) →
      (b2 :: R2).Chain' (SibLinked m) →
      (∀ a ∈ (b2 :: R2).getLast?, (m a).sib_n = none) →
      (P ++ b1 :: R1).Chain' (LeX1 m) → (b2 :: R2).Chain' (LeX1 m) →
      (m b1).x1 ≤ (m b2).x1 →
      ∃ (m2 : Mem) (L : List Nat),
        sib_merge fuel m (some b1) (some b2) = some m2 ∧
        IsSibChain m2 L ∧ L.Perm (P ++ b1 :: (R1 ++ b2 :: R2)) ∧ L.Chain' (LeX1 m2) ∧
        (∀ a, SameData (m2 a) (m a) ∧ (m2 a).prev = (m a).prev ∧ (m2 a).next = (m a).next) ∧
        (∀ a, a ∉ L → m2 a = m a)
  | 0, _, _, _, _, _, _, hf, _, _, _, _, _, _, _, _, _ => absurd hf (by omega)
  | fuel + 1, m, P, b1, R1, b2, R2, hf, hnd, hc1, hh1, hl1, hc2, hl2, hs1, hs2, hle => by
    have hnlt : ¬ (m b2).x1 < (m b1).x1 := not_lt.2 hle
    have hsp := splice_chains m P b1 R1 b2 R2 hnd hc1 hh1 hl1 hc2 hl2
    have hx := splice_x1 m b1 b2
    have hs12 : (P ++ b1 :: b2 :: R2).Chain' (LeX1 (splice m b1 b2)) := by
      rw [leX1_frame hx]
      exact List.chain'_split.2 ⟨(List.chain'_split.1 hs1).1, List.chain'_cons.2 ⟨hle, hs2⟩⟩
    cases R1 with
    | nil =>
      have hn : (m b1).sib_n = none := hl1 b1 (by simp)
      refine ⟨splice m b1 b2, P ++ b1 :: b2 :: R2, ?_, ⟨?_, hsp.1, ?_, ?_⟩, ?_, hs12, ?_, ?_⟩
      · simp [sib_merge, hnlt, hn, splice]
      · simpa using hnd
      · intro a ha
        apply hsp.2.1 a
        have e : P ++ b1 :: b2 :: R2 = (P ++ [b1]) ++ b2 :: R2 := by simp
        rw [e, List.head?_append_of_ne_nil _ (by simp)] at ha
        exact ha
      · intro a ha
        apply hsp.2.2.1 a
        have e : P ++ b1 :: b2 :: R2 = (P ++ [b1]) ++ b2 :: R2 := by simp
        rw [e, List.getLast?_append_cons] at ha
        exact ha
      · simp
      · intro a
        exact ⟨splice_data m b1 b2 a, splice_prev m b1 b2 a, splice_next m b1 b2 a⟩
      · intro a ha
        refine splice_other m b1 b2 a ?_ ?_
        · intro h; exact ha (by simp [h])
        · intro h; exact ha (by simp [h])
    | cons n R1t =>
      have hn : (m b1).sib_n = some n :=
        (List.Chain'.rel_head (List.chain'_split.1 hc1).2).1
      by_cases hadv : (m n).x1 < (m b2).x1
      · -- advance along the first list
        have e1 : (P ++ [b1]) ++ n :: R1t = P ++ b1 :: n :: R1t := by simp
        have e2 : (P ++ [b1]) ++ n :: (R1t ++ b2 :: R2) = P ++ b1 :: (n :: R1t ++ b2 :: R2) := by
          simp
        obtain ⟨m2, L, h1, h2, h3, h4, h5, h6⟩ :=
          sib_merge_spec fuel m (P ++ [b1]) n R1t b2 R2
            (by simp only [List.length_cons] at hf; omega)
            (by rw [e2]; exact hnd)
            (by rw [e1]; exact hc1)
            (by
              intro a ha
              apply hh1 a
              rw [List.head?_append_of_ne_nil _ (by simp)] at ha
              exact ha)
            (by
              intro a ha
              apply hl1 a
              rw [List.getLast?_cons_cons]; exact ha)
            hc2 hl2
            (by rw [e1]; exact hs1)
            hs2 (le_of_lt hadv)
        refine ⟨m2, L, ?_, h2, ?_, h4, h5, h6⟩
        · simp only [sib_merge, hnlt, hn, hadv, if_true, if_false]
          exact h1
        · rw [e2] at h3; exact h3
      · -- splice `b2` in after `b1`; the rest of the first list becomes the detached list
        have hle2 : (splice m b1 b2 b2).x1 ≤ (splice m b1 b2 n).x1 := by
          rw [hx, hx]; exact not_lt.1 hadv
        have e1 : (P ++ [b1]) ++ b2 :: R2 = P ++ b1 :: b2 :: R2 := by simp
        have hperm : ((P ++ [b1]) ++ b2 :: (R2 ++ n :: R1t)).Perm
            (P ++ b1 :: (n :: R1t ++ b2 :: R2)) := by
          have : (P ++ [b1]) ++ b2 :: (R2 ++ n :: R1t)
              = (P ++ [b1]) ++ ((b2 :: R2) ++ (n :: R1t)) := by simp
          rw [this]
          have : P ++ b1 :: (n :: R1t ++ b2 :: R2)
              = (P ++ [b1]) ++ ((n :: R1t) ++ (b2 :: R2)) := by simp
          rw [this]
          exact List.Perm.append_left _ List.perm_append_comm
        obtain ⟨m2, L, h1, h2, h3, h4, h5, h6⟩ :=
          sib_merge_spec fuel (splice m b1 b2) (P ++ [b1]) b2 R2 n R1t
            (by simp only [List.length_cons] at hf; omega)
            (hperm.nodup_iff.2 hnd)
            (by rw [e1]; exact hsp.1)
            (by
              intro a ha
              apply hsp.2.1 a
              rw [List.head?_append_of_ne_nil _ (by simp)] at ha
              exact ha)
            hsp.2.2.1 hsp.2.2.2.1 hsp.2.2.2.2
            (by rw [e1]; exact hs12)
            (by rw [leX1_frame hx]; exact (List.chain'_split.1 hs1).2.tail)
            hle2
        refine ⟨m2, L, ?_, h2, h3.trans hperm, h4, ?_, ?_⟩
        · simp only [sib_merge, hnlt, hn, hadv, if_false]
          exact h1
        · intro a
          obtain ⟨d1, d2, d3⟩ := h5 a
          exact ⟨d1.trans (splice_data m b1 b2 a), d2.trans (splice_prev m b1 b2 a),
            d3.trans (splice_next m b1 b2 a)⟩
        · intro a ha
          rw [h6 a ha]
          have hmem : ∀ c, c ∈ (P ++ [b1]) ++ b2 :: (R2 ++ n :: R1t) → c ∈ L :=
            fun c hc => h3.mem_iff.2 hc
          refine splice_other m b1 b2 a ?_ ?_
          · intro h; exact ha (hmem a (by simp [h]))
          · intro h; exact ha (hmem a (by simp [h]))

/-- Two whole doubly-linked lists over the same links that share a record are the same
list. -/
theorem dlist_eq_of_common {nx pv : Nat → Option Nat} :
    ∀ (l1 l2 : List Nat), IsDList nx pv l1 → IsDList nx pv l2 →
      ∀ a, a ∈ l1 → a ∈ l2 → l1 = l2 := by
  -- the part behind a common record is the same
  have hback : ∀ (t1 : List Nat) (s1 s2 t2 : List Nat) (a : Nat),
      IsDList nx pv (s1 ++ a :: t1) → IsDList nx pv (s2 ++ a :: t2) → t1 = t2 := by
    intro t1
    induction t1 with
    | nil =>
      intro s1 s2 t2 a h1 h2
      have e1 := dlist_next_eq h1
      have e2 := dlist_next_eq h2
      rw [e1] at e2
      cases t2 with
      | nil => rfl
      | cons c t => simp at e2
    | cons c t ih =>
      intro s1 s2 t2 a h1 h2
      have e1 := dlist_next_eq h1
      have e2 := dlist_next_eq h2
      rw [e1] at e2
      cases t2 with
      | nil => simp at e2
      | cons c2 t2 =>
        simp only [List.head?_cons, Option.some.injEq] at e2
        subst e2
        have h1b : IsDList nx pv ((s1 ++ [a]) ++ c :: t) := by simpa using h1
        have h2b : IsDList nx pv ((s2 ++ [a]) ++ c :: t2) := by simpa using h2
        rw [ih (s1 ++ [a]) (s2 ++ [a]) t2 c h1b h2b]
  -- the part in front of a common record is the same
  have hfront : ∀ (k : Nat) (s1 s2 t1 t2 : List Nat) (a : Nat), s1.length ≤ k →
      IsDList nx pv (s1 ++ a :: t1) → IsDList nx pv (s2 ++ a :: t2) → s1 = s2 := by
    intro k
    induction k with
    | zero =>
      intro s1 s2 t1 t2 a hk h1 h2
      have hs1 : s1 = [] := List.length_eq_zero.1 (Nat.le_zero.1 hk)
      subst hs1
      have e1 := dlist_prev_eq h1
      have e2 := dlist_prev_eq h2
      rw [e1] at e2
      rcases List.eq_nil_or_concat' s2 with rfl | ⟨s, p, rfl⟩
      · rfl
      · simp at e2
    | succ k ih =>
      intro s1 s2 t1 t2 a hk h1 h2
      have e1 := dlist_prev_eq h1
      have e2 := dlist_prev_eq h2
      rw [e1] at e2
      rcases List.eq_nil_or_concat' s1 with rfl | ⟨u1, p1, rfl⟩
      · rcases List.eq_nil_or_concat' s2 with rfl | ⟨s, p, rfl⟩
        · rfl
        · simp at e2
      · rcases List.eq_nil_or_concat' s2 with rfl | ⟨u2, p2, rfl⟩
        · simp at e2
        · simp only [List.getLast?_concat, Option.some.injEq] at e2
          subst e2
          have h1b : IsDList nx pv (u1 ++ p1 :: a :: t1) := by simpa using h1
          have h2b : IsDList nx pv (u2 ++ p1 :: a :: t2) := by simpa using h2
          have hk2 : u1.length ≤ k := by
            simp only [List.length_append, List.length_singleton] at hk; omega
          rw [ih u1 u2 (a :: t1) (a :: t2) p1 hk2 h1b h2b]
  intro l1 l2 h1 h2 a ha1 ha2
  obtain ⟨s1, t1, rfl⟩ := List.append_of_mem ha1
  obtain ⟨s2, t2, rfl⟩ := List.append_of_mem ha2
  rw [hback t1 s1 s2 t2 a h1 h2, hfront s1.length s1 s2 t1 t2 a (le_refl _) h1 h2]

/-- Two different sibling chains of one store have no record in common. -/
theorem sib_chains_disjoint (m : Mem) (lA lB : List Nat) (hA : IsSibChain m lA)
    (hB : IsSibChain m lB) (hne : lA ≠ lB) : ∀ a, a ∈ lA → a ∉ lB := by
  intro a h1 h2
  exact hne (dlist_eq_of_common lA lB
    ((isSibChain_iff m lA).1 hA) ((isSibChain_iff m lB).1 hB) a h1 h2)

theorem leX1_chain_to_sorted (m : Mem) (l : List Nat) (h : l.Chain' (LeX1 m)) :
    SortedX1 m l := by
  haveI : IsTrans Nat (LeX1 m) := ⟨fun _ _ _ h1 h2 => le_trans h1 h2⟩
  exact List.chain'_iff_pairwise.1 h

/-- The whole of `sib_link` on two different sorted chains `lA` (containing `b1`) and `lB`
(containing `b2`): one sorted chain of the same records results, and only `sib_p` and `sib_n`
of these records may differ from before. -/
theorem sib_link_spec (m : Mem) (lA lB : List Nat) (b1 b2 : Nat)
    (hA : IsSibChain m lA) (hB : IsSibChain m lB) (h1 : b1 ∈ lA) (h2 : b2 ∈ lB)
    (hne : lA ≠ lB) (sA : SortedX1 m lA) (sB : SortedX1 m lB)
    (fuel : Nat) (hf : lA.length + lB.length ≤ fuel) :
    ∃ (m2 : Mem) (L : List Nat),
      sib_link fuel m b1 b2 = some m2 ∧
      IsSibChain m2 L ∧ L.Perm (lA ++ lB) ∧ SortedX1 m2 L ∧
      (∀ a, SameData (m2 a) (m a) ∧ (m2 a).prev = (m a).prev ∧ (m2 a).next = (m a).next) ∧
      (∀ a, a ∉ lA ++ lB → m2 a = m a) := by
  have hdisj := sib_chains_disjoint m lA lB hA hB hne
  have e1 := sib_head_of_mem m lA b1 hA h1 fuel (by omega)
  have e2 := sib_head_of_mem m lB b2 hB h2 fuel (by omega)
  cases lA with
  | nil => simp at h1
  | cons a tA =>
    cases lB with
    | nil => simp at h2
    | cons b tB =>
      simp only [List.head?_cons] at e1 e2
      have hab : a ≠ b := fun h => hdisj a (by simp) (by simp [h])
      have hnd : (a :: tA ++ b :: tB).Nodup :=
        List.nodup_append.2 ⟨hA.1, hB.1, fun x hx hy => hdisj x hx hy⟩
      have hlink : sib_link fuel m b1 b2 = sib_merge fuel m (some a) (some b) := by
        simp [sib_link, e1, e2, hab]
      rw [hlink]
      simp only [List.length_cons] at hf
      by_cases hle : (m a).x1 ≤ (m b).x1
      · obtain ⟨m2, L, r1, r2, r3, r4, r5, r6⟩ :=
          sib_merge_spec fuel m [] a tA b tB (by omega) (by simpa using hnd)
            hA.2.1 hA.2.2.1 hA.2.2.2 hB.2.1 hB.2.2.2 sA.chain' sB.chain' hle
        refine ⟨m2, L, r1, r2, by simpa using r3, leX1_chain_to_sorted m2 L r4, r5, ?_⟩
        intro x hx
        exact r6 x (fun h => hx (by simpa using r3.mem_iff.1 h))
      · obtain ⟨f, rfl⟩ : ∃ f, fuel = f + 1 := ⟨fuel - 1, by omega⟩
        have hperm : (b :: tB ++ a :: tA).Perm (a :: tA ++ b :: tB) := List.perm_append_comm
        obtain ⟨m2, L, r1, r2, r3, r4, r5, r6⟩ :=
          sib_merge_spec f m [] b tB a tA (by omega) (by simpa using hperm.nodup_iff.2 hnd)
            hB.2.1 hB.2.2.1 hB.2.2.2 hA.2.1 hA.2.2.2 sB.chain' sA.chain' (le_of_lt (not_le.1 hle))
        have r3b : L.Perm (a :: tA ++ b :: tB) := by
          have : L.Perm (b :: tB ++ a :: tA) := by simpa using r3
          exact this.trans hperm
        refine ⟨m2, L, ?_, r2, r3b, leX1_chain_to_sorted m2 L r4, r5, ?_⟩
        · simp only [sib_merge, not_le.1 hle, if_true]
          exact r1
        · intro x hx
          exact r6 x (fun h => hx (r3b.mem_iff.1 h))

/-- C1: for records `b1` and `b2` in different sibling chains `lA` and `lB`, each consistently
doubly-linked, without repetition and sorted by non-decreasing `x1`, `sib_link(b1, b2)` returns
(the three loops need at most `length lA + length lB` steps) and leaves one consistently
doubly-linked sibling chain `L` whose head has `sib_p = null`, whose members are the members of
`lA` and `lB`, each once, and which is sorted by non-decreasing `x1`. -/
theorem sib_link_merges (m : Mem) (lA lB : List Nat) (b1 b2 : Nat)
    (hA : IsSibChain m lA) (hB : IsSibChain m lB) (h1 : b1 ∈ lA) (h2 : b2 ∈ lB)
    (hne : lA ≠ lB) (sA : SortedX1 m lA) (sB : SortedX1 m lB)
    (fuel : Nat) (hf : lA.length + lB.length ≤ fuel) :
    ∃ (m2 : Mem) (L : List Nat),
      sib_link fuel m b1 b2 = some m2 ∧
      IsSibChain m2 L ∧ (∀ a ∈ L.head?, (m2 a).sib_p = none) ∧
      L.Perm (lA ++ lB) ∧ L.Nodup ∧ SortedX1 m2 L := by
  obtain ⟨m2, L, r1, r2, r3, r4, _, _⟩ :=
    sib_link_spec m lA lB b1 b2 hA hB h1 h2 hne sA sB fuel hf
  exact ⟨m2, L, r1, r2, r2.2.2.1, r3, r2.1, r4⟩

theorem mem5_sorted13 : SortedX1 mem5 [1, 3] := by
  simp [SortedX1, LeX1, mem5, node]

theorem mem5_sorted24 : SortedX1 mem5 [2, 4] := by
  simp [SortedX1, LeX1, mem5, node]

/-- C1 at the store `mem5`: record 3 of the chain `1, 3` and record 4 of the chain `2, 4`. -/
theorem sib_link_merges_witness :
    ∃ (m2 : Mem) (L : List Nat),
      sib_link 4 mem5 3 4 = some m2 ∧
      IsSibChain m2 L ∧ (∀ a ∈ L.head?, (m2 a).sib_p = none) ∧
      L.Perm ([1, 3] ++ [2, 4]) ∧ L.Nodup ∧ SortedX1 m2 L :=
  sib_link_merges mem5 [1, 3] [2, 4] 3 4 mem5_sib13 mem5_sib24 (by decide) (by decide)
    (by decide) mem5_sorted13 mem5_sorted24 4 (by decide)

/-! ## Row-order list: insertion -/

theorem row_chain_frame {m m2 : Mem} (l : List Nat) (h : l.Chain' (RowLinked m))
    (h1 : ∀ a ∈ l.dropLast, (m2 a).next = (m a).next)
    (h2 : ∀ a ∈ l.tail, (m2 a).prev = (m a).prev) : l.Chain' (RowLinked m2) :=
  @chain_frame (fun a => (m a).next) (fun a => (m a).prev)
    (fun a => (m2 a).next) (fun a => (m2 a).prev) l h h1 h2

theorem link_after_next (m : Mem) (b1 b2 a : Nat) :
    (link_after m b1 b2 a).next = if a = b1 then some b2 else (m a).next := by
  simp [link_after]

theorem link_after_prev (m : Mem) (b1 b2 a : Nat) :
    (link_after m b1 b2 a).prev = if a = b2 then some b1 else (m a).prev := by
  simp [link_after]

theorem link_after_x1 (m : Mem) (b1 b2 a : Nat) : (link_after m b1 b2 a).x1 = (m a).x1 := by
  simp [link_after]

theorem link_after_data (m : Mem) (b1 b2 a : Nat) : SameData (link_after m b1 b2 a) (m a) :=
  (set_prev_data _ _ _ _).trans (set_next_data _ _ _ _)

theorem link_after_sib (m : Mem) (b1 b2 a : Nat) :
    (link_after m b1 b2 a).sib_p = (m a).sib_p ∧ (link_after m b1 b2 a).sib_n = (m a).sib_n := by
  simp [link_after]

theorem link_between_next (m : Mem) (b1 b2 b3 a : Nat) :
    (link_between m b1 b2 b3 a).next
      = if a = b2 then some b3 else if a = b1 then some b2 else (m a).next := by
  simp [link_between, link_after]

theorem link_between_prev (m : Mem) (b1 b2 b3 a : Nat) :
    (link_between m b1 b2 b3 a).prev
      = if a = b3 then some b2 else if a = b2 then some b1 else (m a).prev := by
  simp [link_between, link_after]

theorem link_between_x1 (m : Mem) (b1 b2 b3 a : Nat) :
    (link_between m b1 b2 b3 a).x1 = (m a).x1 := by
  simp [link_between, link_after]

theorem link_between_data (m : Mem) (b1 b2 b3 a : Nat) :
    SameData (link_between m b1 b2 b3 a) (m a) :=
  (set_prev_data _ _ _ _).trans ((set_next_data _ _ _ _).trans (link_after_data _ _ _ _))

theorem link_between_sib (m : Mem) (b1 b2 b3 a : Nat) :
    (link_between m b1 b2 b3 a).sib_p = (m a).sib_p ∧
    (link_between m b1 b2 b3 a).sib_n = (m a).sib_n := by
  simp [link_between, link_after]

/-- The loop of `blob_insert`, entered at the record `b1` of the sorted row-order list
`S ++ b1 :: T` with `b1` not to the right of the new record `b2`: it returns a store in which
`b2` has been linked in behind `b1` or further back, the list is again a sorted row-order
list, and only `prev` and `next` fields may differ. -/
theorem blob_insert_loop_spec :
    ∀ (fuel : Nat) (m : Mem) (S : List Nat) (b1 : Nat) (T : List Nat) (b2 : Nat),
      T.length + 1 ≤ fuel →
      IsRowList m (S ++ b1 :: T) → b2 ∉ S ++ b1 :: T → (m b2).next = none →
      (S ++ b1 :: T).Chain' (LeX1 m) → (m b1).x1 ≤ (m b2).x1 →
      ∃ (m2 : Mem) (T1 T2 : List Nat),
        blob_insert_loop fuel m b1 b2 = some m2 ∧ T = T1 ++ T2 ∧
        IsRowList m2 (S ++ b1 :: (T1 ++ b2 :: T2)) ∧
        (S ++ b1 :: (T1 ++ b2 :: T2)).Chain' (LeX1 m2) ∧
        (∀ a, SameData (m2 a) (m a) ∧ (m2 a).sib_p = (m a).sib_p ∧
          (m2 a).sib_n = (m a).sib_n) ∧
        (∀ a, a ∉ S ++ b1 :: T → a ≠ b2 → m2 a = m a)
  | 0, _, _, _, _, _, hf, _, _, _, _, _ => absurd hf (by omega)
  | fuel + 1, m, S, b1, T, b2, hf, hL, hb2, hb2n, hs, hle => by
    have hnext : (m b1).next = T.head? := dlist_next_eq ((isRowList_iff m _).1 hL)
    obtain ⟨hnd, hc, hhead, hlast⟩ := hL
    have hnd1 := List.nodup_append.1 hnd
    have hnd2 := List.nodup_cons.1 hnd1.2.1
    have hb1S : ∀ a, a ∈ S → a ≠ b1 := fun a ha h => hnd1.2.2 ha (by simp [h])
    have hb2S : ∀ a, a ∈ S → a ≠ b2 := fun a ha h => hb2 (by simp [← h, ha])
    have hb2T : ∀ a, a ∈ T → a ≠ b2 := fun a ha h => hb2 (by simp [← h, ha])
    have hb1T : ∀ a, a ∈ T → a ≠ b1 := fun a ha h => hnd2.1 (h ▸ ha)
    have hb1b2 : b1 ≠ b2 := fun h => hb2 (by simp [h])
    have hSb1 : ∀ a, a ∈ S ++ [b1] → a ≠ b2 := by
      intro a ha
      rcases List.mem_append.1 ha with h | h
      · exact hb2S a h
      · simp only [List.mem_singleton] at h; rw [h]; exact hb1b2
    have hsplit := List.chain'_split.1 hc
    cases T with
    | nil =>
      simp only [List.head?_nil] at hnext
      refine ⟨link_after m b1 b2, [], [], ?_, rfl, ⟨?_, ?_, ?_, ?_⟩, ?_, ?_, ?_⟩
      · simp [blob_insert_loop, hnext, link_after]
      · have : (S ++ b1 :: ([] ++ [b2])) = (S ++ [b1]) ++ [b2] := by simp
        rw [this]
        refine List.nodup_append.2 ⟨by simpa using hnd, by simp, ?_⟩
        intro a ha hb
        simp only [List.mem_singleton] at hb
        exact hSb1 a ha hb
      · refine List.chain'_split.2 ⟨row_chain_frame _ hsplit.1 ?_ ?_, ?_⟩
        · intro a ha
          rw [List.dropLast_concat] at ha
          rw [link_after_next, if_neg (hb1S a ha)]
        · intro a ha
          rw [link_after_prev, if_neg (hSb1 a (List.mem_of_mem_tail ha))]
        · simp only [List.nil_append, List.chain'_cons, List.chain'_singleton, and_true]
          exact ⟨by rw [link_after_next, if_pos rfl], by rw [link_after_prev, if_pos rfl]⟩
      · intro a ha
        have e : S ++ b1 :: ([] ++ [b2]) = (S ++ [b1]) ++ [b2] := by simp
        rw [e, List.head?_append_of_ne_nil _ (by simp)] at ha
        rw [link_after_prev, if_neg (hSb1 a (List.mem_of_mem_head? ha))]
        exact hhead a ha
      · intro a ha
        have e : S ++ b1 :: ([] ++ [b2]) = (S ++ [b1]) ++ [b2] := by simp
        rw [e, List.getLast?_concat] at ha
        have : b2 = a := Option.some.inj ha
        subst this
        rw [link_after_next, if_neg hb1b2.symm]
        exact hb2n
      · rw [leX1_frame (link_after_x1 m b1 b2)]
        refine List.chain'_split.2 ⟨hs, ?_⟩
        simp only [List.nil_append, List.chain'_cons, List.chain'_singleton, and_true]
        exact hle
      · intro a
        exact ⟨link_after_data m b1 b2 a, link_after_sib m b1 b2 a⟩
      · intro a ha hab
        have : a ≠ b1 := fun h => ha (by simp [h])
        simp [link_after, set_prev_apply, set_next_apply, this, hab]
    | cons b3 T3 =>
      simp only [List.head?_cons] at hnext
      have hb3b2 : b3 ≠ b2 := hb2T b3 (by simp)
      have hb3b1 : b3 ≠ b1 := hb1T b3 (by simp)
      have hnd3 := List.nodup_cons.1 hnd2.2
      by_cases hins : (m b1).x1 ≤ (m b2).x1 ∧ (m b2).x1 ≤ (m b3).x1
      · refine ⟨link_between m b1 b2 b3, [], b3 :: T3, ?_, rfl, ⟨?_, ?_, ?_, ?_⟩, ?_, ?_, ?_⟩
        · simp [blob_insert_loop, hnext, hins, link_between, link_after]
        · have e : (S ++ b1 :: ([] ++ b2 :: b3 :: T3)).Perm (b2 :: (S ++ b1 :: b3 :: T3)) := by
            have : S ++ b1 :: ([] ++ b2 :: b3 :: T3) = (S ++ [b1]) ++ b2 :: (b3 :: T3) := by simp
            rw [this]
            have h2 : S ++ b1 :: b3 :: T3 = (S ++ [b1]) ++ (b3 :: T3) := by simp
            rw [h2]
            exact List.perm_middle
          exact e.nodup_iff.2 (List.nodup_cons.2 ⟨hb2, hnd⟩)
        · refine List.chain'_split.2 ⟨row_chain_frame _ hsplit.1 ?_ ?_, ?_⟩
          · intro a ha
            rw [List.dropLast_concat] at ha
            rw [link_between_next, if_neg (hb2S a ha), if_neg (hb1S a ha)]
          · intro a ha
            have ha2 := List.mem_of_mem_tail ha
            have : a ≠ b3 := by
              intro h
              rcases List.mem_append.1 ha2 with h3 | h3
              · exact hnd1.2.2 h3 (by simp [← h])
              · simp only [List.mem_singleton] at h3; exact hb3b1 (h ▸ h3)
            rw [link_between_prev, if_neg this, if_neg (hSb1 a ha2)]
          · simp only [List.nil_append]
            rw [List.chain'_cons, List.chain'_cons]
            refine ⟨⟨?_, ?_⟩, ⟨?_, ?_⟩, row_chain_frame _ hsplit.2.tail ?_ ?_⟩
            · rw [link_between_next, if_neg hb1b2, if_pos rfl]
            · rw [link_between_prev, if_neg hb3b2.symm, if_pos rfl]
            · rw [link_between_next, if_pos rfl]
            · rw [link_between_prev, if_pos rfl]
            · intro a ha
              have ha2 : a ∈ b3 :: T3 := List.mem_of_mem_dropLast ha
              rw [link_between_next, if_neg (hb2T a ha2), if_neg (hb1T a ha2)]
            · intro a ha
              simp only [List.tail_cons] at ha
              have : a ≠ b3 := fun h => hnd3.1 (h ▸ ha)
              rw [link_between_prev, if_neg this, if_neg (hb2T a (List.mem_cons_of_mem _ ha))]
        · intro a ha
          have e : S ++ b1 :: ([] ++ b2 :: b3 :: T3) = (S ++ [b1]) ++ b2 :: b3 :: T3 := by simp
          rw [e, List.head?_append_of_ne_nil _ (by simp)] at ha
          have ha2 := List.mem_of_mem_head? ha
          have : a ≠ b3 := by
            intro h
            rcases List.mem_append.1 ha2 with h3 | h3
            · exact hnd1.2.2 h3 (by simp [← h])
            · simp only [List.mem_singleton] at h3; exact hb3b1 (h ▸ h3)
          rw [link_between_prev, if_neg this, if_neg (hSb1 a ha2)]
          apply hhead a
          rw [show S ++ b1 :: b3 :: T3 = (S ++ [b1]) ++ b3 :: T3 by simp,
            List.head?_append_of_ne_nil _ (by simp)]
          exact ha
        · intro a ha
          have e : S ++ b1 :: ([] ++ b2 :: b3 :: T3) = (S ++ [b1, b2]) ++ b3 :: T3 := by simp
          rw [e, List.getLast?_append_cons] at ha
          have ha2 : a ∈ b3 :: T3 := List.mem_of_mem_getLast? ha
          rw [link_between_next, if_neg (hb2T a ha2), if_neg (hb1T a ha2)]
          apply hlast a
          rw [show S ++ b1 :: b3 :: T3 = (S ++ [b1]) ++ b3 :: T3 by simp,
            List.getLast?_append_cons]
          exact ha
        · rw [leX1_frame (link_between_x1 m b1 b2 b3)]
          have hs2 := List.chain'_split.1 hs
          refine List.chain'_split.2 ⟨hs2.1, ?_⟩
          simp only [List.nil_append]
          rw [List.chain'_cons, List.chain'_cons]
          exact ⟨hins.1, hins.2, hs2.2.tail⟩
        · intro a
          exact ⟨link_between_data m b1 b2 b3 a, link_between_sib m b1 b2 b3 a⟩
        · intro a ha hab
          have h1 : a ≠ b1 := fun h => ha (by simp [h])
          have h3 : a ≠ b3 := fun h => ha (by simp [h])
          simp [link_between, link_after, set_prev_apply, set_next_apply, h1, h3, hab]
      · have hlt : (m b3).x1 ≤ (m b2).x1 := by
          by_contra hcon
          exact hins ⟨hle, le_of_lt (not_le.1 hcon)⟩
        have e1 : (S ++ [b1]) ++ b3 :: T3 = S ++ b1 :: b3 :: T3 := by simp
        obtain ⟨m2, T1, T2, r1, r2, r3, r4, r5, r6⟩ :=
          blob_insert_loop_spec fuel m (S ++ [b1]) b3 T3 b2
            (by simp only [List.length_cons] at hf; omega)
            (by rw [e1]; exact ⟨hnd, hc, hhead, hlast⟩)
            (by rw [e1]; exact hb2) hb2n (by rw [e1]; exact hs) hlt
        refine ⟨m2, b3 :: T1, T2, ?_, by rw [r2]; rfl, ?_, ?_, r5, ?_⟩
        · simp only [blob_insert_loop, hnext, hins, if_false]
          exact r1
        · have : S ++ b1 :: (b3 :: T1 ++ b2 :: T2) = (S ++ [b1]) ++ b3 :: (T1 ++ b2 :: T2) := by
            simp
          rw [this]; exact r3
        · have : S ++ b1 :: (b3 :: T1 ++ b2 :: T2) = (S ++ [b1]) ++ b3 :: (T1 ++ b2 :: T2) := by
            simp
          rw [this]; exact r4
        · intro a ha hab
          exact r6 a (by rw [e1]; exact ha) hab

/-- C7: for a consistently doubly-linked row-order list `L` sorted by non-decreasing `x1`, a
list record `bl_start` other than the first whose predecessor has `x1 ≤ b2.x1`, and an unlinked
record `b2` (`prev = next = null`), `blob_insert(bl_start, b2)` returns (the loop needs at
most `length L` steps) and the list from the same head is `L` with `b2` put in at one place:
it is consistently doubly-linked and sorted by non-decreasing `x1`, and its members are the
old members in their old order plus `b2`.  The sentinel value `x1 = -1` of the head is not
needed. -/
theorem blob_insert_keeps_sorted (m : Mem) (L : List Nat) (bl_start b2 : Nat)
    (hL : IsRowList m L) (hs : SortedX1 m L)
    (hmem : bl_start ∈ L) (hnh : L.head? ≠ some bl_start)
    (hp : ∀ p, (m bl_start).prev = some p → (m p).x1 ≤ (m b2).x1)
    (hb2 : (m b2).prev = none ∧ (m b2).next = none)
    (fuel : Nat) (hf : L.length ≤ fuel) :
    ∃ (m2 : Mem) (S T : List Nat),
      blob_insert fuel m (some bl_start) b2 = some m2 ∧
      L = S ++ T ∧ S ≠ [] ∧ b2 ∉ L ∧
      IsRowList m2 (S ++ b2 :: T) ∧ SortedX1 m2 (S ++ b2 :: T) := by
  obtain ⟨s, t, rfl⟩ := List.append_of_mem hmem
  have hprev := dlist_prev_eq ((isRowList_iff m _).1 hL)
  rcases List.eq_nil_or_concat' s with rfl | ⟨S0, p, rfl⟩
  · exact absurd (by simp) hnh
  · rw [List.getLast?_concat] at hprev
    have hprev2 : (m bl_start).prev = some p := hprev
    have e1 : (S0 ++ [p]) ++ bl_start :: t = S0 ++ p :: (bl_start :: t) := by simp
    have hnot : b2 ∉ (S0 ++ [p]) ++ bl_start :: t := by
      intro hin
      obtain ⟨u, v, huv⟩ := List.append_of_mem hin
      rw [huv] at hL
      have q1 := dlist_prev_eq ((isRowList_iff m _).1 hL)
      have q2 := dlist_next_eq ((isRowList_iff m _).1 hL)
      have q1b : (m b2).prev = u.getLast? := q1
      have q2b : (m b2).next = v.head? := q2
      rw [hb2.1] at q1b
      rw [hb2.2] at q2b
      have hu : u = [] := List.getLast?_eq_none_iff.1 q1b.symm
      have hv : v = [] := List.head?_eq_none_iff.1 q2b.symm
      subst hu hv
      have := congrArg List.length huv
      simp at this
      omega
    obtain ⟨m2, T1, T2, r1, r2, r3, r4, _, _⟩ :=
      blob_insert_loop_spec fuel m S0 p (bl_start :: t) b2
        (by simp only [List.length_append, List.length_cons, List.length_nil] at hf ⊢; omega)
        (by rw [← e1]; exact hL) (by rw [← e1]; exact hnot) hb2.2
        (by rw [← e1]; exact hs.chain') (hp p hprev2)
    have e2 : S0 ++ p :: (T1 ++ b2 :: T2) = (S0 ++ p :: T1) ++ b2 :: T2 := by simp
    refine ⟨m2, S0 ++ p :: T1, T2, ?_, ?_, by simp, hnot, ?_, ?_⟩
    · simp only [blob_insert, hprev2]
      exact r1
    · rw [e1, r2]; simp
    · rw [← e2]; exact r3
    · rw [← e2]; exact leX1_chain_to_sorted m2 _ r4

theorem mem5_sorted_row : SortedX1 mem5 [0, 1, 2] := by
  simp [SortedX1, LeX1, mem5, node]

/-- C7 at the store `mem5`: the row-order list `0, 1, 2`, start record 1, new record 5. -/
theorem blob_insert_keeps_sorted_witness :
    ∃ (m2 : Mem) (S T : List Nat),
      blob_insert 3 mem5 (some 1) 5 = some m2 ∧
      [0, 1, 2] = S ++ T ∧ S ≠ [] ∧ 5 ∉ [0, 1, 2] ∧
      IsRowList m2 (S ++ 5 :: T) ∧ SortedX1 m2 (S ++ 5 :: T) :=
  blob_insert_keeps_sorted mem5 [0, 1, 2] 1 5 mem5_row mem5_sorted_row (by decide) (by decide)
    (by simp [mem5, node]) (by simp [mem5, node]) 3 (by decide)

/-! ## Row adapter: proofs -/

/-- C11: for every stream state, user structure and supplier hook: if `y ≥ h`, `next_row`
returns the no-more-rows signal 1 with the stream and the user structure as they were, whatever
the hook is (the hook is not invoked); otherwise its result is exactly the result of the hook,
invoked on the stream with `x = 0`, `wrap = false`, `y` increased by 1 and `w`, `h` and the row
buffer unchanged. -/
theorem next_row_stops_or_advances {U : Type}
    (next_row_hook : U → stream_state → Int × U × stream_state) (u : U)
    (stream : stream_state) :
    (stream.y ≥ stream.h →
      next_row next_row_hook u stream = (1, u, stream) ∧
      (1 : Int) ≠ 0 ∧
      ∀ other_hook : U → stream_state → Int × U × stream_state,
        next_row other_hook u stream = next_row next_row_hook u stream) ∧
    (stream.y < stream.h →
      next_row next_row_hook u stream
        = next_row_hook u
            { w := stream.w, h := stream.h, x := 0, y := stream.y + 1, wrap := false,
              row := stream.row }) := by
  constructor
  · intro h
    refine ⟨by simp [next_row, h], by decide, ?_⟩
    intro other
    simp [next_row, h]
  · intro h
    have : ¬ stream.y ≥ stream.h := not_le.2 h
    simp [next_row, this]

/-- C11 at the stream `stream1` (`y = 0 < h = 1`) and at the same stream with `y = 1`, for
the row hook of a still image. -/
theorem next_row_stops_or_advances_witness :
    (next_row still_hooks.next_row_hook image5 { stream1 with y := 1 }
        = (1, image5, { stream1 with y := 1 }) ∧
      (1 : Int) ≠ 0 ∧
      ∀ other_hook : still_user → stream_state → Int × still_user × stream_state,
        next_row other_hook image5 { stream1 with y := 1 }
          = next_row still_hooks.next_row_hook image5 { stream1 with y := 1 }) ∧
    next_row still_hooks.next_row_hook image5 stream1
      = still_hooks.next_row_hook image5
          { w := stream1.w, h := stream1.h, x := 0, y := stream1.y + 1, wrap := false,
            row := stream1.row } :=
  ⟨(next_row_stops_or_advances still_hooks.next_row_hook image5 { stream1 with y := 1 }).1
      (by decide),
    (next_row_stops_or_advances still_hooks.next_row_hook image5 stream1).2 (by decide)⟩

/-! ## Control loop: proofs -/

theorem camcar_obstacle_step (irLeft irRight blob_size : Int) (halign : ℚ)
    (blobnr ptdat_blobnr distance : Int) (h : irLeft ≠ 0 ∨ irRight ≠ 0) :
    camcar_step irLeft irRight blob_size halign blobnr ptdat_blobnr distance
      = ([action.DriveForward 0], blobnr) := by
  unfold camcar_step
  dsimp only
  rw [if_pos h]

/-- C14: in an iteration of the control loop in which the left or the right IR sensor reports
an obstacle, the calls of the robot library are exactly one `initio_DriveForward(0)`, for every
blob size, alignment, blob numbers and ultrasonic distance. -/
theorem camcar_obstacle_stops (irLeft irRight blob_size : Int) (halign : ℚ)
    (blobnr ptdat_blobnr distance : Int) (h : irLeft ≠ 0 ∨ irRight ≠ 0) :
    (camcar_step irLeft irRight blob_size halign blobnr ptdat_blobnr distance).1
      = [action.DriveForward 0] := by
  unfold camcar_step
  dsimp only
  rw [if_pos h]

/-- C14 with an obstacle on the right only and a large aligned blob far away. -/
theorem camcar_obstacle_stops_witness :
    (camcar_step 0 1 500 0 3 4 150).1 = [action.DriveForward 0] :=
  camcar_obstacle_stops 0 1 500 0 3 4 150 (by decide)

theorem camcar_step_search (blob_size : Int) (halign : ℚ) (blobnr ptdat_blobnr d : Int)
    (hs : ¬ blob_size > 20) :
    camcar_step 0 0 blob_size halign blobnr ptdat_blobnr d
      = if blobnr < ptdat_blobnr then
          ([action.SpinLeft 50, action.delay 200, action.DriveForward 0], ptdat_blobnr)
        else ([], blobnr) := by
  have ho : ¬ ((0 : Int) ≠ 0 ∨ (0 : Int) ≠ 0) := by decide
  unfold camcar_step
  dsimp only
  rw [if_neg ho, if_pos hs]

theorem camcar_step_align (blob_size : Int) (halign : ℚ) (blobnr ptdat_blobnr d : Int)
    (hs : blob_size > 20) (ha : ¬ (halign ≥ -(1 / 4) ∧ halign ≤ 1 / 4)) :
    camcar_step 0 0 blob_size halign blobnr ptdat_blobnr d
      = if blobnr < ptdat_blobnr then
          if halign < 0 then
            ([action.SpinRight 40, action.delay 150, action.DriveForward 0], ptdat_blobnr)
          else
            ([action.SpinLeft 40, action.delay 150, action.DriveForward 0], ptdat_blobnr)
        else ([], blobnr) := by
  have ho : ¬ ((0 : Int) ≠ 0 ∨ (0 : Int) ≠ 0) := by decide
  unfold camcar_step
  dsimp only
  rw [if_neg ho, if_neg (not_not.2 hs), if_pos ha]

theorem camcar_step_distance (blob_size : Int) (halign : ℚ) (blobnr ptdat_blobnr d : Int)
    (hs : blob_size > 20) (ha : halign ≥ -(1 / 4) ∧ halign ≤ 1 / 4) :
    camcar_step 0 0 blob_size halign blobnr ptdat_blobnr d
      = if d < 60 then ([action.DriveReverse 40], blobnr)
        else if d > 100 then ([action.DriveForward 40], blobnr)
        else ([action.DriveForward 0], blobnr) := by
  have ho : ¬ ((0 : Int) ≠ 0 ∨ (0 : Int) ≠ 0) := by decide
  unfold camcar_step
  dsimp only
  rw [if_neg ho, if_neg (not_not.2 hs), if_neg (not_not.2 ha)]
  by_cases h1 : d < 60
  · have : d < DIST_MIN := h1
    rw [if_pos this, if_pos h1]
  · have n1 : ¬ d < DIST_MIN := h1
    by_cases h2 : d > 100
    · have : d > DIST_MAX := h2
      rw [if_neg n1, if_pos this, if_neg h1, if_pos h2]
    · have n2 : ¬ d > DIST_MAX := h2
      rw [if_neg n1, if_neg n2, if_neg h1, if_neg h2]

/-- C20: in an iteration of the control loop with no obstacle, `blob.size > 20` and
`-0.25 ≤ halign ≤ 0.25`, exactly one call of the robot library is made, fixed by the ultrasonic
distance `d`: it is `initio_DriveReverse(40)` iff `d < 60`, `initio_DriveForward(40)` iff
`d > 100`, and `initio_DriveForward(0)` iff `60 ≤ d ≤ 100`.  And for all values read in an
iteration, a forward drive with a non-zero speed is issued only in that situation with
`d > 100`. -/
theorem camcar_keeps_distance (blob_size : Int) (halign : ℚ)
    (blobnr ptdat_blobnr d : Int)
    (hsize : blob_size > 20) (hlo : -(1 / 4) ≤ halign) (hhi : halign ≤ 1 / 4) :
    (∃ c, (camcar_step 0 0 blob_size halign blobnr ptdat_blobnr d).1 = [c]) ∧
    ((camcar_step 0 0 blob_size halign blobnr ptdat_blobnr d).1 = [action.DriveReverse 40]
      ↔ d < 60) ∧
    ((camcar_step 0 0 blob_size halign blobnr ptdat_blobnr d).1 = [action.DriveForward 40]
      ↔ d > 100) ∧
    ((camcar_step 0 0 blob_size halign blobnr ptdat_blobnr d).1 = [action.DriveForward 0]
      ↔ 60 ≤ d ∧ d ≤ 100) ∧
    (∀ (irLeft irRight size2 : Int) (halign2 : ℚ) (nr ptnr d2 v : Int),
      action.DriveForward v ∈ (camcar_step irLeft irRight size2 halign2 nr ptnr d2).1 →
      v ≠ 0 →
      irLeft = 0 ∧ irRight = 0 ∧ size2 > 20 ∧ -(1 / 4) ≤ halign2 ∧ halign2 ≤ 1 / 4 ∧
        d2 > 100) := by
  rw [camcar_step_distance blob_size halign blobnr ptdat_blobnr d hsize ⟨hlo, hhi⟩]
  refine ⟨?_, ?_, ?_, ?_, ?_⟩
  · by_cases h1 : d < 60
    · exact ⟨action.DriveReverse 40, by rw [if_pos h1]⟩
    · by_cases h2 : d > 100
      · exact ⟨action.DriveForward 40, by rw [if_neg h1, if_pos h2]⟩
      · exact ⟨action.DriveForward 0, by rw [if_neg h1, if_neg h2]⟩
  · by_cases h1 : d < 60
    · rw [if_pos h1]; exact ⟨fun _ => h1, fun _ => rfl⟩
    · by_cases h2 : d > 100
      · rw [if_neg h1, if_pos h2]
        exact ⟨fun h => absurd h (by simp), fun h => absurd h h1⟩
      · rw [if_neg h1, if_neg h2]
        exact ⟨fun h => absurd h (by simp), fun h => absurd h h1⟩
  · by_cases h1 : d < 60
    · rw [if_pos h1]
      exact ⟨fun h => absurd h (by simp), fun h => by omega⟩
    · by_cases h2 : d > 100
      · rw [if_neg h1, if_pos h2]; exact ⟨fun _ => h2, fun _ => rfl⟩
      · rw [if_neg h1, if_neg h2]
        exact ⟨fun h => absurd h (by simp), fun h => absurd h h2⟩
  · by_cases h1 : d < 60
    · rw [if_pos h1]
      exact ⟨fun h => absurd h (by simp), fun h => by omega⟩
    · by_cases h2 : d > 100
      · rw [if_neg h1, if_pos h2]
        exact ⟨fun h => absurd h (by simp), fun h => by omega⟩
      · rw [if_neg h1, if_neg h2]
        exact ⟨fun _ => by omega, fun _ => rfl⟩
  · intro irLeft irRight size2 halign2 nr ptnr d2 v hmem hv
    have hv2 : action.DriveForward v ≠ action.DriveForward 0 := by
      intro h; exact hv (action.DriveForward.inj h)
    by_cases ho : irLeft ≠ 0 ∨ irRight ≠ 0
    · rw [camcar_obstacle_step irLeft irRight size2 halign2 nr ptnr d2 ho] at hmem
      simp only [List.mem_singleton] at hmem
      exact absurd hmem hv2
    · have hL : irLeft = 0 := by
        by_contra hc; exact ho (Or.inl hc)
      have hR : irRight = 0 := by
        by_contra hc; exact ho (Or.inr hc)
      subst hL hR
      by_cases hs : size2 > 20
      · by_cases ha : halign2 ≥ -(1 / 4) ∧ halign2 ≤ 1 / 4
        · rw [camcar_step_distance size2 halign2 nr ptnr d2 hs ha] at hmem
          by_cases h1 : d2 < 60
          · rw [if_pos h1] at hmem
            simp only [List.mem_singleton] at hmem
            exact absurd hmem (by simp)
          · by_cases h2 : d2 > 100
            · exact ⟨rfl, rfl, hs, ha.1, ha.2, h2⟩
            · rw [if_neg h1, if_neg h2] at hmem
              simp only [List.mem_singleton] at hmem
              exact absurd hmem hv2
        · rw [camcar_step_align size2 halign2 nr ptnr d2 hs ha] at hmem
          by_cases hb : nr < ptnr
          · by_cases hneg : halign2 < 0
            · rw [if_pos hb, if_pos hneg] at hmem
              simp only [List.mem_cons, List.mem_singleton, List.not_mem_nil, or_false] at hmem
              rcases hmem with h | h | h
              · exact absurd h (by simp)
              · exact absurd h (by simp)
              · exact absurd h hv2
            · rw [if_pos hb, if_neg hneg] at hmem
              simp only [List.mem_cons, List.mem_singleton, List.not_mem_nil, or_false] at hmem
              rcases hmem with h | h | h
              · exact absurd h (by simp)
              · exact absurd h (by simp)
              · exact absurd h hv2
          · rw [if_neg hb] at hmem
            exact absurd hmem (List.not_mem_nil _)
      · rw [camcar_step_search size2 halign2 nr ptnr d2 hs] at hmem
        by_cases hb : nr < ptnr
        · rw [if_pos hb] at hmem
          simp only [List.mem_cons, List.mem_singleton, List.not_mem_nil, or_false] at hmem
          rcases hmem with h | h | h
          · exact absurd h (by simp)
          · exact absurd h (by simp)
          · exact absurd h hv2
        · rw [if_neg hb] at hmem
          exact absurd hmem (List.not_mem_nil _)

/-- C20 for a blob of size 500 at `halign = 0` and the distance 150. -/
theorem camcar_keeps_distance_witness :
    (∃ c, (camcar_step 0 0 500 0 3 4 150).1 = [c]) ∧
    ((camcar_step 0 0 500 0 3 4 150).1 = [action.DriveReverse 40] ↔ (150 : Int) < 60) ∧
    ((camcar_step 0 0 500 0 3 4 150).1 = [action.DriveForward 40] ↔ (150 : Int) > 100) ∧
    ((camcar_step 0 0 500 0 3 4 150).1 = [action.DriveForward 0]
      ↔ (60 : Int) ≤ 150 ∧ (150 : Int) ≤ 100) ∧
    (∀ (irLeft irRight size2 : Int) (halign2 : ℚ) (nr ptnr d2 v : Int),
      action.DriveForward v ∈ (camcar_step irLeft irRight size2 halign2 nr ptnr d2).1 →
      v ≠ 0 →
      irLeft = 0 ∧ irRight = 0 ∧ size2 > 20 ∧ -(1 / 4) ≤ halign2 ∧ halign2 ≤ 1 / 4 ∧
        d2 > 100) :=
  camcar_keeps_distance 500 0 3 4 150 (by decide) (by norm_num) (by norm_num)

/-! ## Blob search wrapper: proofs -/

/-- The three operations of the alignment on a quotient in `[0, 1]`: the result is in
`[-1, 1]` and within `2 ^ -51` of the exact value. -/
theorem align_bounds (q : ℚ) (h0 : 0 ≤ q) (h1 : q ≤ 1) :
    -1 ≤ to_double (-1 + to_double (2 * to_double q)) ∧
    to_double (-1 + to_double (2 * to_double q)) ≤ 1 ∧
    |to_double (-1 + to_double (2 * to_double q)) - (2 * q - 1)| ≤ 1 / 2 ^ 51 := by
  have a0 : 0 ≤ to_double q := to_double_nonneg h0
  have a1 : to_double q ≤ 1 := by
    have := to_double_mono h1
    rwa [to_double_one] at this
  rw [to_double_two_mul]
  have b0 : -1 ≤ to_double (-1 + 2 * to_double q) := by
    have := to_double_mono (show (-1 : ℚ) ≤ -1 + 2 * to_double q by linarith)
    rwa [to_double_neg_one] at this
  have b1 : to_double (-1 + 2 * to_double q) ≤ 1 := by
    have := to_double_mono (show -1 + 2 * to_double q ≤ (1 : ℚ) by linarith)
    rwa [to_double_one] at this
  refine ⟨b0, b1, ?_⟩
  have e1 := to_double_near_of_lt q 0 (by rw [abs_of_nonneg h0]; norm_num; linarith) (by norm_num)
  have e2 := to_double_near_of_lt (-1 + 2 * to_double q) 0
    (by rw [abs_lt]; norm_num; constructor <;> linarith) (by norm_num)
  norm_num at e1 e2
  rw [abs_le] at e1 e2 ⊢
  norm_num
  constructor <;> linarith [e1.1, e1.2, e2.1, e2.2]

/-- The alignment does not decrease with the quotient. -/
theorem align_mono {q1 q2 : ℚ} (h : q1 ≤ q2) :
    to_double (-1 + to_double (2 * to_double q1)) ≤ to_double (-1 + to_double (2 * to_double q2)) := by
  apply to_double_mono
  have := to_double_mono (show 2 * to_double q1 ≤ 2 * to_double q2 by
    have := to_double_mono h; linarith)
  linarith

/-- A value `-1 + 2 * d`, `d` a double, that rounds to zero is zero. -/
theorem align_zero_exact (q : ℚ) (h : to_double (-1 + 2 * to_double q) = 0) :
    to_double q = 1 / 2 := by
  obtain ⟨m, e, _, he, hq⟩ := to_double_dyadic q
  have hx := to_double_eq_zero h
  have h2 : (2 : ℚ) ≠ 0 := by norm_num
  obtain ⟨j, hj⟩ : ∃ j : Nat, (j : Int) = e + 1075 := ⟨(e + 1075).toNat, by omega⟩
  have hZ : (((m * 2 ^ j - 2 ^ 1074 : Int)) : ℚ)
      = (-1 + 2 * to_double q) * 2 ^ (1074 : Int) := by
    rw [hq]
    simp only [Int.cast_sub, Int.cast_mul, Int.cast_pow, Int.cast_ofNat]
    have e1 : (2 : ℚ) ^ j = 2 ^ e * 2 ^ (1075 : Int) := by
      rw [← zpow_natCast, hj, zpow_add₀ h2]
    have e2 : (2 : ℚ) ^ (1075 : Int) = 2 * 2 ^ (1074 : Int) := by
      rw [show (1075 : Int) = 1 + 1074 by norm_num, zpow_add₀ h2, zpow_one]
    have e3 : (2 : ℚ) ^ (1074 : Nat) = 2 ^ (1074 : Int) := by
      rw [← zpow_natCast]; rfl
    rw [e1, e2, e3]
    ring
  have hb : |(((m * 2 ^ j - 2 ^ 1074 : Int)) : ℚ)| < 1 := by
    rw [hZ, abs_mul, abs_of_pos (two_zpow_pos 1074)]
    have e4 : (2 : ℚ) ^ (-1075 : Int) * 2 ^ (1074 : Int) = 1 / 2 := by
      rw [← zpow_add₀ h2]; norm_num
    have := mul_le_mul_of_nonneg_right hx (two_zpow_pos 1074).le
    rw [e4] at this
    linarith
  have hz : (m * 2 ^ j - 2 ^ 1074 : Int) = 0 := by
    have : |(m * 2 ^ j - 2 ^ 1074 : Int)| < 1 := by
      have h5 : ((|(m * 2 ^ j - 2 ^ 1074 : Int)| : Int) : ℚ) < ((1 : Int) : ℚ) := by
        rw [Int.cast_abs, Int.cast_one]; exact hb
      exact_mod_cast h5
    exact Int.abs_lt_one_iff.mp this
  rw [hz] at hZ
  have hp := two_zpow_pos 1074
  have : (-1 + 2 * to_double q) = 0 := by
    have h6 : (-1 + 2 * to_double q) * 2 ^ (1074 : Int) = 0 := by
      rw [← hZ]; simp
    rcases mul_eq_zero.mp h6 with h7 | h7
    · exact h7
    · exact absurd h7 (ne_of_gt hp)
  linarith

/-- A quotient in `[0, 1]` that rounds to `1/2` lies within half a unit in the last place of
`1/2`. -/
theorem near_half_of_round (q : ℚ) (h0 : 0 ≤ q) (h1 : q ≤ 1) (h : to_double q = 1 / 2) :
    1 / 2 - 1 / 2 ^ 55 ≤ q ∧ q ≤ 1 / 2 + 1 / 2 ^ 54 := by
  have hq0 : q ≠ 0 := by
    intro hz0; rw [hz0, to_double_zero] at h; norm_num at h
  have hq1 : q ≠ 1 := by
    intro hz1; rw [hz1, to_double_one] at h; norm_num at h
  have hlt : q < 1 := lt_of_le_of_ne h1 hq1
  rcases lt_or_le q (1 / 2) with hlow | hhigh
  · have e := to_double_near_of_lt q (-2) (by rw [abs_of_nonneg h0]; norm_num; linarith)
      (by norm_num)
    rw [h, abs_le] at e
    norm_num at e
    constructor
    · norm_num; linarith [e.2]
    · norm_num; linarith
  · have e := to_double_near_of_lt q (-1) (by rw [abs_of_nonneg h0]; norm_num; linarith)
      (by norm_num)
    rw [h, abs_le] at e
    norm_num at e
    constructor
    · norm_num; linarith
    · norm_num; linarith [e.1]

/-- A double `cx` whose quotient by an `int` width `w` rounds to `1/2` is `w / 2`. -/
theorem half_width_of_round (cx : ℚ) (w : Int) (hd : IsDouble cx) (hw : 0 < w)
    (hw2 : w < 2 ^ 31) (h0 : 0 ≤ cx) (h1 : cx ≤ (w : ℚ))
    (h : to_double (cx / (w : ℚ)) = 1 / 2) : cx = (w : ℚ) / 2 := by
  have hwq : (0 : ℚ) < (w : ℚ) := by exact_mod_cast hw
  have hw3 : (w : ℚ) < 2147483648 := by
    have : ((w : Int) : ℚ) < ((2 ^ 31 : Int) : ℚ) := by exact_mod_cast hw2
    simpa using this
  obtain ⟨n1, n2⟩ := near_half_of_round (cx / (w : ℚ)) (div_nonneg h0 hwq.le)
    ((div_le_one hwq).2 h1) h
  rw [le_div_iff₀ hwq] at n1
  rw [div_le_iff₀ hwq] at n2
  norm_num at n1 n2
  obtain ⟨M, E, hM, _, _, hcx⟩ := hd
  rw [abs_lt] at hM
  have hM1 : (M : ℚ) < 9007199254740992 := by
    have : ((M : Int) : ℚ) < ((2 ^ 53 : Int) : ℚ) := by exact_mod_cast hM.2
    simpa using this
  have hM2 : (-9007199254740992 : ℚ) < (M : ℚ) := by
    have : ((-(2 ^ 53) : Int) : ℚ) < ((M : Int) : ℚ) := by exact_mod_cast hM.1
    simpa using this
  have h2 : (2 : ℚ) ≠ 0 := by norm_num
  rcases le_or_lt 0 E with hE | hE
  · -- `cx` is an integer
    obtain ⟨j, hj⟩ : ∃ j : Nat, (j : Int) = E := ⟨E.toNat, by omega⟩
    have hc : cx = ((M * 2 ^ j : Int) : ℚ) := by
      rw [hcx, ← hj, zpow_natCast]; push_cast; ring
    have hb : |(((2 * (M * 2 ^ j) - w : Int)) : ℚ)| < 1 := by
      push_cast
      rw [abs_lt]
      push_cast at hc
      rw [← hc]
      constructor <;> linarith
    have hz : (2 * (M * 2 ^ j) - w : Int) = 0 := by
      have : |(2 * (M * 2 ^ j) - w : Int)| < 1 := by
        have h5 : ((|(2 * (M * 2 ^ j) - w : Int)| : Int) : ℚ) < ((1 : Int) : ℚ) := by
          rw [Int.cast_abs, Int.cast_one]; exact hb
        exact_mod_cast h5
      exact Int.abs_lt_one_iff.mp this
    have hzq : (((2 * (M * 2 ^ j) - w : Int)) : ℚ) = 0 := by rw [hz]; simp
    push_cast at hzq hc
    rw [hc]
    linarith
  · -- `cx = M / 2 ^ (j + 1)`
    obtain ⟨j, hj⟩ : ∃ j : Nat, E = -((j : Int) + 1) := ⟨(-E - 1).toNat, by omega⟩
    have hP : (0 : ℚ) < 2 ^ j := by positivity
    have hc : cx * (2 * 2 ^ j) = (M : ℚ) := by
      rw [hcx, hj, zpow_neg, zpow_add₀ h2, zpow_one, zpow_natCast]
      field_simp
      left
      ring
    -- `Z = M - w * 2 ^ j` is `(2 * cx - w) * 2 ^ j`
    have hZ : (((M - w * 2 ^ j : Int)) : ℚ) = (2 * cx - (w : ℚ)) * 2 ^ j := by
      push_cast
      rw [← hc]; ring
    have hwP : (w : ℚ) * 2 ^ j = (M : ℚ) - (((M - w * 2 ^ j : Int)) : ℚ) := by
      push_cast; ring
    have u1 : (((M - w * 2 ^ j : Int)) : ℚ) * 9007199254740992 ≤ (w : ℚ) * 2 ^ j := by
      rw [hZ]
      have : (2 * cx - (w : ℚ)) * 9007199254740992 ≤ (w : ℚ) := by linarith
      nlinarith [mul_le_mul_of_nonneg_right this hP.le]
    have u2 : -((w : ℚ) * 2 ^ j) ≤ (((M - w * 2 ^ j : Int)) : ℚ) * 18014398509481984 := by
      rw [hZ]
      have : -(w : ℚ) ≤ (2 * cx - (w : ℚ)) * 18014398509481984 := by linarith
      nlinarith [mul_le_mul_of_nonneg_right this hP.le]
    rw [hwP] at u1 u2
    have hz : (M - w * 2 ^ j : Int) = 0 := by
      by_contra hne
      rcases lt_or_gt_of_ne hne with hneg | hpos
      · have : (((M - w * 2 ^ j : Int)) : ℚ) ≤ ((-1 : Int) : ℚ) := by
          exact_mod_cast (show (M - w * 2 ^ j : Int) ≤ -1 by omega)
        push_cast at this u1 u2
        linarith
      · have : ((1 : Int) : ℚ) ≤ (((M - w * 2 ^ j : Int)) : ℚ) := by
          exact_mod_cast (show (1 : Int) ≤ (M - w * 2 ^ j : Int) by omega)
        push_cast at this u1 u2
        linarith
    rw [hz] at hZ
    have h6 : (2 * cx - (w : ℚ)) * 2 ^ j = 0 := by
      rw [← hZ]; simp
    rcases mul_eq_zero.mp h6 with h7 | h7
    · linarith
    · exact absurd h7 (ne_of_gt hP)

theorem imageSearchBlob_found (pimg : TJImage) (blob_max : blob) (h : blob_max.size > 0) :
    imageSearchBlob pimg blob_max
      = { blob := blob_max,
          halign := some (to_double (-1 + to_double (2 * to_double
            (blob_max.center_x / (pimg.w : ℚ))))),
          valign := some (to_double (-1 + to_double (2 * to_double
            (blob_max.center_y / (pimg.h : ℚ))))),
          size := blob_max.size } := by
  unfold imageSearchBlob
  dsimp only
  rw [if_pos h]

theorem to_double_eleven_twentieths :
    to_double (11 / 20) = 4953959590107546 / 9007199254740992 := by
  rw [to_double_eval (11 / 20) (-1) 4953959590107546 (by norm_num) (by norm_num) (by norm_num)
    (by norm_num [abs_lt])]
  norm_num

theorem to_double_above_eleven_twentieths :
    to_double ((110 + 1 / 2 ^ 46) / 200) = 4953959590107546 / 9007199254740992 := by
  rw [to_double_eval ((110 + 1 / 2 ^ 46) / 200) (-1) 4953959590107546 (by norm_num)
    (by norm_num) (by norm_num) (by norm_num [abs_lt])]
  norm_num

/-- The alignment computed for `center_x = 1` in an image of width 3. -/
theorem align_third :
    to_double (-1 + to_double (2 * to_double (1 / 3)))
      = -3002399751580331 / 9007199254740992 := by
  rw [to_double_two_mul, to_double_third]
  have h := to_double_exact (-3002399751580331) (-53) (by norm_num) (by norm_num)
  have e : ((-3002399751580331 : Int) : ℚ) * 2 ^ (-53 : Int)
      = -1 + 2 * (6004799503160661 / 18014398509481984) := by norm_num
  rw [e] at h
  rw [h]
  norm_num

/-- C15, refuted as stated.  (1) For a found blob with `center_x = 1` in an image of width 3
(inside `w > 0`, `size > 0`, `0 ≤ center_x ≤ w`) the code returns
`halign = -3002399751580331 / 2 ^ 53` (printed `-0.33333333333333337`), not
`2 * center_x / w - 1 = -1/3`.  (2) In the 200 pixel wide image the doubles `110` and
`110 + 2 ^ -46` are different values of `center_x` with the same `halign`: the result is not
strictly increasing. -/
theorem imageSearchBlob_halign_counterexample :
    ((0 : Int) < image3.w ∧ (found 1 0).size > 0 ∧ 0 ≤ (found 1 0).center_x ∧
      (found 1 0).center_x ≤ (image3.w : ℚ) ∧
      (imageSearchBlob image3 (found 1 0)).halign
        = some (-3002399751580331 / 9007199254740992) ∧
      (imageSearchBlob image3 (found 1 0)).halign
        ≠ some (2 * (found 1 0).center_x / (image3.w : ℚ) - 1)) ∧
    ((0 : Int) < image200.w ∧ (found 110 0).size > 0 ∧ (found (110 + 1 / 2 ^ 46) 0).size > 0 ∧
      0 ≤ (found 110 0).center_x ∧ (found (110 + 1 / 2 ^ 46) 0).center_x ≤ (image200.w : ℚ) ∧
      IsDouble (found 110 0).center_x ∧ IsDouble (found (110 + 1 / 2 ^ 46) 0).center_x ∧
      (found 110 0).center_x < (found (110 + 1 / 2 ^ 46) 0).center_x ∧
      (imageSearchBlob image200 (found 110 0)).halign
        = (imageSearchBlob image200 (found (110 + 1 / 2 ^ 46) 0)).halign) := by
  have s1 : ∀ cx : ℚ, (found cx 0).size > 0 := by intro cx; simp [found]
  have c1 : ∀ cx : ℚ, (found cx 0).center_x = cx := by intro cx; rfl
  have a1 : (imageSearchBlob image3 (found 1 0)).halign
      = some (-3002399751580331 / 9007199254740992) := by
    rw [imageSearchBlob_found image3 (found 1 0) (s1 1)]
    have e : (found 1 0).center_x / (image3.w : ℚ) = 1 / 3 := by
      rw [c1]; norm_num [image3]
    simp only [e, align_third]
  have e110 : (found 110 0).center_x / (image200.w : ℚ) = 11 / 20 := by
    rw [c1]; norm_num [image200]
  have e110b : (found (110 + 1 / 2 ^ 46) 0).center_x / (image200.w : ℚ)
      = (110 + 1 / 2 ^ 46) / 200 := by
    rw [c1]; norm_num [image200]
  refine ⟨⟨by decide, s1 1, by rw [c1]; norm_num, by rw [c1]; norm_num [image3], a1, ?_⟩,
    ⟨by decide, s1 _, s1 _, by rw [c1]; norm_num, by rw [c1]; norm_num [image200],
      ?_, ?_, by rw [c1, c1]; norm_num, ?_⟩⟩
  · rw [a1, c1]
    norm_num [image3]
  · rw [c1]
    exact ⟨110, 0, by norm_num, by norm_num, by norm_num, by norm_num⟩
  · rw [c1]
    exact ⟨7740561859543041, -46, by norm_num, by norm_num, by norm_num, by norm_num⟩
  · rw [imageSearchBlob_found image200 (found 110 0) (s1 _),
      imageSearchBlob_found image200 (found (110 + 1 / 2 ^ 46) 0) (s1 _)]
    simp only [e110, e110b, to_double_eleven_twentieths, to_double_above_eleven_twentieths]

/-- C15, amended: for an image of width `0 < w < 2 ^ 31` (an `int`) and a found blob
(`size > 0`) whose `center_x` is a double with `0 ≤ center_x ≤ w`, `imageSearchBlob` returns a
`halign` within `2 ^ -51` of `2 * center_x / w - 1` (the quotient, the product and the sum are
rounded), which lies in `[-1, 1]`, is `-1` for `center_x = 0`, `+1` for `center_x = w`,
`0` exactly for `center_x = w / 2`, and does not decrease when `center_x` grows. -/
theorem imageSearchBlob_halign (pimg : TJImage) (blob_max : blob)
    (hw : 0 < pimg.w) (hw2 : pimg.w < 2 ^ 31) (hsize : blob_max.size > 0)
    (hd : IsDouble blob_max.center_x)
    (h0 : 0 ≤ blob_max.center_x) (h1 : blob_max.center_x ≤ (pimg.w : ℚ)) :
    ∃ v : ℚ,
      (imageSearchBlob pimg blob_max).halign = some v ∧
      |v - (2 * blob_max.center_x / (pimg.w : ℚ) - 1)| ≤ 1 / 2 ^ 51 ∧
      -1 ≤ v ∧ v ≤ 1 ∧
      (blob_max.center_x = 0 → v = -1) ∧
      (blob_max.center_x = (pimg.w : ℚ) → v = 1) ∧
      (v = 0 ↔ blob_max.center_x = (pimg.w : ℚ) / 2) ∧
      (∀ other : blob, other.size > 0 → blob_max.center_x ≤ other.center_x →
        ∃ v2 : ℚ, (imageSearchBlob pimg other).halign = some v2 ∧ v ≤ v2) := by
  have hwq : (0 : ℚ) < (pimg.w : ℚ) := by exact_mod_cast hw
  have hne : (pimg.w : ℚ) ≠ 0 := ne_of_gt hwq
  have q0 : 0 ≤ blob_max.center_x / (pimg.w : ℚ) := div_nonneg h0 hwq.le
  have q1 : blob_max.center_x / (pimg.w : ℚ) ≤ 1 := (div_le_one hwq).2 h1
  obtain ⟨b0, b1, be⟩ := align_bounds _ q0 q1
  refine ⟨to_double (-1 + to_double (2 * to_double (blob_max.center_x / (pimg.w : ℚ)))),
    ?_, ?_, b0, b1, ?_, ?_, ?_, ?_⟩
  · rw [imageSearchBlob_found pimg blob_max hsize]
  · have e : 2 * blob_max.center_x / (pimg.w : ℚ) - 1
        = 2 * (blob_max.center_x / (pimg.w : ℚ)) - 1 := by ring
    rw [e]; exact be
  · intro h
    rw [h, zero_div, to_double_zero, mul_zero, to_double_zero, add_zero, to_double_neg_one]
  · intro h
    rw [h, div_self hne, to_double_one, mul_one]
    have t2 : to_double 2 = 2 := by
      have := to_double_int 2 (by norm_num)
      simpa using this
    rw [t2]
    norm_num
    exact to_double_one
  · constructor
    · intro h
      rw [to_double_two_mul] at h
      exact half_width_of_round _ _ hd hw hw2 h0 h1 (align_zero_exact _ h)
    · intro h
      have e : blob_max.center_x / (pimg.w : ℚ) = 1 / 2 := by
        rw [h]; field_simp; ring
      rw [e, to_double_one_half]
      norm_num
      rw [to_double_one]
      norm_num
      exact to_double_zero
  · intro other hs hle
    refine ⟨to_double (-1 + to_double (2 * to_double (other.center_x / (pimg.w : ℚ)))), ?_, ?_⟩
    · rw [imageSearchBlob_found pimg other hs]
    · exact align_mono (div_le_div_of_nonneg_right hle hwq.le)

/-- C15 (amended) for the 200x200 image and a blob centred at column 50. -/
theorem imageSearchBlob_halign_witness :
    ∃ v : ℚ,
      (imageSearchBlob image200 (found 50 0)).halign = some v ∧
      |v - (2 * (found 50 0).center_x / (image200.w : ℚ) - 1)| ≤ 1 / 2 ^ 51 ∧
      -1 ≤ v ∧ v ≤ 1 ∧
      ((found 50 0).center_x = 0 → v = -1) ∧
      ((found 50 0).center_x = (image200.w : ℚ) → v = 1) ∧
      (v = 0 ↔ (found 50 0).center_x = (image200.w : ℚ) / 2) ∧
      (∀ other : blob, other.size > 0 → (found 50 0).center_x ≤ other.center_x →
        ∃ v2 : ℚ, (imageSearchBlob image200 other).halign = some v2 ∧ v ≤ v2) :=
  imageSearchBlob_halign image200 (found 50 0) (by decide) (by decide) (by decide)
    ⟨50, 0, by norm_num, by norm_num, by norm_num, by simp [found]⟩
    (by simp [found]) (by simp [found, image200]; norm_num)

/-- C16, evaluated on the code: for the 200x200 image and a found blob whose centre is in the
top row (`center_y = 0`, rows counted from the top as the scanlines are stored),
`imageSearchBlob` returns `valign = -1`, and for `center_y = h = 200` it returns `valign = +1`;
the header `detect_blob.h` documents `valign` as `-1` for the bottom and `+1` for the top.
In the middle (`center_y = 100`) the result is 0. -/
theorem imageSearchBlob_valign_top :
    (imageSearchBlob image200 (found 100 0)).valign = some (-1) ∧
    (imageSearchBlob image200 (found 100 0)).valign ≠ some 1 ∧
    (imageSearchBlob image200 (found 100 200)).valign = some 1 ∧
    (imageSearchBlob image200 (found 100 100)).valign = some 0 := by
  have e : ∀ cy : ℚ, (imageSearchBlob image200 (found 100 cy)).valign
      = some (to_double (-1 + to_double (2 * to_double (cy / 200)))) := by
    intro cy
    have hs : (found 100 cy).size > 0 := by simp [found]
    rw [imageSearchBlob_found image200 (found 100 cy) hs]
    simp [found, image200]
  have t2 : to_double 2 = 2 := by
    have := to_double_int 2 (by norm_num)
    simpa using this
  have v0 : to_double (-1 + to_double (2 * to_double ((0 : ℚ) / 200))) = -1 := by
    rw [zero_div, to_double_zero, mul_zero, to_double_zero, add_zero, to_double_neg_one]
  have v1 : to_double (-1 + to_double (2 * to_double ((200 : ℚ) / 200))) = 1 := by
    rw [div_self (by norm_num), to_double_one, mul_one, t2]
    norm_num
    exact to_double_one
  have v2 : to_double (-1 + to_double (2 * to_double ((100 : ℚ) / 200))) = 0 := by
    rw [show (100 : ℚ) / 200 = 1 / 2 by norm_num, to_double_one_half]
    norm_num
    rw [to_double_one]
    norm_num
    exact to_double_zero
  refine ⟨?_, ?_, ?_, ?_⟩
  · rw [e, v0]
  · rw [e, v0]; norm_num
  · rw [e, v1]
  · rw [e, v2]

/-! ## Running statistics over the rows of a rectangle -/

theorem rows_from_succ (y0 : Int) (n : Nat) :
    rows_from y0 (n + 1) = rows_from y0 n ++ [y0 + (n : Int)] := by
  simp [rows_from, List.range_succ]

/-- A product, a sum and a quotient of doubles whose exact values are halves of integers below
`2 ^ 53` are computed without rounding. -/
theorem mean_step_exact (p h d : ℚ) (m1 m2 m3 : Int)
    (e1 : p = (m1 : ℚ) / 2) (e2 : (m1 : ℚ) / 2 + h = (m2 : ℚ) / 2)
    (e3 : (m2 : ℚ) / 2 / d = (m3 : ℚ) / 2)
    (b1 : |m1| < 2 ^ 53) (b2 : |m2| < 2 ^ 53) (b3 : |m3| < 2 ^ 53) :
    to_double (to_double (to_double p + h) / d) = (m3 : ℚ) / 2 := by
  rw [e1, to_double_half m1 b1, e2, to_double_half m2 b2, e3, to_double_half m3 b3]

theorem abs_lt_of_nonneg (m : Int) (h0 : 0 ≤ m) (h1 : m < 9007199254740992) : |m| < 2 ^ 53 := by
  rw [abs_of_nonneg h0]
  norm_num
  exact h1

/-- The record after the first `k + 1` rows of a rectangle of `K + 1` rows, as long as the
`int` expressions of the updates stay below `2 ^ 31` and the weighted sums below `2 ^ 53`. -/
theorem update_rows_rect (b0 : blob) (x0 x1 y0 : Int) (K : Nat)
    (hx0 : 0 ≤ x0) (hx : x0 ≤ x1) (hy0 : 0 ≤ y0)
    (hi1 : (x0 + x1) * (x1 - x0 + 1) < 2 ^ 31)
    (hi2 : (y0 + (K : Int)) * (x1 - x0 + 1) < 2 ^ 31)
    (hi3 : ((K : Int) + 1) * (x1 - x0 + 1) < 2 ^ 31)
    (hd1 : (x0 + x1) * (((K : Int) + 1) * (x1 - x0 + 1)) < 2 ^ 53)
    (hd2 : (y0 + (y0 + (K : Int))) * (((K : Int) + 1) * (x1 - x0 + 1)) < 2 ^ 53)
    (k : Nat) (hk : k ≤ K) :
    (update_rows (blank b0) x0 x1 (rows_from y0 (k + 1))).size
        = ((k : Int) + 1) * (x1 - x0 + 1) ∧
    (update_rows (blank b0) x0 x1 (rows_from y0 (k + 1))).center_x
        = ((x0 : ℚ) + x1) / 2 ∧
    (update_rows (blank b0) x0 x1 (rows_from y0 (k + 1))).center_y
        = (y0 : ℚ) + (k : ℚ) / 2 ∧
    (update_rows (blank b0) x0 x1 (rows_from y0 (k + 1))).bb_x1 = x0 ∧
    (update_rows (blank b0) x0 x1 (rows_from y0 (k + 1))).bb_y1 = y0 ∧
    (update_rows (blank b0) x0 x1 (rows_from y0 (k + 1))).bb_x2 = x1 ∧
    (update_rows (blank b0) x0 x1 (rows_from y0 (k + 1))).bb_y2 = y0 + (k : Int) := by
  norm_num at hi1 hi2 hi3 hd1 hd2
  have hN : (1 : Int) ≤ x1 - x0 + 1 := by omega
  have hA : (0 : Int) ≤ x0 + x1 := by omega
  have hNq : ((x1 : ℚ) - x0 + 1) ≠ 0 := by
    have : (x1 - x0 + 1 : Int) ≠ 0 := by omega
    have h : ((x1 - x0 + 1 : Int) : ℚ) ≠ 0 := by exact_mod_cast this
    push_cast at h
    exact h
  -- the bounds of the rectangle carry over to every row count `j ≤ K + 1`
  have kN : ∀ j : Int, 0 ≤ j → j ≤ (K : Int) + 1 →
      0 ≤ j * (x1 - x0 + 1) ∧ j * (x1 - x0 + 1) ≤ ((K : Int) + 1) * (x1 - x0 + 1) := by
    intro j hj0 hj
    exact ⟨mul_nonneg hj0 (by omega), mul_le_mul_of_nonneg_right hj (by omega)⟩
  have bA : ∀ j : Int, 0 ≤ j → j ≤ (K : Int) + 1 →
      |(x0 + x1) * (j * (x1 - x0 + 1))| < 2 ^ 53 := by
    intro j hj0 hj
    obtain ⟨p1, p2⟩ := kN j hj0 hj
    exact abs_lt_of_nonneg _ (mul_nonneg hA p1)
      (lt_of_le_of_lt (mul_le_mul_of_nonneg_left p2 hA) hd1)
  have bY : ∀ j c : Int, 0 ≤ j → j ≤ (K : Int) + 1 → 0 ≤ c → c ≤ y0 + (y0 + (K : Int)) →
      |c * (j * (x1 - x0 + 1))| < 2 ^ 53 := by
    intro j c hj0 hj hc0 hc
    obtain ⟨p1, p2⟩ := kN j hj0 hj
    exact abs_lt_of_nonneg _ (mul_nonneg hc0 p1)
      (lt_of_le_of_lt (mul_le_mul hc p2 p1 (by omega)) hd2)
  have one_le : (1 : Int) ≤ ((K : Int) + 1) * (x1 - x0 + 1) := by
    have := (kN 1 (by omega) (by omega)).2
    omega
  have bA1 : |x0 + x1| < 2 ^ 53 := by
    have h := bA 1 (by omega) (by omega)
    rw [one_mul] at h
    have h2 : x0 + x1 ≤ (x0 + x1) * (x1 - x0 + 1) := by
      nlinarith [mul_nonneg hA (show (0 : Int) ≤ x1 - x0 by omega)]
    rw [abs_of_nonneg (mul_nonneg hA (by omega))] at h
    rw [abs_of_nonneg hA]
    omega
  have bY1 : ∀ c : Int, 0 ≤ c → c ≤ y0 + (y0 + (K : Int)) → |c| < 2 ^ 53 := by
    intro c hc0 hc
    have h := bY 1 c (by omega) (by omega) hc0 hc
    rw [one_mul] at h
    have h2 : c ≤ c * (x1 - x0 + 1) := by
      nlinarith [mul_nonneg hc0 (show (0 : Int) ≤ x1 - x0 by omega)]
    rw [abs_of_nonneg (mul_nonneg hc0 (by omega))] at h
    rw [abs_of_nonneg hc0]
    omega
  have yN : ∀ y : Int, 0 ≤ y → y ≤ y0 + (K : Int) → y * (x1 - x0 + 1) < 2 ^ 31 := by
    intro y _ hy
    norm_num
    exact lt_of_le_of_lt (mul_le_mul_of_nonneg_right hy (by omega)) hi2
  induction k with
  | zero =>
    have e : rows_from y0 (0 + 1) = [y0] := by simp [rows_from, List.range_succ]
    rw [e]
    simp only [update_rows, List.foldl_cons, List.foldl_nil]
    obtain ⟨b1, b2, b3, b4⟩ := blob_update_bbox (blank b0) x0 x1 y0
    have hsz : (blank b0).size = 0 := rfl
    obtain ⟨r1, r2, r3⟩ := blob_update_in_range (blank b0) x0 x1 y0 (by rw [hsz]) hx0 hx hy0
      (by norm_num; exact hi1) (yN y0 hy0 (by omega))
      (by rw [hsz]; norm_num; have := (kN 1 (by omega) (by omega)).2; omega)
    have hcx : (blank b0).center_x = 0 := rfl
    have hcy : (blank b0).center_y = 0 := rfl
    refine ⟨?_, ?_, ?_, ?_, ?_, ?_, ?_⟩
    · rw [r1, hsz]; push_cast; ring
    · rw [r2, hsz, hcx]
      exact (mean_step_exact _ _ _ 0 ((x0 + x1) * (1 * (x1 - x0 + 1))) (x0 + x1)
        (by push_cast; ring) (by push_cast; ring) (by push_cast; field_simp; ring)
        (by norm_num) (bA 1 (by omega) (by omega)) bA1).trans (by push_cast; ring)
    · rw [r3, hsz, hcy]
      exact (mean_step_exact _ _ _ 0 ((y0 + y0) * (1 * (x1 - x0 + 1))) (y0 + y0)
        (by push_cast; ring) (by push_cast; ring) (by push_cast; field_simp; ring)
        (by norm_num) (bY 1 (y0 + y0) (by omega) (by omega) (by omega) (by omega))
        (bY1 (y0 + y0) (by omega) (by omega))).trans (by push_cast; ring)
    · rw [b1]; simp [blank]
    · rw [b3]; simp [blank]
    · rw [b2]; simp only [blank]
      rw [if_pos (by omega)]
    · rw [b4]; simp only [blank]
      rw [if_pos (by omega)]; simp
  | succ k ih =>
    rw [rows_from_succ y0 (k + 1)]
    have hfold : update_rows (blank b0) x0 x1 (rows_from y0 (k + 1) ++ [y0 + ((k + 1 : Nat) : Int)])
        = blob_update (update_rows (blank b0) x0 x1 (rows_from y0 (k + 1))) x0 x1
            (y0 + ((k + 1 : Nat) : Int)) := by
      simp [update_rows, List.foldl_append]
    rw [hfold]
    have ih2 := ih (by omega)
    generalize update_rows (blank b0) x0 x1 (rows_from y0 (k + 1)) = b at ih2 ⊢
    obtain ⟨i1, i2, i3, i4, i5, i6, i7⟩ := ih2
    obtain ⟨b1, b2, b3, b4⟩ := blob_update_bbox b x0 x1 (y0 + ((k + 1 : Nat) : Int))
    have hkK : ((k : Int) + 1 + 1) ≤ (K : Int) + 1 := by omega
    obtain ⟨r1, r2, r3⟩ := blob_update_in_range b x0 x1 (y0 + ((k + 1 : Nat) : Int))
      (by rw [i1]; exact (kN _ (by omega) (by omega)).1) hx0 hx (by omega)
      (by norm_num; exact hi1) (yN _ (by omega) (by push_cast; omega))
      (by
        rw [i1]; norm_num
        have := (kN ((k : Int) + 1 + 1) (by omega) hkK).2
        have e : ((k : Int) + 1) * (x1 - x0 + 1) + (x1 - x0 + 1)
            = ((k : Int) + 1 + 1) * (x1 - x0 + 1) := by ring
        omega)
    have hk : ((k : ℚ) + 1 + 1) ≠ 0 := by positivity
    have hden : (((k : ℚ) + 1) * ((x1 : ℚ) - x0 + 1) + ((x1 : ℚ) - x0 + 1)) ≠ 0 := by
      have : ((k : ℚ) + 1) * ((x1 : ℚ) - x0 + 1) + ((x1 : ℚ) - x0 + 1)
          = ((k : ℚ) + 1 + 1) * ((x1 : ℚ) - x0 + 1) := by ring
      rw [this]; exact mul_ne_zero hk hNq
    refine ⟨?_, ?_, ?_, ?_, ?_, ?_, ?_⟩
    · rw [r1, i1]; push_cast; ring
    · rw [r2, i1, i2]
      exact (mean_step_exact _ _ _ ((x0 + x1) * (((k : Int) + 1) * (x1 - x0 + 1)))
        ((x0 + x1) * (((k : Int) + 1 + 1) * (x1 - x0 + 1))) (x0 + x1)
        (by push_cast; ring) (by push_cast; ring) (by push_cast; field_simp; ring)
        (bA _ (by omega) (by omega)) (bA _ (by omega) hkK) bA1).trans (by push_cast; ring)
    · rw [r3, i1, i3]
      exact (mean_step_exact _ _ _ ((y0 + (y0 + (k : Int))) * (((k : Int) + 1) * (x1 - x0 + 1)))
        ((y0 + (y0 + (k : Int) + 1)) * (((k : Int) + 1 + 1) * (x1 - x0 + 1)))
        (y0 + (y0 + (k : Int) + 1))
        (by push_cast; ring) (by push_cast; ring) (by push_cast; field_simp; ring)
        (bY _ _ (by omega) (by omega) (by omega) (by omega))
        (bY _ _ (by omega) hkK (by omega) (by omega))
        (bY1 _ (by omega) (by omega))).trans (by push_cast; ring)
    · rw [b1, i4, if_neg (by omega)]
    · rw [b3, i5, if_neg (by omega)]
    · rw [b2, i6, if_neg (by omega)]
    · rw [b4, i7, if_pos (by omega)]

/-- Above `2 ^ 53` the centroid update rounds: a record of 67108865 pixels with
`center_x = 715827883` that receives one more pixel of column 715827883 gets
`center_x = 715827883 - 2 ^ -23`, although no `int` expression of the update leaves 32 bits. -/
theorem column_next_row (b : blob) (hs : b.size = 67108865) (hc : b.center_x = 715827883) :
    (blob_update b 715827883 715827883 67108865).center_x = 6004799505956863 / 8388608 := by
  obtain ⟨_, f2, _⟩ := blob_update_fields b 715827883 715827883 67108865
  have w1 : wrap32 (wrap32 (1 + 715827883) - 715827883) = 1 := by decide
  have w2 : wrap32 (wrap32 (715827883 + 715827883) * 1) = 1431655766 := by decide
  have w3 : wrap32 ((67108865 : Int) + 1) = 67108866 := by decide
  have d1 : (1431655766 : Int).tdiv 2 = 715827883 := by decide
  have c0 : (715827883 : ℚ) * ((67108865 : Int) : ℚ) = 48038396763482795 := by norm_num
  have t1 : to_double 48038396763482795 = 48038396763482792 := by
    rw [to_double_eval 48038396763482795 55 6004799595435349 (by norm_num) (by norm_num)
      (by norm_num) (by norm_num [abs_lt])]
    norm_num
  have t2 : to_double (48038396763482792 + ((715827883 : Int) : ℚ)) = 48038397479310672 := by
    rw [to_double_eval (48038396763482792 + ((715827883 : Int) : ℚ)) 55 6004799684913834
      (by norm_num) (by norm_num) (by norm_num) (by norm_num [abs_lt])]
    norm_num
  have t3 : to_double (48038397479310672 / ((67108866 : Int) : ℚ)) = 6004799505956863 / 8388608 := by
    rw [to_double_eval (48038397479310672 / ((67108866 : Int) : ℚ)) 29 6004799505956863
      (by norm_num) (by norm_num) (by norm_num) (by norm_num [abs_lt])]
    norm_num
  rw [f2, hs, hc, w1, w2, w3, d1, c0, t1, t2, t3]

/-- The rows `0..67108865` are the rows `0..67108864` followed by the row 67108865. -/
theorem rows_from_big : rows_from 0 67108866 = rows_from 0 67108865 ++ [67108865] := by
  have h := rows_from_succ 0 67108865
  have e1 : (67108865 + 1 : Nat) = 67108866 := by norm_num
  have e2 : ((67108865 : Nat) : Int) = 67108865 := by norm_num
  rw [zero_add, e1, e2] at h
  exact h

/-- One more row after the rows of a list. -/
theorem update_rows_snoc (b : blob) (x0 x1 : Int) (ys : List Int) (y : Int) :
    update_rows b x0 x1 (ys ++ [y]) = blob_update (update_rows b x0 x1 ys) x0 x1 y := by
  simp only [update_rows, List.foldl_append, List.foldl_cons, List.foldl_nil]

/-- C17, refuted as stated.  (1) For the one-row rectangle with the columns `0..65535` of row 0
(inside `0 ≤ x0 ≤ x1`, `0 ≤ y0 ≤ y1`) the `int` product `(x0 + x1) * (x1 - x0 + 1)` leaves 32
bits and the update of a blank record stores `center_x = -1/2`, not `(x0 + x1) / 2`.
(2) For the one-pixel column `x0 = x1 = 715827883` (no `int` expression overflows) the claim
cannot hold both for the rows `0..67108864` and for the rows `0..67108865`: if the first
67108865 rows give `size = 67108865` and `center_x = 715827883`, the next row rounds and gives
`center_x = 715827883 - 2 ^ -23`. -/
theorem blob_update_rectangle_counterexample :
    ((0 : Int) ≤ 0 ∧ (0 : Int) ≤ 65535 ∧
      (update_rows (blank junk) 0 65535 (rows_from 0 ((0 : Int) - 0 + 1).toNat)).center_x
        = -1 / 2 ∧
      (update_rows (blank junk) 0 65535 (rows_from 0 ((0 : Int) - 0 + 1).toNat)).center_x
        ≠ (((0 : Int) : ℚ) + ((65535 : Int) : ℚ)) / 2) ∧
    ¬ ((update_rows (blank junk) 715827883 715827883 (rows_from 0 67108865)).size = 67108865 ∧
      (update_rows (blank junk) 715827883 715827883 (rows_from 0 67108865)).center_x
        = (((715827883 : Int) : ℚ) + ((715827883 : Int) : ℚ)) / 2 ∧
      (update_rows (blank junk) 715827883 715827883 (rows_from 0 67108866)).center_x
        = (((715827883 : Int) : ℚ) + ((715827883 : Int) : ℚ)) / 2) := by
  have e : update_rows (blank junk) 0 65535 (rows_from 0 ((0 : Int) - 0 + 1).toNat)
      = blob_update (blank junk) 0 65535 0 := by
    simp [update_rows, rows_from, List.range_succ]
  refine ⟨⟨by decide, by decide, ?_, ?_⟩, ?_⟩
  · rw [e, blob_update_overflow_value]
  · rw [e, blob_update_overflow_value]; norm_num
  · rw [rows_from_big]
    generalize rows_from 0 67108865 = ys
    rintro ⟨h1, h2, h3⟩
    have h4 : (update_rows (blank junk) 715827883 715827883 ys).center_x = 715827883 := by
      rw [h2]; norm_num
    rw [update_rows_snoc, column_next_row _ h1 h4] at h3
    norm_num at h3

/-- C17, amended: for `0 ≤ x0 ≤ x1` and `0 ≤ y0 ≤ y1`, with `n = x1 - x0 + 1` columns and
`rows = y1 - y0 + 1` rows, such that the `int` values `(x0 + x1) * n`, `y1 * n` and
`rows * n` stay below `2 ^ 31` and the weighted sums `(x0 + x1) * rows * n` and
`(y0 + y1) * rows * n` below `2 ^ 53` (so that no `double` operation rounds): starting from a
blank record and calling `blob_update(b, x0, x1, y)` once for each row `y = y0, ..., y1`
gives `size = rows * n`, the bounding box `(x0, y0, x1, y1)` and exactly the centre
`((x0 + x1) / 2, (y0 + y1) / 2)`; the rows listed are those from `y0` to `y1`. -/
theorem blob_update_rectangle (b0 : blob) (x0 x1 y0 y1 : Int)
    (hx0 : 0 ≤ x0) (hx : x0 ≤ x1) (hy0 : 0 ≤ y0) (hy : y0 ≤ y1)
    (hi1 : (x0 + x1) * (x1 - x0 + 1) < 2 ^ 31)
    (hi2 : y1 * (x1 - x0 + 1) < 2 ^ 31)
    (hi3 : (y1 - y0 + 1) * (x1 - x0 + 1) < 2 ^ 31)
    (hd1 : (x0 + x1) * ((y1 - y0 + 1) * (x1 - x0 + 1)) < 2 ^ 53)
    (hd2 : (y0 + y1) * ((y1 - y0 + 1) * (x1 - x0 + 1)) < 2 ^ 53) :
    (∀ y, y ∈ rows_from y0 (y1 - y0 + 1).toNat ↔ y0 ≤ y ∧ y ≤ y1) ∧
    (update_rows (blank b0) x0 x1 (rows_from y0 (y1 - y0 + 1).toNat)).size
        = (y1 - y0 + 1) * (x1 - x0 + 1) ∧
    (update_rows (blank b0) x0 x1 (rows_from y0 (y1 - y0 + 1).toNat)).bb_x1 = x0 ∧
    (update_rows (blank b0) x0 x1 (rows_from y0 (y1 - y0 + 1).toNat)).bb_y1 = y0 ∧
    (update_rows (blank b0) x0 x1 (rows_from y0 (y1 - y0 + 1).toNat)).bb_x2 = x1 ∧
    (update_rows (blank b0) x0 x1 (rows_from y0 (y1 - y0 + 1).toNat)).bb_y2 = y1 ∧
    (update_rows (blank b0) x0 x1 (rows_from y0 (y1 - y0 + 1).toNat)).center_x
        = ((x0 : ℚ) + x1) / 2 ∧
    (update_rows (blank b0) x0 x1 (rows_from y0 (y1 - y0 + 1).toNat)).center_y
        = ((y0 : ℚ) + y1) / 2 := by
  obtain ⟨k, hk⟩ : ∃ k : Nat, (y1 - y0 + 1).toNat = k + 1 :=
    ⟨(y1 - y0).toNat, by omega⟩
  have hk2 : (k : Int) = y1 - y0 := by omega
  have e1 : y0 + (k : Int) = y1 := by omega
  have e2 : (k : Int) + 1 = y1 - y0 + 1 := by omega
  rw [hk]
  obtain ⟨r1, r2, r3, r4, r5, r6, r7⟩ := update_rows_rect b0 x0 x1 y0 k hx0 hx hy0 hi1
    (by rw [e1]; exact hi2) (by rw [e2]; exact hi3) (by rw [e2]; exact hd1)
    (by rw [e1, e2]; exact hd2) k le_rfl
  refine ⟨?_, ?_, r4, r5, r6, ?_, r2, ?_⟩
  · intro y
    simp only [rows_from, List.mem_map, List.mem_range]
    constructor
    · rintro ⟨i, hi, rfl⟩; omega
    · intro h
      exact ⟨(y - y0).toNat, by omega, by omega⟩
  · rw [r1, hk2]
  · rw [r7, hk2]; ring
  · rw [r3]
    have : (k : ℚ) = (y1 : ℚ) - y0 := by exact_mod_cast hk2
    rw [this]; ring

/-- C17 (amended) for the square with columns 1 to 2 and rows 1 to 2. -/
theorem blob_update_rectangle_witness :
    (∀ y, y ∈ rows_from 1 ((2 : Int) - 1 + 1).toNat ↔ 1 ≤ y ∧ y ≤ 2) ∧
    (update_rows (blank junk) 1 2 (rows_from 1 ((2 : Int) - 1 + 1).toNat)).size
        = (2 - 1 + 1) * (2 - 1 + 1) ∧
    (update_rows (blank junk) 1 2 (rows_from 1 ((2 : Int) - 1 + 1).toNat)).bb_x1 = 1 ∧
    (update_rows (blank junk) 1 2 (rows_from 1 ((2 : Int) - 1 + 1).toNat)).bb_y1 = 1 ∧
    (update_rows (blank junk) 1 2 (rows_from 1 ((2 : Int) - 1 + 1).toNat)).bb_x2 = 2 ∧
    (update_rows (blank junk) 1 2 (rows_from 1 ((2 : Int) - 1 + 1).toNat)).bb_y2 = 2 ∧
    (update_rows (blank junk) 1 2 (rows_from 1 ((2 : Int) - 1 + 1).toNat)).center_x
        = (((1 : Int) : ℚ) + ((2 : Int) : ℚ)) / 2 ∧
    (update_rows (blank junk) 1 2 (rows_from 1 ((2 : Int) - 1 + 1).toNat)).center_y
        = (((1 : Int) : ℚ) + ((2 : Int) : ℚ)) / 2 :=
  blob_update_rectangle junk 1 2 1 2 (by decide) (by decide) (by decide) (by decide)
    (by decide) (by decide) (by decide) (by decide) (by decide)

/-! ## The function `sib_link`: fields it leaves alone -/

/-- Whatever the store and the two cursors are, a run of the merge loop that returns has
changed no field other than `sib_p` and `sib_n`. -/
theorem sib_merge_fields :
    ∀ (fuel : Nat) (m : Mem) (p1 p2 : Option Nat) (m2 : Mem),
      sib_merge fuel m p1 p2 = some m2 →
      ∀ a, SameData (m2 a) (m a) ∧ (m2 a).prev = (m a).prev ∧ (m2 a).next = (m a).next := by
  intro fuel
  induction fuel with
  | zero =>
    intro m p1 p2 m2 h a
    cases p1 with
    | none =>
      simp only [sib_merge, Option.some.injEq] at h
      subst h; exact ⟨SameData.refl _, rfl, rfl⟩
    | some b1 =>
      cases p2 with
      | none =>
        simp only [sib_merge, Option.some.injEq] at h
        subst h; exact ⟨SameData.refl _, rfl, rfl⟩
      | some b2 => simp [sib_merge] at h
  | succ k ih =>
    intro m p1 p2 m2 h a
    cases p1 with
    | none =>
      simp only [sib_merge, Option.some.injEq] at h
      subst h; exact ⟨SameData.refl _, rfl, rfl⟩
    | some b1 =>
      cases p2 with
      | none =>
        simp only [sib_merge, Option.some.injEq] at h
        subst h; exact ⟨SameData.refl _, rfl, rfl⟩
      | some b2 =>
        have hsplice : ∀ (q : Option Nat) (r : Mem),
            sib_merge k (splice m b1 b2) (some b2) q = some r →
            SameData (r a) (m a) ∧ (r a).prev = (m a).prev ∧ (r a).next = (m a).next := by
          intro q r hr
          obtain ⟨d1, d2, d3⟩ := ih (splice m b1 b2) (some b2) q r hr a
          exact ⟨d1.trans (splice_data m b1 b2 a), d2.trans (splice_prev m b1 b2 a),
            d3.trans (splice_next m b1 b2 a)⟩
        simp only [sib_merge] at h
        by_cases hsw : (m b2).x1 < (m b1).x1
        · rw [if_pos hsw] at h
          exact ih m (some b2) (some b1) m2 h a
        · rw [if_neg hsw] at h
          cases hn : (m b1).sib_n with
          | none =>
            rw [hn] at h
            simp only [Option.some.injEq] at h
            subst h
            exact ⟨splice_data m b1 b2 a, splice_prev m b1 b2 a, splice_next m b1 b2 a⟩
          | some n =>
            rw [hn] at h
            dsimp only at h
            by_cases hadv : (m n).x1 < (m b2).x1
            · rw [if_pos hadv] at h
              exact ih m (some n) (some b2) m2 h a
            · rw [if_neg hadv] at h
              exact hsplice (some n) m2 h

/-- Whatever the store and the two records are, a call of `sib_link` that returns has changed
no field other than `sib_p` and `sib_n`. -/
theorem sib_link_fields (fuel : Nat) (m : Mem) (b1 b2 : Nat) (m2 : Mem)
    (h : sib_link fuel m b1 b2 = some m2) :
    ∀ a, SameData (m2 a) (m a) ∧ (m2 a).prev = (m a).prev ∧ (m2 a).next = (m a).next := by
  intro a
  unfold sib_link at h
  split at h
  · split at h
    · simp only [Option.some.injEq] at h
      subst h; exact ⟨SameData.refl _, rfl, rfl⟩
    · exact sib_merge_fields fuel m _ _ m2 h a
  · exact absurd h (by simp)

/-- C19: a call of `sib_link` that returns has changed no field other than `sib_p` and
`sib_n` of any record (size, color, `x1`, `x2`, `y`, centroid, bounding box, `prev` and `next`
are as before), for every store; and for records `b1`, `b2` in well-formed sorted sibling
chains `lA`, `lB` (the same chain or two different ones) the call returns and every record
outside the two chains is unchanged in all its fields. -/
theorem sib_link_touches_only_sib_links (m : Mem) (lA lB : List Nat) (b1 b2 : Nat)
    (hA : IsSibChain m lA) (hB : IsSibChain m lB) (sA : SortedX1 m lA) (sB : SortedX1 m lB)
    (h1 : b1 ∈ lA) (h2 : b2 ∈ lB) (fuel : Nat) (hf : lA.length + lB.length ≤ fuel) :
    (∀ (f : Nat) (st : Mem) (c1 c2 : Nat) (r : Mem), sib_link f st c1 c2 = some r →
      ∀ a, SameData (r a) (st a) ∧ (r a).prev = (st a).prev ∧ (r a).next = (st a).next) ∧
    ∃ m2 : Mem,
      sib_link fuel m b1 b2 = some m2 ∧
      (∀ a, SameData (m2 a) (m a) ∧ (m2 a).prev = (m a).prev ∧ (m2 a).next = (m a).next) ∧
      (∀ a, a ∉ lA → a ∉ lB → m2 a = m a) ∧
      (∀ a, a ∉ lA → a ∉ lB →
        (m2 a).sib_p = (m a).sib_p ∧ (m2 a).sib_n = (m a).sib_n) := by
  refine ⟨fun f st c1 c2 r h => sib_link_fields f st c1 c2 r h, ?_⟩
  by_cases hAB : lA = lB
  · subst hAB
    have e1 := sib_head_of_mem m lA b1 hA h1 fuel (by omega)
    have e2 := sib_head_of_mem m lA b2 hA h2 fuel (by omega)
    have hs : sib_link fuel m b1 b2 = some m := by
      cases lA with
      | nil => simp at h1
      | cons c t =>
        simp only [List.head?_cons] at e1 e2
        simp [sib_link, e1, e2]
    exact ⟨m, hs, fun a => ⟨SameData.refl _, rfl, rfl⟩, fun _ _ _ => rfl,
      fun _ _ _ => ⟨rfl, rfl⟩⟩
  · obtain ⟨m2, L, r1, _, _, _, r5, r6⟩ :=
      sib_link_spec m lA lB b1 b2 hA hB h1 h2 hAB sA sB fuel hf
    have hout : ∀ a, a ∉ lA → a ∉ lB → m2 a = m a := by
      intro a ha hb
      apply r6 a
      intro hmem
      rcases List.mem_append.1 hmem with h | h
      · exact ha h
      · exact hb h
    refine ⟨m2, r1, r5, hout, ?_⟩
    intro a ha hb
    rw [hout a ha hb]
    exact ⟨rfl, rfl⟩

/-- C19 at the store `mem5`: record 3 of the chain `1, 3` and record 4 of the chain
`2, 4`. -/
theorem sib_link_touches_only_sib_links_witness :
    (∀ (f : Nat) (st : Mem) (c1 c2 : Nat) (r : Mem), sib_link f st c1 c2 = some r →
      ∀ a, SameData (r a) (st a) ∧ (r a).prev = (st a).prev ∧ (r a).next = (st a).next) ∧
    ∃ m2 : Mem,
      sib_link 4 mem5 3 4 = some m2 ∧
      (∀ a, SameData (m2 a) (mem5 a) ∧ (m2 a).prev = (mem5 a).prev ∧
        (m2 a).next = (mem5 a).next) ∧
      (∀ a, a ∉ [1, 3] → a ∉ [2, 4] → m2 a = mem5 a) ∧
      (∀ a, a ∉ [1, 3] → a ∉ [2, 4] →
        (m2 a).sib_p = (mem5 a).sib_p ∧ (m2 a).sib_n = (mem5 a).sib_n) :=
  sib_link_touches_only_sib_links mem5 [1, 3] [2, 4] 3 4 mem5_sib13 mem5_sib24
    mem5_sorted13 mem5_sorted24 (by decide) (by decide) 4 (by decide)

/-! ## Segment scanner: the runs of a row -/

/-- One call of `scan_segment` inside the row, with the stream written out field by field. -/
theorem scan_segment_run (row : List Nat) (w h y x : Int) (b : blob)
    (hlen : (row.length : Int) = w) (hx0 : 0 ≤ x) (hxw : x < w) :
    ∃ (x2 c : Int),
      scan_segment { w := w, h := h, x := x, y := y, wrap := false, row := row } b
        = some (0, { w := w, h := h, x := x2, y := y, wrap := false, row := row },
            { b with x1 := x, color := c, x2 := x2 - 1 }) ∧
      row_at row x = some c ∧ x < x2 ∧ x2 ≤ w ∧
      (∀ i, x ≤ i → i < x2 → row_at row i = some c) ∧
      (x2 = w ∨ row_at row x2 ≠ some c) := by
  have hin : x.toNat < row.length := by omega
  have hrow : row_at row x = some (Int.ofNat (row.get ⟨x.toNat, hin⟩)) := by
    simp [row_at, hx0, List.getElem?_eq_getElem hin]
  generalize Int.ofNat (row.get ⟨x.toNat, hin⟩) = c at hrow
  obtain ⟨k, hk⟩ : ∃ k, (w - x).toNat = k + 1 := ⟨(w - x).toNat - 1, by omega⟩
  obtain ⟨x2, h1, h2, h3, h4, h5⟩ :=
    scan_loop_spec row w c hlen k (x + 1) (by omega) (by omega) (by omega)
  refine ⟨x2, c, ?_, hrow, by omega, h3, ?_, h5⟩
  · simp only [scan_segment, hrow, hk, scan_loop, if_pos hxw, h1]
    simp
  · intro i hi1 hi2
    by_cases hix : i = x
    · rw [hix, hrow]
    · exact h4 i (by omega) hi2

/-- The runs produced from column `x` on: they start at `x`, follow one another without gap
and with a change of color, end at column `w - 1`, each is a run of the row, and their lengths
add up to `w - x`; there are at most `w - x` of them. -/
theorem scan_runs_spec (row : List Nat) (w h y : Int) (hlen : (row.length : Int) = w) :
    ∀ (fuel : Nat) (x : Int) (b : blob), 0 ≤ x → x ≤ w → (w - x).toNat ≤ fuel →
      ∃ runs : List blob,
        scan_runs fuel { w := w, h := h, x := x, y := y, wrap := false, row := row } b
          = some runs ∧
        (x = w → runs = []) ∧
        (x < w → ∃ r rest, runs = r :: rest ∧ r.x1 = x ∧ row_at row x = some r.color) ∧
        runs.Chain' NextRun ∧
        (∀ r ∈ runs.getLast?, r.x2 = w - 1) ∧
        (∀ r ∈ runs, RunOf row r) ∧
        (runs.map (fun r => r.x2 - r.x1 + 1)).sum = w - x ∧
        (runs.length : Int) ≤ w - x := by
  intro fuel
  induction fuel with
  | zero =>
    intro x b _ hxw hf
    have hx : x = w := by omega
    subst hx
    refine ⟨[], by simp [scan_runs], fun _ => rfl, fun h => absurd h (lt_irrefl _),
      List.chain'_nil, by simp, by simp, by simp, by simp⟩
  | succ k ih =>
    intro x b hx0 hxw hf
    by_cases hlt : x < w
    · obtain ⟨x2, c, e1, e2, e3, e4, e5, e6⟩ := scan_segment_run row w h y x b hlen hx0 hlt
      obtain ⟨runs, r1, r2, r3, r4, r5, r6, r7, r8⟩ :=
        ih x2 { b with x1 := x, color := c, x2 := x2 - 1 } (by omega) e4 (by omega)
      refine ⟨{ b with x1 := x, color := c, x2 := x2 - 1 } :: runs, ?_, ?_, ?_, ?_, ?_, ?_,
        ?_, ?_⟩
      · simp only [scan_runs, if_pos hlt, e1, ne_eq, not_true_eq_false, if_false, r1,
          Option.map_some']
      · intro hx; omega
      · intro _
        exact ⟨_, runs, rfl, rfl, e2⟩
      · by_cases hx2 : x2 = w
        · rw [r2 hx2]; exact List.chain'_singleton _
        · obtain ⟨s, rest, hs, hs1, hs2⟩ := r3 (by omega)
          rw [hs] at r4 ⊢
          refine List.chain'_cons.2 ⟨⟨?_, ?_⟩, r4⟩
          · simp only [hs1]; ring
          · intro hc
            rcases e6 with h6 | h6
            · exact hx2 h6
            · apply h6
              rw [hs2]
              simp only at hc
              rw [hc]
      · intro r hr
        by_cases hx2 : x2 = w
        · rw [r2 hx2] at hr
          simp only [List.getLast?_singleton, Option.mem_def, Option.some.injEq] at hr
          subst hr
          simp only
          omega
        · obtain ⟨s, rest, hs, _, _⟩ := r3 (by omega)
          rw [hs, List.getLast?_cons_cons] at hr
          apply r5 r
          rw [hs]; exact hr
      · intro r hr
        rcases List.mem_cons.1 hr with h | h
        · subst h
          refine ⟨by simp only; omega, ?_⟩
          intro i hi1 hi2
          simp only at hi1 hi2 ⊢
          exact e5 i hi1 (by omega)
        · exact r6 r h
      · simp only [List.map_cons, List.sum_cons, r7]
        ring
      · simp only [List.length_cons]
        push_cast
        omega
    · have hx : x = w := by omega
      subst hx
      refine ⟨[], by simp [scan_runs], fun _ => rfl, fun h => absurd h (lt_irrefl _),
        List.chain'_nil, by simp, by simp, by simp, by simp⟩

/-- C18: for a row buffer of length `w ≥ 1`, calling `scan_segment` again and again from
`x = 0` for as long as `x < w` ends after at most `w` calls, and the runs produced are such
that the first has `x1 = 0`, each next run has `x1 = x2 + 1` of the run before and another
color, the last has `x2 = w - 1`, every run is not empty and all its pixels have its color,
and the run lengths add up to `w`. -/
theorem scan_runs_partition (stream : stream_state) (b : blob)
    (hw : 1 ≤ stream.w) (hlen : (stream.row.length : Int) = stream.w)
    (hx : stream.x = 0) (hwrap : stream.wrap = false) :
    ∃ runs : List blob,
      scan_runs stream.w.toNat stream b = some runs ∧
      (runs.length : Int) ≤ stream.w ∧
      (∃ r rest, runs = r :: rest ∧ r.x1 = 0) ∧
      runs.Chain' NextRun ∧
      (∀ r ∈ runs.getLast?, r.x2 = stream.w - 1) ∧
      (∀ r ∈ runs, RunOf stream.row r) ∧
      (runs.map (fun r => r.x2 - r.x1 + 1)).sum = stream.w := by
  obtain ⟨w, h, x, y, wrap, row⟩ := stream
  simp only at hw hlen hx hwrap
  subst hx hwrap
  obtain ⟨runs, r1, _, r3, r4, r5, r6, r7, r8⟩ :=
    scan_runs_spec row w h y hlen w.toNat 0 b (le_refl _) (by omega) (by simp)
  obtain ⟨r, rest, hr, hr1, _⟩ := r3 (by omega)
  exact ⟨runs, r1, by simpa using r8, ⟨r, rest, hr, hr1⟩, r4, r5, r6, by simpa using r7⟩

/-- C18 at the three-pixel row `7 7 9`. -/
theorem scan_runs_partition_witness :
    ∃ runs : List blob,
      scan_runs stream3.w.toNat stream3 junk = some runs ∧
      (runs.length : Int) ≤ stream3.w ∧
      (∃ r rest, runs = r :: rest ∧ r.x1 = 0) ∧
      runs.Chain' NextRun ∧
      (∀ r ∈ runs.getLast?, r.x2 = stream3.w - 1) ∧
      (∀ r ∈ runs, RunOf stream3.row r) ∧
      (runs.map (fun r => r.x2 - r.x1 + 1)).sum = stream3.w :=
  scan_runs_partition stream3 junk (by decide) (by decide) (by decide) (by decide)

/-! ## Frame driver: the row loop -/

/-- A row entered with the scan start `blob_prev = NULL` and `wrap` not set never completes:
whatever the functions missing from the sources do, the run ends in a failing helper, a read
outside the row buffer, or the call `blob_insert(NULL, blob_now)`. -/
theorem row_loop_null_start {U : Type} (H : helpers U) :
    ∀ (fuel : Nat) (stream : stream_state) (blist : blob_list), stream.wrap = false →
      row_loop H fuel stream blist none = none := by
  intro fuel
  induction fuel with
  | zero =>
    intro stream blist hw
    simp [row_loop, hw]
  | succ k ih =>
    intro stream blist hw
    unfold row_loop
    simp only [hw, Bool.false_eq_true, if_false]
    split
    · rfl
    · rfl
    · rename_i bl2 bn _
      split
      · rfl
      · rename_i r s2 b2 hs
        have hw2 : s2.wrap = false := by
          rw [scan_segment_wrap_unchanged stream (bl2.head bn) r s2 b2 hs]; exact hw
        split
        · split
          · rfl
          · exact ih s2 _ hw2
        · split
          · rfl
          · simp only [blob_insert]

/-- On a row of width 0 the first call of `scan_segment` reads `row[0]` outside the empty
buffer. -/
theorem scan_segment_zero_width (h y : Int) (b : blob) :
    scan_segment (stream0 h y) b = none := by
  simp [scan_segment, stream0, row_at]

/-- C13, evaluated on the code: for a stream of width 0 with an empty row buffer, right after
`next_row` (`x = 0`, `wrap = false`), the read `stream->row[0]` is outside the buffer, so
`scan_segment` does not return normally, and neither does the row loop of `extract_image`,
whatever the pool, the scan start and the functions missing from the sources are. -/
theorem zero_width_row_reads_outside (U : Type) (H : helpers U) (fuel : Nat) (h y : Int)
    (blist : blob_list) (blob_prev : Option Nat) (b : blob) :
    (stream0 h y).wrap = false ∧ (stream0 h y).x = 0 ∧ (stream0 h y).w = 0 ∧
    row_at (stream0 h y).row (stream0 h y).x = none ∧
    scan_segment (stream0 h y) b = none ∧
    row_loop H fuel (stream0 h y) blist blob_prev = none := by
  refine ⟨rfl, rfl, rfl, by simp [stream0, row_at], scan_segment_zero_width h y b, ?_⟩
  cases fuel with
  | zero => simp [row_loop, stream0]
  | succ k =>
    unfold row_loop
    have hw : (stream0 h y).wrap = false := rfl
    simp only [hw, Bool.false_eq_true, if_false]
    split
    · rfl
    · rfl
    · rw [scan_segment_zero_width]

/-- C12, evaluated on the code: on the single 5x5 frame with the red 2x2 square,
`extract_image` does not return and so reports nothing, whatever the functions missing from
the sources do, whatever the fresh pool holds and however much fuel the loops get: in the
first row the scan start `blob_prev = blist.head->next` is `NULL` and the first run cannot be
inserted. -/
theorem extract_image_5x5_fails (H : helpers still_user) (fuel : Nat) (raw : blob_list) :
    extract_image H still_hooks fuel raw image5 = none := by
  have hinit : init_pixel_stream still_hooks image5 = (0, image5,
      { w := 5, h := 5, x := 0, y := -1, wrap := false, row := List.replicate 5 0 }) := by
    simp [init_pixel_stream, still_hooks, image5, zero_stream]
  have hframes : ∀ (stream : stream_state) (blist : blob_list),
      stream.h = 5 → 0 < blist.length →
      frames_loop H still_hooks fuel image5 stream blist = none := by
    intro stream blist hh hlen
    cases fuel with
    | zero => rfl
    | succ k =>
      have hnf : next_frame still_hooks.next_frame_hook image5 stream
          = (0, { image5 with frame := 1 }, { stream with wrap := false, x := 0, y := -1 }) := by
        simp [next_frame, still_hooks, image5]
      have hrows : rows_loop H still_hooks k { image5 with frame := 1 }
          { stream with wrap := false, x := 0, y := -1 } (init_blobs blist) = none := by
        cases k with
        | zero => rfl
        | succ j =>
          have hnr : next_row still_hooks.next_row_hook { image5 with frame := 1 }
              { stream with wrap := false, x := 0, y := -1 }
              = (0, { image5 with frame := 1 },
                  { stream with wrap := false, x := 0, y := 0, row := [0, 0, 0, 0, 0] }) := by
            simp [next_row, still_hooks, image5, hh]
          have hprev : ((init_blobs blist).head 0).next = none := by
            simp [init_blobs_eq, hlen, blank]
          unfold rows_loop
          rw [hnr]
          simp only [ne_eq, not_true_eq_false, if_false, hprev]
          rw [row_loop_null_start H j _ _ rfl]
      unfold frames_loop
      rw [hnf]
      simp only [ne_eq, not_true_eq_false, if_false, hrows]
  unfold extract_image
  rw [hinit]
  simp only [ne_eq, not_true_eq_false, if_false]
  rw [hframes _ _ rfl (by simp)]

/-! ## Bounding box: order of the updates -/

/-- C22: for any two boxes with non-negative coordinates, `bbox_update` with the first box and
then the second gives the same record as with the second and then the first, and `bbox_update`
with the same box twice gives the same record as once.  This holds for every record, so in
particular for one whose bounding box is unset (all `-1`) or set (all fields `≥ 0`). -/
theorem bbox_update_comm_idem (b : blob) (x1 x2 y1 y2 u1 u2 v1 v2 : Int)
    (hx1 : 0 ≤ x1) (_hx2 : 0 ≤ x2) (hy1 : 0 ≤ y1) (_hy2 : 0 ≤ y2)
    (hu1 : 0 ≤ u1) (_hu2 : 0 ≤ u2) (hv1 : 0 ≤ v1) (_hv2 : 0 ≤ v2) :
    bbox_update (bbox_update b x1 x2 y1 y2) u1 u2 v1 v2
      = bbox_update (bbox_update b u1 u2 v1 v2) x1 x2 y1 y2 ∧
    bbox_update (bbox_update b x1 x2 y1 y2) x1 x2 y1 y2 = bbox_update b x1 x2 y1 y2 := by
  have hmin : ∀ (c p q : Int), 0 ≤ p → 0 ≤ q →
      (if (if c < 0 ∨ p < c then p else c) < 0 ∨ q < (if c < 0 ∨ p < c then p else c)
        then q else (if c < 0 ∨ p < c then p else c))
      = (if (if c < 0 ∨ q < c then q else c) < 0 ∨ p < (if c < 0 ∨ q < c then q else c)
        then p else (if c < 0 ∨ q < c then q else c)) := by
    intro c p q hp hq
    split_ifs <;> omega
  have hmax : ∀ (c p q : Int),
      (if q > (if p > c then p else c) then q else (if p > c then p else c))
      = (if p > (if q > c then q else c) then p else (if q > c then q else c)) := by
    intro c p q
    split_ifs <;> omega
  have hmin1 : ∀ (c p : Int), 0 ≤ p →
      (if (if c < 0 ∨ p < c then p else c) < 0 ∨ p < (if c < 0 ∨ p < c then p else c)
        then p else (if c < 0 ∨ p < c then p else c))
      = (if c < 0 ∨ p < c then p else c) := by
    intro c p hp
    split_ifs <;> omega
  have hmax1 : ∀ (c p : Int),
      (if p > (if p > c then p else c) then p else (if p > c then p else c))
      = (if p > c then p else c) := by
    intro c p
    split_ifs <;> omega
  constructor
  · rw [bbox_update_eq (bbox_update b x1 x2 y1 y2), bbox_update_eq (bbox_update b u1 u2 v1 v2),
      bbox_update_eq b x1 x2 y1 y2, bbox_update_eq b u1 u2 v1 v2]
    simp only [blob.mk.injEq, true_and]
    exact ⟨hmin _ _ _ hx1 hu1, hmin _ _ _ hy1 hv1, hmax _ _ _, hmax _ _ _⟩
  · rw [bbox_update_eq (bbox_update b x1 x2 y1 y2), bbox_update_eq b x1 x2 y1 y2]
    simp only [blob.mk.injEq, true_and]
    exact ⟨hmin1 _ _ hx1, hmin1 _ _ hy1, hmax1 _ _, hmax1 _ _⟩

/-- C22 at the record `junk` (box `(4, 2, 6, 2)`) with the boxes `(1, 2, 3, 3)` and
`(5, 9, 0, 1)`, given as `x1 x2 y1 y2`. -/
theorem bbox_update_comm_idem_witness :
    bbox_update (bbox_update junk 1 2 3 3) 5 9 0 1
      = bbox_update (bbox_update junk 5 9 0 1) 1 2 3 3 ∧
    bbox_update (bbox_update junk 1 2 3 3) 1 2 3 3 = bbox_update junk 1 2 3 3 :=
  bbox_update_comm_idem junk 1 2 3 3 5 9 0 1 (by decide) (by decide) (by decide) (by decide)
    (by decide) (by decide) (by decide) (by decide)

/-! ## Row adapter: the rows of a frame -/

theorem rows_from_cons (y0 : Int) (n : Nat) :
    rows_from y0 (n + 1) = y0 :: rows_from (y0 + 1) n := by
  simp only [rows_from, List.range_succ_eq_map, List.map_cons, List.map_map]
  refine congrArg₂ List.cons (by simp) ?_
  apply List.map_congr_left
  intro k _
  simp only [Function.comp_apply, Nat.succ_eq_add_one]
  push_cast
  ring

/-- The first `n` calls of `next_row` from a stream with `-1 ≤ y ≤ h`, for a hook that returns
0 and leaves `y` and `h` alone: with `k` the smaller of `n` and `h - y`, the first `k` calls
return 0 and invoke the hook with the next `k` row indices, the other calls return 1, and the
stream ends with `y` advanced by `k`. -/
theorem next_rows_spec {U : Type} (hook : U → stream_state → Int × U × stream_state)
    (hgood : ∀ u s, (hook u s).1 = 0 ∧ (hook u s).2.2.y = s.y ∧ (hook u s).2.2.h = s.h) :
    ∀ (n : Nat) (u : U) (log : List Int) (stream : stream_state), stream.y ≤ stream.h →
      (next_rows (logged hook) n (u, log) stream).1
        = List.replicate (min n (stream.h - stream.y).toNat) 0
          ++ List.replicate (n - (stream.h - stream.y).toNat) 1 ∧
      (next_rows (logged hook) n (u, log) stream).2.1.2
        = log ++ rows_from (stream.y + 1) (min n (stream.h - stream.y).toNat) ∧
      (next_rows (logged hook) n (u, log) stream).2.2.y
        = stream.y + ((min n (stream.h - stream.y).toNat : Nat) : Int) ∧
      (next_rows (logged hook) n (u, log) stream).2.2.h = stream.h := by
  intro n
  induction n with
  | zero =>
    intro u log stream _
    simp [next_rows, rows_from]
  | succ n ih =>
    intro u log stream hle
    by_cases hstop : stream.y ≥ stream.h
    · have hk : (stream.h - stream.y).toNat = 0 := by omega
      have hnr : next_row (logged hook) (u, log) stream = (1, (u, log), stream) := by
        simp [next_row, hstop]
      obtain ⟨i1, i2, i3, i4⟩ := ih u log stream hle
      rw [hk] at i1 i2 i3
      simp only [next_rows, hnr, hk]
      refine ⟨?_, ?_, ?_, ?_⟩
      · rw [i1]; simp [List.replicate_succ]
      · rw [i2]; simp
      · rw [i3]; simp
      · exact i4
    · have hlt : stream.y < stream.h := not_le.1 hstop
      obtain ⟨g1, g2, g3⟩ := hgood u { stream with wrap := false, x := 0, y := stream.y + 1 }
      generalize hres : hook u { stream with wrap := false, x := 0, y := stream.y + 1 } = res
        at g1 g2 g3
      obtain ⟨r, u2, s2⟩ := res
      simp only at g1 g2 g3
      subst g1
      have hnr : next_row (logged hook) (u, log) stream
          = (0, (u2, log ++ [stream.y + 1]), s2) := by
        simp [next_row, hstop, logged, hres]
      obtain ⟨i1, i2, i3, i4⟩ := ih u2 (log ++ [stream.y + 1]) s2 (by omega)
      rw [g2, g3] at i1 i2 i3
      rw [g3] at i4
      obtain ⟨j, hj⟩ : ∃ j, (stream.h - stream.y).toNat = j + 1 :=
        ⟨(stream.h - stream.y).toNat - 1, by omega⟩
      have hj2 : (stream.h - (stream.y + 1)).toNat = j := by omega
      rw [hj2] at i1 i2 i3
      have hmin : min (n + 1) (j + 1) = min n j + 1 := by omega
      simp only [next_rows, hnr, hj, hmin]
      refine ⟨?_, ?_, ?_, i4⟩
      · rw [i1]
        have : n + 1 - (j + 1) = n - j := by omega
        rw [this, List.replicate_succ, List.cons_append]
      · rw [i2, rows_from_cons, List.append_assoc, List.singleton_append]
      · rw [i3]; push_cast; ring

/-- C21: for a height `h ≥ 0`, from a stream with `y = -1` (the value `next_frame` hands to
its hook) and with a supplier hook that always returns 0 and leaves `y` and `h` alone, the
first `n` calls of `next_row`, for every `n`, are such that the first `h + 1` of them return 0
and all later ones return 1, the hook has been invoked with `y = 0, 1, ..., h` in that order
(as many of these as there were successful calls), and afterwards `-1 ≤ y ≤ h`. -/
theorem next_row_visits_rows {U : Type} (hook : U → stream_state → Int × U × stream_state)
    (u : U) (stream : stream_state)
    (hgood : ∀ u s, (hook u s).1 = 0 ∧ (hook u s).2.2.y = s.y ∧ (hook u s).2.2.h = s.h)
    (hh : 0 ≤ stream.h) (hy : stream.y = -1) :
    (∀ (frame_hook : U → stream_state → Int × U × stream_state) (s : stream_state),
      next_frame frame_hook u s = frame_hook u { s with wrap := false, x := 0, y := -1 }) ∧
    ∀ n : Nat,
      (next_rows (logged hook) n (u, []) stream).1
        = List.replicate (min n (stream.h.toNat + 1)) 0
          ++ List.replicate (n - (stream.h.toNat + 1)) 1 ∧
      (next_rows (logged hook) n (u, []) stream).2.1.2
        = rows_from 0 (min n (stream.h.toNat + 1)) ∧
      (n ≥ stream.h.toNat + 1 →
        (next_rows (logged hook) n (u, []) stream).2.1.2 = rows_from 0 (stream.h.toNat + 1) ∧
        (next_rows (logged hook) n (u, []) stream).2.2.y = stream.h) ∧
      -1 ≤ (next_rows (logged hook) n (u, []) stream).2.2.y ∧
      (next_rows (logged hook) n (u, []) stream).2.2.y ≤ stream.h ∧
      (next_rows (logged hook) n (u, []) stream).2.2.h = stream.h := by
  refine ⟨fun _ _ => rfl, ?_⟩
  intro n
  obtain ⟨r1, r2, r3, r4⟩ := next_rows_spec hook hgood n u [] stream (by omega)
  have hk : (stream.h - stream.y).toNat = stream.h.toNat + 1 := by omega
  rw [hk] at r1 r2 r3
  rw [hy] at r2 r3
  simp only [List.nil_append] at r2
  have r2b : (next_rows (logged hook) n (u, []) stream).2.1.2
      = rows_from 0 (min n (stream.h.toNat + 1)) := by
    rw [r2]; rfl
  refine ⟨r1, r2b, ?_, ?_, ?_, r4⟩
  · intro hn
    have hm : min n (stream.h.toNat + 1) = stream.h.toNat + 1 := by omega
    rw [r2b, r3, hm]
    refine ⟨rfl, ?_⟩
    push_cast
    omega
  · rw [r3]; omega
  · rw [r3]; omega

/-- C21 for the row hook of a still image and a stream with `h = 1`, `y = -1`. -/
theorem next_row_visits_rows_witness :
    (∀ (frame_hook : still_user → stream_state → Int × still_user × stream_state)
      (s : stream_state),
      next_frame frame_hook image5 s
        = frame_hook image5 { s with wrap := false, x := 0, y := -1 }) ∧
    ∀ n : Nat,
      (next_rows (logged still_hooks.next_row_hook) n (image5, []) { stream1 with y := -1 }).1
        = List.replicate (min n (({ stream1 with y := -1 } : stream_state).h.toNat + 1)) 0
          ++ List.replicate (n - (({ stream1 with y := -1 } : stream_state).h.toNat + 1)) 1 ∧
      (next_rows (logged still_hooks.next_row_hook) n (image5, [])
          { stream1 with y := -1 }).2.1.2
        = rows_from 0 (min n (({ stream1 with y := -1 } : stream_state).h.toNat + 1)) ∧
      (n ≥ ({ stream1 with y := -1 } : stream_state).h.toNat + 1 →
        (next_rows (logged still_hooks.next_row_hook) n (image5, [])
            { stream1 with y := -1 }).2.1.2
          = rows_from 0 (({ stream1 with y := -1 } : stream_state).h.toNat + 1) ∧
        (next_rows (logged still_hooks.next_row_hook) n (image5, [])
            { stream1 with y := -1 }).2.2.y
          = ({ stream1 with y := -1 } : stream_state).h) ∧
      -1 ≤ (next_rows (logged still_hooks.next_row_hook) n (image5, [])
          { stream1 with y := -1 }).2.2.y ∧
      (next_rows (logged still_hooks.next_row_hook) n (image5, [])
          { stream1 with y := -1 }).2.2.y ≤ ({ stream1 with y := -1 } : stream_state).h ∧
      (next_rows (logged still_hooks.next_row_hook) n (image5, [])
          { stream1 with y := -1 }).2.2.h = ({ stream1 with y := -1 } : stream_state).h :=
  next_row_visits_rows still_hooks.next_row_hook image5 { stream1 with y := -1 }
    (fun _ _ => ⟨rfl, rfl, rfl⟩) (by decide) rfl

end QuickBlob
